import Mathlib

/-!
# micreateimage / miwriteimages: a verification development

Shallow embedding of the functions of `micreateimage.c` that build the
exclusion list, create the image variables, update the history attribute and
copy the remaining parent content, and of the functions of `miwriteimages.c`
that parse and check the slice and frame lists, read the images from the
temporary file and write them with their statistics, followed by the
properties proved of them.

Conventions of the embedding:

* a C string is represented by the Lean `String` of its characters;
* an `int` array passed by pointer is a `List Int` holding the whole array, so
  that its length is the capacity of the array; a store outside the array has
  no defined result and is modelled by `none`;
* a `char` buffer of fixed size holds a string only when the string and its
  terminator fit; `strcpy` or `strcat` past the end of the buffer has no
  defined result (`none`), each character standing for one `char`;
* the NetCDF / MINC library is an external collaborator: what it answers is a
  parameter of the embedded functions;
* an array of `long` whose components may never have been assigned is a
  `List (Option Int)`, an unassigned component being `none`;
* a `double` is the rational number it denotes (finite values only), and the
  temporary file is the list of the samples still to be read.
-/

namespace Emma

/-! ## Exclusion lists (`FinishExclusionLists`) -/

/-- The part of an open parent file that `FinishExclusionLists` inquires:
the dimension names, indexed by dimension id, and the variable names, indexed
by variable id. -/
structure ParentFile where
  dims : List String
  vars : List String
  deriving Repr, DecidableEq

/-- Names of the four standard MINC variables, and the constant `MAX_NC_NAME`
that sizes the name buffers (`minc.h` and `netcdf.h` are not part of the
sources, so the five constants are a parameter). -/
structure MincNames where
  MIrootvariable : String
  MIimage : String
  MIimagemax : String
  MIimagemin : String
  MAX_NC_NAME : Nat
  deriving Repr, DecidableEq

/-- The library call `ncvarid`: id of the variable with the given name, or
`-1` when the file has no such variable. -/
def ncvarid (cdf : ParentFile) (name : String) : Int :=
  if name ∈ cdf.vars then (cdf.vars.indexOf name : Int) else -1

/-- Comparison of two character sequences the way `strcmp` walks them: the
result is zero when both end together, and otherwise has the sign of the
difference at the first position where they differ. -/
def strcmpChars : List Char → List Char → Int
  | [], [] => 0
  | [], _ :: _ => -1
  | _ :: _, [] => 1
  | a :: as, b :: bs =>
    if a = b then strcmpChars as bs else if a.toNat < b.toNat then -1 else 1

/-- The C library `strcmp`. -/
def strcmp (a b : String) : Int :=
  strcmpChars a.toList b.toList

/-- The pair `(*NumExclude, Exclude[])` that `FinishExclusionLists` updates in
place. `Exclude` is the whole array (its length is the capacity). -/
structure ExcludeList where
  NumExclude : Nat
  Exclude : List Int
  deriving Repr, DecidableEq

/-- The statement `Exclude [(*NumExclude)++] = v`. Undefined (`none`) when the
store falls outside the array. -/
def ExcludeList.put (st : ExcludeList) (v : Int) : Option ExcludeList :=
  if st.NumExclude < st.Exclude.length then
    some { NumExclude := st.NumExclude + 1, Exclude := st.Exclude.set st.NumExclude v }
  else none

/-- The entries in use: `Exclude[0 .. *NumExclude - 1]`. -/
def ExcludeList.entries (st : ExcludeList) : List Int :=
  st.Exclude.take st.NumExclude

/-- The `do ... while ((DimMatch != 0) && (CurChildDim < NumChildDims))` loop,
entered with the current value of `CurChildDim`; the result is the final
`DimMatch`. Reading `ChildDimNames` outside the array is undefined (`none`).
The first argument bounds the number of iterations. -/
def childDimLoop (ParentDimName : String) (ChildDimNames : List String) (NumChildDims : Nat) :
    Nat → Nat → Option Int
  | 0, _ => none
  | fuel + 1, CurChildDim =>
    match ChildDimNames[CurChildDim]? with
    | none => none
    | some ChildDimName =>
      let DimMatch := strcmp ParentDimName ChildDimName
      if DimMatch ≠ 0 ∧ CurChildDim + 1 < NumChildDims then
        childDimLoop ParentDimName ChildDimNames NumChildDims fuel (CurChildDim + 1)
      else some DimMatch

/-- The call `ncdiminq (ParentCDF, CurParentDim, name, NULL)` for a dimension
named `dimName` and a buffer `name` of `size` characters: the string the
buffer then holds. Undefined (`none`) when the name and its terminator do not
fit the buffer. -/
def ncdiminq (size : Nat) (dimName : String) : Option String :=
  if dimName.length + 1 ≤ size then some dimName else none

/-- The statement `strcpy (dest, src)` for a buffer `dest` of `size`
characters: the string `dest` then holds. Undefined (`none`) when `src` and
its terminator do not fit the buffer. -/
def strcpy (size : Nat) (src : String) : Option String :=
  if src.length + 1 ≤ size then some src else none

/-- The statement `strcat (dest, src)` for a buffer of `size` characters that
holds the string `dest`: the string it then holds. Undefined (`none`) when the
two strings and the terminator do not fit the buffer. -/
def strcat (size : Nat) (dest src : String) : Option String :=
  if dest.length + src.length + 1 ≤ size then some (dest ++ src) else none

/-- The body of the `for (CurParentDim ...)` loop from the test
`if ((ParentVar == -1) && (WidthVar == -1)) continue;` on, with the values the
statements before it gave to `ParentDimName`, `ParentVar` and `WidthVar`. -/
def excludeUnmatched (NumChildDims : Nat) (ChildDimNames : List String) (st : ExcludeList)
    (ParentDimName : String) (ParentVar WidthVar : Int) : Option ExcludeList :=
  if ParentVar = -1 ∧ WidthVar = -1 then some st
  else
    match childDimLoop ParentDimName ChildDimNames NumChildDims (NumChildDims + 1) 0 with
    | none => none
    | some DimMatch =>
      if DimMatch ≠ 0 then
        match (if ParentVar ≠ -1 then st.put ParentVar else some st) with
        | none => none
        | some st1 => if WidthVar ≠ -1 then st1.put WidthVar else some st1
      else some st

/-- Body of the `for (CurParentDim ...)` loop for the parent dimension named
`dimName`. `ParentDimName` and `ParentVarName` are buffers of `MAX_NC_NAME`
characters: `ncdiminq` writes the name to the first, `strcpy` copies it to the
second and `strcat` appends `"-width"` there. -/
def excludeParentDim (M : MincNames) (ParentCDF : ParentFile) (NumChildDims : Nat)
    (ChildDimNames : List String) (st : ExcludeList) (dimName : String) :
    Option ExcludeList :=
  match ncdiminq M.MAX_NC_NAME dimName with
  | none => none
  | some ParentDimName =>
    match strcpy M.MAX_NC_NAME ParentDimName with
    | none => none
    | some ParentVarName =>
      let ParentVar := ncvarid ParentCDF ParentVarName
      match strcat M.MAX_NC_NAME ParentVarName "-width" with
      | none => none
      | some ParentVarName1 =>
        let WidthVar := ncvarid ParentCDF ParentVarName1
        excludeUnmatched NumChildDims ChildDimNames st ParentDimName ParentVar WidthVar

/-- The `for (CurParentDim = 0; CurParentDim < NumParentDims; CurParentDim++)`
loop over the parent dimensions still to be scanned, in scan order. -/
def scanParentDims (M : MincNames) (ParentCDF : ParentFile) (NumChildDims : Nat)
    (ChildDimNames : List String) : ExcludeList → List String → Option ExcludeList
  | st, [] => some st
  | st, dimName :: rest =>
    match excludeParentDim M ParentCDF NumChildDims ChildDimNames st dimName with
    | none => none
    | some st1 => scanParentDims M ParentCDF NumChildDims ChildDimNames st1 rest

/-- The statements `ParentVar = ncvarid (ParentCDF, name); if (ParentVar != -1)
Exclude [(*NumExclude)++] = ParentVar;`. -/
def excludeIfPresent (ParentCDF : ParentFile) (name : String) (st : ExcludeList) :
    Option ExcludeList :=
  let ParentVar := ncvarid ParentCDF name
  if ParentVar ≠ -1 then st.put ParentVar else some st

/-- The four trailing blocks of `FinishExclusionLists`. -/
def excludeStandardVars (M : MincNames) (ParentCDF : ParentFile) (st : ExcludeList) :
    Option ExcludeList :=
  match excludeIfPresent ParentCDF M.MIrootvariable st with
  | none => none
  | some st1 =>
    match excludeIfPresent ParentCDF M.MIimage st1 with
    | none => none
    | some st2 =>
      match excludeIfPresent ParentCDF M.MIimagemax st2 with
      | none => none
      | some st3 => excludeIfPresent ParentCDF M.MIimagemin st3

/-- Embedding of `FinishExclusionLists (ParentCDF, NumChildDims, ChildDimNames, NumExclude,
Exclude)`: the updated `(*NumExclude, Exclude[])`. -/
def FinishExclusionLists (M : MincNames) (ParentCDF : ParentFile) (NumChildDims : Nat)
    (ChildDimNames : List String) (st : ExcludeList) : Option ExcludeList :=
  match scanParentDims M ParentCDF NumChildDims ChildDimNames st ParentCDF.dims with
  | none => none
  | some st1 => excludeStandardVars M ParentCDF st1

/-- What the specification says is appended for the parent dimension `D`:
nothing when the parent has neither a variable `D` nor a variable `D-width`
or when some child dimension name equals `D`; otherwise the ids of whichever
of the two variables exist. -/
def specDimExclusions (ParentCDF : ParentFile) (NumChildDims : Nat)
    (ChildDimNames : List String) (D : String) : List Int :=
  if ncvarid ParentCDF D = -1 ∧ ncvarid ParentCDF (D ++ "-width") = -1 then []
  else if D ∈ ChildDimNames.take NumChildDims then []
  else [ncvarid ParentCDF D, ncvarid ParentCDF (D ++ "-width")].filter (fun v => v ≠ -1)

/-- What the specification says is appended for the standard variables: the
ids of those of root, image, image-max and image-min that the parent has. -/
def specStandardExclusions (M : MincNames) (ParentCDF : ParentFile) : List Int :=
  [ncvarid ParentCDF M.MIrootvariable, ncvarid ParentCDF M.MIimage,
   ncvarid ParentCDF M.MIimagemax, ncvarid ParentCDF M.MIimagemin].filter (fun v => v ≠ -1)

/-- The entries one pass of the loop body stores for the parent dimension
`D`, read off `excludeUnmatched`: the ids of the variables `D` and `D-width`
that exist, when the child-dimension loop ends with a nonzero `DimMatch`. -/
def addedForDim (ParentCDF : ParentFile) (NumChildDims : Nat)
    (ChildDimNames : List String) (D : String) : List Int :=
  if ncvarid ParentCDF D = -1 ∧ ncvarid ParentCDF (D ++ "-width") = -1 then []
  else
    match childDimLoop D ChildDimNames NumChildDims (NumChildDims + 1) 0 with
    | none => []
    | some DimMatch =>
      if DimMatch ≠ 0 then
        [ncvarid ParentCDF D, ncvarid ParentCDF (D ++ "-width")].filter (fun v => v ≠ -1)
      else []

/-- Every dimension name of the list, followed by `"-width"` and a
terminator, fits a buffer of `MAX_NC_NAME` characters. -/
def NamesFit (M : MincNames) (dims : List String) : Prop :=
  ∀ D ∈ dims, D.length + "-width".length + 1 ≤ M.MAX_NC_NAME

instance (M : MincNames) (dims : List String) : Decidable (NamesFit M dims) := by
  unfold NamesFit
  infer_instance

/-- A parent file whose only dimension has a name of 125 characters. -/
def longNameParent : ParentFile :=
  { dims := [String.mk (List.replicate 125 'x')], vars := [String.mk (List.replicate 125 'x')] }

/-- Relation `Extends st st1 added`: `st1` is `st` with the entries `added` stored after
the entries in use, everything else of the array left as it was. -/
def Extends (st st1 : ExcludeList) (added : List Int) : Prop :=
  st1.Exclude.length = st.Exclude.length ∧
  st1.NumExclude = st.NumExclude + added.length ∧
  (∀ i, i < st.NumExclude → st1.Exclude[i]? = st.Exclude[i]?) ∧
  st1.entries = st.entries ++ added

/-- A parent file with dimensions frame, slice, height and width used in the
examples. -/
def exampleParent : ParentFile :=
  { dims := ["time", "zspace", "yspace", "xspace"],
    vars := ["rootvariable", "time", "time-width", "zspace", "yspace", "xspace",
             "image", "image-max", "image-min", "patient"] }

/-- The standard names as `minc.h` usually spells them and name buffers of 128
characters, used in the examples. -/
def exampleNames : MincNames :=
  { MIrootvariable := "rootvariable", MIimage := "image",
    MIimagemax := "image-max", MIimagemin := "image-min", MAX_NC_NAME := 128 }

/-- An empty exclusion list of capacity `n`. -/
def emptyExclude (n : Nat) : ExcludeList :=
  { NumExclude := 0, Exclude := List.replicate n 0 }

/-! ## The container library as `micreateimage` uses it -/

/-- The value the MINC and NetCDF calls return on failure. -/
def MI_ERROR : Int := -1

/-- The NetCDF numeric types, in the order of the `type_names` table. -/
inductive nc_type
  | NC_UNSPECIFIED
  | NC_BYTE
  | NC_CHAR
  | NC_SHORT
  | NC_LONG
  | NC_FLOAT
  | NC_DOUBLE
  deriving Repr, DecidableEq

/-- The value of an attribute: a string stored by `miattputstr`, or an array of
doubles stored by `ncattput` (each finite double held as the rational number
it denotes; the values are only stored, never computed with). -/
inductive AttValue
  | text (s : String)
  | doubles (v : List Rat)
  deriving Repr, DecidableEq

/-- A variable of the child file: name, type, the ids of the dimensions it
depends on, and its attributes. -/
structure Variable where
  name : String
  type : nc_type
  dims : List Int
  atts : List (String × AttValue)
  deriving Repr, DecidableEq

/-- A call to the container library, with the arguments that matter here. -/
inductive Call
  | ncopen (path : String)
  | nccreate (path : String)
  | ncclose (cdf : Int)
  | micreate_std_variable (cdf : Int) (name : String) (type : nc_type) (ndims : Int)
      (dimids : List Int)
  | miattputstr (cdf varid : Int) (name value : String)
  | ncattput_doubles (cdf varid : Int) (name : String) (value : List Rat)
  | ncattinq (cdf varid : Int) (name : String)
  | ncattget (cdf varid : Int) (name : String)
  | ncattput_chars (cdf varid : Int) (name : String) (value : List Char)
  | micopy_all_var_defs (parent child : Int) (exclude : List Int)
  | ncendef (cdf : Int)
  | micopy_all_var_values (parent child : Int) (exclude : List Int)
  deriving Repr, DecidableEq

/-- The state the container library keeps for one run of `micreateimage`: the
handles now open, the variables of the child file, the characters of the
child's global history attribute (`none` when it has none; they are the
characters as stored, so a terminating NUL is among them only if it was
stored), and the calls issued so far, oldest first. -/
structure World where
  opened : List Int
  vars : List Variable
  history : Option (List Char)
  calls : List Call
  deriving Repr, DecidableEq

/-- What the library answers where the code tests the answer: the handle (or
`MI_ERROR`) given by `ncopen` and `nccreate` for a path, whether
`micreate_std_variable` can create the variable of a given name, the outcome of
`micopy_all_var_defs` (success, and the variables it defined in the child) and
whether `micopy_all_var_values` succeeds, both for a given exclusion list. -/
structure Library where
  ncopen : String → Int
  nccreate : String → Int
  createsVar : String → Bool
  copyDefs : List Int → Bool × List Variable
  copyValues : List Int → Bool

/-- Attribute names, attribute values and the macro of `minc.h`, `netcdf.h`
and `micreateimage.h` that the embedded functions use (the headers are not
part of the sources, so they are a parameter). -/
structure MincAtts where
  NC_GLOBAL : Int
  MIhistory : String
  MIsigntype : String
  MIcomplete : String
  MIvalid_range : String
  MI_FALSE : String
  MI_SIGN_STR : Bool → String

/-- Record a call. -/
def World.issue (w : World) (c : Call) : World :=
  { w with calls := w.calls ++ [c] }

/-- Embedding of `ncopen (path, NC_NOWRITE)`: the handle, which is then open,
or `MI_ERROR`. -/
def ncopen (L : Library) (path : String) (w : World) : Int × World :=
  let cdf := L.ncopen path
  let w1 := w.issue (Call.ncopen path)
  if cdf = MI_ERROR then (cdf, w1) else (cdf, { w1 with opened := cdf :: w1.opened })

/-- Embedding of `nccreate (path, NC_CLOBBER)`: the handle of a new, empty
file, which is then open, or `MI_ERROR`. -/
def nccreate (L : Library) (path : String) (w : World) : Int × World :=
  let cdf := L.nccreate path
  let w1 := w.issue (Call.nccreate path)
  if cdf = MI_ERROR then (cdf, w1)
  else (cdf, { w1 with opened := cdf :: w1.opened, vars := [], history := none })

/-- Embedding of `ncclose (cdf)`: the handle is no longer open. -/
def ncclose (cdf : Int) (w : World) : World :=
  { w.issue (Call.ncclose cdf) with opened := w.opened.erase cdf }

/-- Embedding of `micreate_std_variable (cdf, name, type, ndims, dimids)`: on
success the child has a new variable depending on the first `ndims` entries of `dimids`
and the result is its id; on failure the result is `MI_ERROR` and no variable
is created. A count that is negative or exceeds the array is a failure. -/
def micreate_std_variable (L : Library) (cdf : Int) (name : String) (type : nc_type)
    (ndims : Int) (dimids : List Int) (w : World) : Int × World :=
  let w1 := w.issue (Call.micreate_std_variable cdf name type ndims dimids)
  if L.createsVar name = true ∧ 0 ≤ ndims ∧ ndims ≤ dimids.length then
    ((w1.vars.length : Int),
      { w1 with vars := w1.vars ++
          [{ name := name, type := type, dims := dimids.take ndims.toNat, atts := [] }] })
  else (MI_ERROR, w1)

/-- Set attribute `name` of a variable, replacing a previous value. -/
def Variable.setAtt (v : Variable) (name : String) (value : AttValue) : Variable :=
  { v with atts := (v.atts.filter (fun a => a.1 ≠ name)) ++ [(name, value)] }

/-- Store an attribute of the variable `varid` of the child. When `varid` is
not the id of a variable (as `MI_ERROR` is not), no variable changes. -/
def World.putAtt (w : World) (varid : Int) (name : String) (value : AttValue) : World :=
  if 0 ≤ varid ∧ varid < w.vars.length then
    { w with vars := w.vars.modify (fun v => v.setAtt name value) varid.toNat }
  else w

/-- Embedding of `miattputstr (cdf, varid, name, value)`, its result discarded. -/
def miattputstr (cdf varid : Int) (name value : String) (w : World) : World :=
  (w.issue (Call.miattputstr cdf varid name value)).putAtt varid name (AttValue.text value)

/-- Embedding of `ncattput (cdf, varid, name, NC_DOUBLE, 2, value)`, its result
discarded. -/
def ncattput_doubles (cdf varid : Int) (name : String) (value : List Rat) (w : World) :
    World :=
  (w.issue (Call.ncattput_doubles cdf varid name value)).putAtt varid name
    (AttValue.doubles value)

/-- Embedding of `CreateImageVars (CDF, NumDim, DimIDs, NCType, Signed,
ValidRange)`: the Boolean it returns and the state of the library afterwards. -/
def CreateImageVars (M : MincNames) (A : MincAtts) (L : Library) (CDF : Int) (NumDim : Int)
    (DimIDs : List Int) (NCType : nc_type) (Signed : Bool) (ValidRange : Rat × Rat)
    (w : World) : Bool × World :=
  let (image_id, w1) := micreate_std_variable L CDF M.MIimage NCType NumDim DimIDs w
  let w2 := miattputstr CDF image_id A.MIsigntype (A.MI_SIGN_STR Signed) w1
  let w3 := miattputstr CDF image_id A.MIcomplete A.MI_FALSE w2
  let w4 := ncattput_doubles CDF image_id A.MIvalid_range [ValidRange.1, ValidRange.2] w3
  let (max_id, w5) :=
    micreate_std_variable L CDF M.MIimagemax nc_type.NC_DOUBLE (NumDim - 2) DimIDs w4
  let (min_id, w6) :=
    micreate_std_variable L CDF M.MIimagemin nc_type.NC_DOUBLE (NumDim - 2) DimIDs w5
  if max_id = MI_ERROR ∨ min_id = MI_ERROR then (false, w6) else (true, w6)

/-- The C string that starts at the beginning of a buffer holding exactly the
given characters: the characters before the first NUL. When the buffer holds
no NUL, reading the string runs past the end of the buffer, which is
undefined (`none`). -/
def cString (buffer : List Char) : Option (List Char) :=
  if '\x00' ∈ buffer then some (buffer.takeWhile (fun c => c ≠ '\x00')) else none

/-- The characters of a C string passed as argument (up to its terminator). -/
def strChars (s : String) : List Char :=
  s.toList.takeWhile (fun c => c ≠ '\x00')

/-- Embedding of `UpdateHistory (ChildCDF, TimeStamp)`: the state of the
library afterwards. In the second branch `OldHist` is a buffer of exactly
`HistLen` characters filled by `ncattget`, and `strcat` reads it as a C
string. -/
def UpdateHistory (A : MincAtts) (ChildCDF : Int) (TimeStamp : String) (w : World) :
    Option World :=
  let w1 := w.issue (Call.ncattinq ChildCDF A.NC_GLOBAL A.MIhistory)
  match w1.history with
  | none =>
    some { w1.issue (Call.ncattput_chars ChildCDF A.NC_GLOBAL A.MIhistory (strChars TimeStamp))
           with history := some (strChars TimeStamp) }
  | some OldHist =>
    let w2 := w1.issue (Call.ncattget ChildCDF A.NC_GLOBAL A.MIhistory)
    match cString OldHist with
    | none => none
    | some OldString =>
      let NewHist := strChars TimeStamp ++ OldString
      some { w2.issue (Call.ncattput_chars ChildCDF A.NC_GLOBAL A.MIhistory NewHist)
             with history := some NewHist }

/-- Embedding of `micopy_all_var_defs (ParentCDF, ChildCDF, NumExclude,
Exclude)`: whether it succeeded, the variables it defined being added to the child. -/
def micopy_all_var_defs (L : Library) (ParentCDF ChildCDF : Int) (NumExclude : Nat)
    (Exclude : List Int) (w : World) : Bool × World :=
  let excl := Exclude.take NumExclude
  let w1 := w.issue (Call.micopy_all_var_defs ParentCDF ChildCDF excl)
  ((L.copyDefs excl).1, { w1 with vars := w1.vars ++ (L.copyDefs excl).2 })

/-- Embedding of `micopy_all_var_values (ParentCDF, ChildCDF, NumExclude,
Exclude)`: whether it succeeded. -/
def micopy_all_var_values (L : Library) (ParentCDF ChildCDF : Int) (NumExclude : Nat)
    (Exclude : List Int) (w : World) : Bool × World :=
  let excl := Exclude.take NumExclude
  (L.copyValues excl, w.issue (Call.micopy_all_var_values ParentCDF ChildCDF excl))

/-- Embedding of `ncendef (cdf)`. -/
def ncendef (cdf : Int) (w : World) : World :=
  w.issue (Call.ncendef cdf)

/-- Embedding of `CopyOthers (ParentCDF, ChildCDF, NumExclude, Exclude,
TimeStamp)`: the Boolean it returns and the state of the library afterwards; undefined where
`UpdateHistory` is. -/
def CopyOthers (A : MincAtts) (L : Library) (ParentCDF ChildCDF : Int) (NumExclude : Nat)
    (Exclude : List Int) (TimeStamp : String) (w : World) : Option (Bool × World) :=
  let (defsOk, w1) := micopy_all_var_defs L ParentCDF ChildCDF NumExclude Exclude w
  if defsOk = false then
    some (false, ncclose ChildCDF w1)
  else
    match UpdateHistory A ChildCDF TimeStamp w1 with
    | none => none
    | some w2 =>
      let w3 := ncendef ChildCDF w2
      let (valuesOk, w4) := micopy_all_var_values L ParentCDF ChildCDF NumExclude Exclude w3
      if valuesOk = false then
        some (false, ncclose ChildCDF w4)
      else some (true, w4)

/-- Embedding of `OpenFiles (parent_file, child_file, &parent_CDF,
&child_CDF)`, where `parent_file` is `none` for a NULL pointer and `child_CDF` is the value that
output variable holds before the call (`*parent_CDF` is assigned on every
path): the Boolean it returns, the two output variables and the state of the
library afterwards. -/
def OpenFiles (L : Library) (parent_file : Option String) (child_file : String)
    (child_CDF : Int) (w : World) : Bool × Int × Int × World :=
  let (parent_CDF1, w1) :=
    match parent_file with
    | some path => ncopen L path w
    | none => ((-1 : Int), w)
  if parent_file.isSome = true ∧ parent_CDF1 = MI_ERROR then
    (false, parent_CDF1, child_CDF, w1)
  else
    let (child_CDF1, w2) := nccreate L child_file w1
    if child_CDF1 = MI_ERROR then
      (false, parent_CDF1, child_CDF1, ncclose parent_CDF1 w2)
    else (true, parent_CDF1, child_CDF1, w2)

/-- The state `CreateImageVars` has reached when it is about to create the
image-max variable: the image variable created (or not) and its three
attributes stored. -/
def afterImageVar (M : MincNames) (A : MincAtts) (L : Library) (CDF : Int) (NumDim : Int)
    (DimIDs : List Int) (NCType : nc_type) (Signed : Bool) (ValidRange : Rat × Rat)
    (w : World) : World :=
  let r := micreate_std_variable L CDF M.MIimage NCType NumDim DimIDs w
  ncattput_doubles CDF r.1 A.MIvalid_range [ValidRange.1, ValidRange.2]
    (miattputstr CDF r.1 A.MIcomplete A.MI_FALSE
      (miattputstr CDF r.1 A.MIsigntype (A.MI_SIGN_STR Signed) r.2))

/-- Name, type and dimension list of a variable (what its definition fixes,
its attributes left aside). -/
def Variable.shape (v : Variable) : String × nc_type × List Int :=
  (v.name, v.type, v.dims)

/-- Is the call the definition copy? -/
def Call.isDefsCopy : Call → Bool
  | Call.micopy_all_var_defs _ _ _ => true
  | _ => false

/-- Is the call one of the attribute calls `UpdateHistory` issues? -/
def Call.isHistoryCall : Call → Bool
  | Call.ncattinq _ _ _ => true
  | Call.ncattget _ _ _ => true
  | Call.ncattput_chars _ _ _ _ => true
  | _ => false

/-- Is the call `ncclose`? -/
def Call.isClose : Call → Bool
  | Call.ncclose _ => true
  | _ => false

/-- The calls issued between the state `w` and the later state `w1`. -/
def World.callsSince (w1 w : World) : List Call :=
  w1.calls.drop w.calls.length

/-- The attribute constants as the MINC headers usually spell them, used in
the examples. -/
def exampleAtts : MincAtts :=
  { NC_GLOBAL := -1, MIhistory := "history", MIsigntype := "signtype",
    MIcomplete := "complete", MIvalid_range := "valid_range", MI_FALSE := "false",
    MI_SIGN_STR := fun s => if s then "signed__" else "unsigned" }

/-- A library on which every call succeeds: the parent is opened as handle 3,
the child created as handle 4, the definition copy defines no variable. -/
def goodLibrary : Library :=
  { ncopen := fun _ => 3, nccreate := fun _ => 4, createsVar := fun _ => true,
    copyDefs := fun _ => (true, []), copyValues := fun _ => true }

/-- A library that cannot create the image variable and succeeds in all else. -/
def imageFailsLibrary : Library :=
  { goodLibrary with createsVar := fun name => name != "image" }

/-- A library that cannot create the image-max variable. -/
def imageMaxFailsLibrary : Library :=
  { goodLibrary with createsVar := fun name => name != "image-max" }

/-- A library on which the value copy fails. -/
def valuesFailLibrary : Library :=
  { goodLibrary with copyValues := fun _ => false }

/-- A library on which the definition copy fails. -/
def defsFailLibrary : Library :=
  { goodLibrary with copyDefs := fun _ => (false, []) }

/-- A library that cannot create the child file. -/
def createFailsLibrary : Library :=
  { goodLibrary with nccreate := fun _ => MI_ERROR }

/-- A state in which the given handles are open and the child file is empty. -/
def freshWorld (opened : List Int) : World :=
  { opened := opened, vars := [], history := none, calls := [] }

/-! ## The functions of `miwriteimages` -/

/-- Modelled from the spec: the error codes of `mierrors.h`, which is not part
of the sources; the codes `WriteImages` and `main` use, distinct from one
another. -/
inductive ErrCode
  | ERR_NONE
  | ERR_ARGS
  | ERR_IN_TEMP
  | ERR_OUT_MINC
  deriving Repr, DecidableEq

/-- Modelled from the spec: the record `ImageInfoRec` of `mincutil.h`, which is
not part of the sources, with the fields the functions read: the handles and
variable ids of the open file, the lengths of its image dimensions, the number
of samples of one image (a count, so a natural number) and the position of
each image dimension among the dimensions of the image variable. -/
structure ImageInfoRec where
  CDF : Int
  ICV : Int
  ID : Int
  MaxID : Int
  MinID : Int
  Frames : Int
  Slices : Int
  Height : Int
  Width : Int
  ImageSize : Nat
  FrameDim : Int
  SliceDim : Int
  HeightDim : Int
  WidthDim : Int
  deriving Repr, DecidableEq

/-- The text `sprintf` puts in `ErrMsg`, by format string, with the numbers
that fill it in (the value of `ncerr` in the last one is left out). -/
inductive Message
  | badSlice (number bound : Int)
  | badFrame (number bound : Int)
  | tempReadError (slice frame : Int)
  | icvPutBug
  deriving Repr, DecidableEq

/-- Constants of `netcdf.h`, `float.h` and `minc.h` used by `WriteImages` and
`PutMaxMin` (the headers are not part of the sources, so they are a
parameter; `DBL_MAX` is held as the rational number it denotes). -/
structure WriteDefs where
  MAX_NC_DIMS : Nat
  DBL_MAX : Rat
  MI_TRUE : String
  deriving Repr, DecidableEq

/-- A call `WriteImages` and `PutMaxMin` issue on the temporary file or on the
MINC file. Coordinate vectors are passed whole; a component never assigned is
`none`. -/
inductive WriteCall
  | fread (wanted : Nat) (got : List Rat)
  | mivarput1 (cdf varid : Int) (coord : List (Option Int)) (value : Rat)
  | miicv_put (icv : Int) (start count : List (Option Int)) (buffer : List Rat)
  deriving Repr, DecidableEq

/-- The state `miwriteimages` works on: the MINC file (its variables and their
attributes), the samples of the temporary file not read yet, the calls issued
so far (oldest first), the number of `miicv_put` calls among them, and the
content of `ErrMsg` (`none` while nothing was written to it). -/
structure WriteState where
  file : World
  TempFile : List Rat
  calls : List WriteCall
  nPut : Nat
  ErrMsg : Option Message
  deriving Repr, DecidableEq

/-- The tokens `strtok` yields for a delimiter: the maximal runs of characters
other than the delimiter, in order (`current` holds, reversed, the run being
read). -/
def strtokTokens (delim : Char) : List Char → List Char → List (List Char)
  | [], current => if current = [] then [] else [current.reverse]
  | c :: rest, current =>
    if c = delim then
      if current = [] then strtokTokens delim rest []
      else current.reverse :: strtokTokens delim rest []
    else strtokTokens delim rest (c :: current)

/-- The C library `isdigit`. -/
def isdigit (c : Char) : Bool :=
  decide ('0'.toNat ≤ c.toNat ∧ c.toNat ≤ '9'.toNat)

/-- The C library `atoi` on a string that starts with a digit: the value of
its leading decimal digits (no bound is put on the value). -/
def atoi (token : List Char) : Int :=
  ((token.takeWhile isdigit).foldl (fun acc c => acc * 10 + (c.toNat - '0'.toNat)) 0 : Nat)

/-- The `while (token != NULL)` loop of `GetVector` over the tokens still to
come: the value returned, the array `vector` and the indices stored so far.
A store outside `vector` is undefined (`none`). -/
def getVectorLoop (max_elements : Int) :
    List (List Char) → Nat → List Int → List Nat → Option (Int × List Int × List Nat)
  | [], member, vector, stores => some ((member : Int), vector, stores)
  | token :: rest, member, vector, stores =>
    if isdigit (token.headD '\x00') = true then
      if member < vector.length then
        let vector1 := vector.set member (atoi token)
        let member1 := member + 1
        if (member1 : Int) = max_elements then some (-2, vector1, stores ++ [member])
        else getVectorLoop max_elements rest member1 vector1 (stores ++ [member])
      else none
    else some (-1, vector, stores)

/-- Embedding of `GetVector (vector_string, vector, max_elements)`: the value
returned, the array `vector` afterwards and the list of the indices of
`vector` that were stored to, in the order of the stores. -/
def GetVector (vector_string : String) (vector : List Int) (max_elements : Int) :
    Option (Int × List Int × List Nat) :=
  let chars := strChars vector_string
  if chars.length = 0 ∨ chars.head? = some '-' then some (0, vector, [])
  else
    match strtokTokens ',' chars [] with
    | [] => some (-3, vector, [])
    | token :: rest => getVectorLoop max_elements (token :: rest) 0 vector []

/-- The `for (i = 0; i < NumSlices; i++)` loop of `VerifyVectors`, entered with
`remaining` iterations to go at index `i`: the message of the first slice
refused, if any. Reading outside `Slices` is undefined (`none`). -/
def verifySlices (Slices : List Int) (Image : ImageInfoRec) :
    Nat → Nat → Option (Option Message)
  | 0, _ => some none
  | remaining + 1, i =>
    match Slices[i]? with
    | none => none
    | some s =>
      if s ≥ Image.Slices ∨ s < 0 then some (some (Message.badSlice s Image.Slices))
      else verifySlices Slices Image remaining (i + 1)

/-- The `for (i = 0; i < NumFrames; i++)` loop of `VerifyVectors`. -/
def verifyFrames (Frames : List Int) (Image : ImageInfoRec) :
    Nat → Nat → Option (Option Message)
  | 0, _ => some none
  | remaining + 1, i =>
    match Frames[i]? with
    | none => none
    | some f =>
      if f ≥ Image.Frames ∨ f < 0 then some (some (Message.badFrame f Image.Frames))
      else verifyFrames Frames Image remaining (i + 1)

/-- Embedding of `VerifyVectors (Slices, Frames, NumSlices, NumFrames, Image)`:
the Boolean returned and what was written to `ErrMsg`, if anything. -/
def VerifyVectors (Slices Frames : List Int) (NumSlices NumFrames : Int)
    (Image : ImageInfoRec) : Option (Bool × Option Message) :=
  match verifySlices Slices Image NumSlices.toNat 0 with
  | none => none
  | some (some msg) => some (false, some msg)
  | some none =>
    match verifyFrames Frames Image NumFrames.toNat 0 with
    | none => none
    | some (some msg) => some (false, some msg)
    | some none => some (true, none)

/-- Embedding of `ReadNextImage (Buffer, ImageSize, InFile)`: `fread` moves up
to `ImageSize` samples from the file to the start of `Buffer`; the Boolean
returned, the buffer and the state afterwards. -/
def ReadNextImage (Buffer : List Rat) (ImageSize : Nat) (st : WriteState) :
    Bool × List Rat × WriteState :=
  let got := st.TempFile.take ImageSize
  let AmtRead := got.length
  let st1 := { st with TempFile := st.TempFile.drop ImageSize,
                       calls := st.calls ++ [WriteCall.fread ImageSize got] }
  if AmtRead ≠ ImageSize then (false, got ++ Buffer.drop AmtRead, st1)
  else (true, got ++ Buffer.drop AmtRead, st1)

/-- The assignment `a [i] = v` to an array of `long` whose components may be
unassigned. Outside the array it is undefined (`none`). -/
def storeAt (a : List (Option Int)) (i : Int) (v : Int) : Option (List (Option Int)) :=
  if 0 ≤ i ∧ i < a.length then some (a.set i.toNat (some v)) else none

/-- The `for (i = 0; i < ImInfo->ImageSize; i++)` loop of `PutMaxMin`, entered
with `remaining` iterations to go at index `i` and the current `(Max, Min)`.
Reading outside `ImVals` is undefined (`none`). -/
def scanMaxMin (ImVals : List Rat) : Nat → Nat → Rat × Rat → Option (Rat × Rat)
  | 0, _, maxMin => some maxMin
  | remaining + 1, i, (Max, Min) =>
    match ImVals[i]? with
    | none => none
    | some v =>
      let Max1 := if v > Max then v else Max
      let Min1 := if v < Min then v else Min
      scanMaxMin ImVals remaining (i + 1) (Max1, Min1)

/-- Embedding of `mivarput1 (cdf, varid, coord, NC_DOUBLE, MI_SIGNED, &value)`,
its result discarded. -/
def mivarput1 (cdf varid : Int) (coord : List (Option Int)) (value : Rat)
    (st : WriteState) : WriteState :=
  { st with calls := st.calls ++ [WriteCall.mivarput1 cdf varid coord value] }

/-- Embedding of `PutMaxMin (ImInfo, ImVals, SliceNum, FrameNum, DoFrames)`:
the state afterwards. `Coord` is the local array of two `long`, unassigned at
first. -/
def PutMaxMin (D : WriteDefs) (ImInfo : ImageInfoRec) (ImVals : List Rat)
    (SliceNum FrameNum : Int) (DoFrames : Bool) (st : WriteState) : Option WriteState :=
  match scanMaxMin ImVals ImInfo.ImageSize 0 (-D.DBL_MAX, D.DBL_MAX) with
  | none => none
  | some (Max, Min) =>
    let Coord : List (Option Int) := [none, none]
    match (if DoFrames = true then storeAt Coord ImInfo.FrameDim FrameNum else some Coord) with
    | none => none
    | some Coord1 =>
      match storeAt Coord1 ImInfo.SliceDim SliceNum with
      | none => none
      | some Coord2 =>
        some (mivarput1 ImInfo.CDF ImInfo.MinID Coord2 Min
          (mivarput1 ImInfo.CDF ImInfo.MaxID Coord2 Max st))

/-- What a statement inside the loops of `WriteImages` leads to: the loop goes
on with the local `Start` and `Buffer` and the state, or the function returns
a code. -/
inductive Flow
  | next (Start : List (Option Int)) (Buffer : List Rat) (st : WriteState)
  | ret (code : ErrCode) (st : WriteState)
  deriving Repr, DecidableEq

/-- Body of the `for (frame ...)` loop of `WriteImages`. `putOk k` tells
whether the `miicv_put` call number `k` (from 0) of the run succeeds. -/
def writePlane (D : WriteDefs) (putOk : Nat → Bool) (Image : ImageInfoRec)
    (Slices Frames : List Int) (Count : List (Option Int)) (DoFrames : Bool)
    (slice frame : Nat) (Start : List (Option Int)) (Buffer : List Rat) (st : WriteState) :
    Option Flow :=
  let (Success, Buffer1, st1) := ReadNextImage Buffer Image.ImageSize st
  if Success = false then
    some (Flow.ret ErrCode.ERR_IN_TEMP
      { st1 with ErrMsg := some (Message.tempReadError slice frame) })
  else
    match Slices[slice]?, Frames[frame]? with
    | some SliceNum, some FrameNum =>
      match PutMaxMin D Image Buffer1 SliceNum FrameNum DoFrames st1 with
      | none => none
      | some st2 =>
        match (if DoFrames = true then storeAt Start Image.FrameDim FrameNum
               else some Start) with
        | none => none
        | some Start1 =>
          let st3 := { st2 with
            calls := st2.calls ++ [WriteCall.miicv_put Image.ICV Start1 Count Buffer1],
            nPut := st2.nPut + 1 }
          if putOk st2.nPut = false then
            some (Flow.ret ErrCode.ERR_OUT_MINC { st3 with ErrMsg := some Message.icvPutBug })
          else some (Flow.next Start1 Buffer1 st3)
    | _, _ => none

/-- The `for (frame = 0; frame < NumFrames; frame++)` loop of `WriteImages`,
entered with `remaining` iterations to go at index `frame`. -/
def frameLoop (D : WriteDefs) (putOk : Nat → Bool) (Image : ImageInfoRec)
    (Slices Frames : List Int) (Count : List (Option Int)) (DoFrames : Bool) (slice : Nat) :
    Nat → Nat → List (Option Int) → List Rat → WriteState → Option Flow
  | 0, _, Start, Buffer, st => some (Flow.next Start Buffer st)
  | remaining + 1, frame, Start, Buffer, st =>
    match writePlane D putOk Image Slices Frames Count DoFrames slice frame Start Buffer st with
    | none => none
    | some (Flow.ret code st1) => some (Flow.ret code st1)
    | some (Flow.next Start1 Buffer1 st1) =>
      frameLoop D putOk Image Slices Frames Count DoFrames slice remaining (frame + 1)
        Start1 Buffer1 st1

/-- The `for (slice = 0; slice < NumSlices; slice++)` loop of `WriteImages`,
entered with `remaining` iterations to go at index `slice`; `NumFrames` is the
number of passes of the inner loop. -/
def sliceLoop (D : WriteDefs) (putOk : Nat → Bool) (Image : ImageInfoRec)
    (Slices Frames : List Int) (Count : List (Option Int)) (DoFrames : Bool) (NumFrames : Nat) :
    Nat → Nat → List (Option Int) → List Rat → WriteState → Option Flow
  | 0, _, Start, Buffer, st => some (Flow.next Start Buffer st)
  | remaining + 1, slice, Start, Buffer, st =>
    match Slices[slice]? with
    | none => none
    | some SliceNum =>
      match storeAt Start Image.SliceDim SliceNum with
      | none => none
      | some Start1 =>
        match frameLoop D putOk Image Slices Frames Count DoFrames slice NumFrames 0
            Start1 Buffer st with
        | none => none
        | some (Flow.ret code st1) => some (Flow.ret code st1)
        | some (Flow.next Start2 Buffer2 st2) =>
          sliceLoop D putOk Image Slices Frames Count DoFrames NumFrames remaining (slice + 1)
            Start2 Buffer2 st2

/-- The statements of `WriteImages` before its loops: the arrays `Start` and
`Count` (of `MAX_NC_DIMS` components, unassigned at first), `DoFrames` and the
number of passes of the frame loop. -/
def writeSetup (D : WriteDefs) (Image : ImageInfoRec) (NumFrames : Int) :
    Option (List (Option Int) × List (Option Int) × Bool × Nat) :=
  let Start0 : List (Option Int) := List.replicate D.MAX_NC_DIMS none
  let Count0 : List (Option Int) := List.replicate D.MAX_NC_DIMS none
  match storeAt Start0 Image.HeightDim 0, storeAt Count0 Image.HeightDim Image.Height with
  | some Start1, some Count1 =>
    match storeAt Start1 Image.WidthDim 0, storeAt Count1 Image.WidthDim Image.Width with
    | some Start2, some Count2 =>
      match storeAt Count2 Image.SliceDim 1 with
      | some Count3 =>
        if NumFrames > 0 then
          match storeAt Count3 Image.FrameDim 1 with
          | some Count4 => some (Start2, Count4, true, NumFrames.toNat)
          | none => none
        else some (Start2, Count3, false, 1)
      | none => none
    | _, _ => none
  | _, _ => none

/-- Embedding of `WriteImages (TempFile, Image, Slices, Frames, NumSlices,
NumFrames)`: the code returned and the state afterwards. `Slices` and `Frames`
are the whole arrays, `putOk k` tells whether the `miicv_put` call number `k`
(from 0) succeeds. -/
def WriteImages (A : MincAtts) (D : WriteDefs) (putOk : Nat → Bool) (Image : ImageInfoRec)
    (Slices Frames : List Int) (NumSlices NumFrames : Int) (st : WriteState) :
    Option (ErrCode × WriteState) :=
  let Buffer : List Rat := List.replicate Image.ImageSize 0
  match writeSetup D Image NumFrames with
  | none => none
  | some (Start, Count, DoFrames, NumFrames1) =>
    match sliceLoop D putOk Image Slices Frames Count DoFrames NumFrames1 NumSlices.toNat 0
        Start Buffer st with
    | none => none
    | some (Flow.ret code st1) => some (code, st1)
    | some (Flow.next _ _ st1) =>
      some (ErrCode.ERR_NONE,
        { st1 with file := miattputstr Image.CDF Image.ID A.MIcomplete D.MI_TRUE st1.file })

/-- An image file with frame, slice, height and width dimensions, in this
order: 2 frames, 3 slices, images of 1 by 2 samples. -/
def exampleImage : ImageInfoRec :=
  { CDF := 4, ICV := 7, ID := 0, MaxID := 1, MinID := 2, Frames := 2, Slices := 3,
    Height := 1, Width := 2, ImageSize := 2, FrameDim := 0, SliceDim := 1, HeightDim := 2,
    WidthDim := 3 }

/-- An image file with slice, height and width dimensions and no frames. -/
def exampleImageNoFrames : ImageInfoRec :=
  { CDF := 4, ICV := 7, ID := 0, MaxID := 1, MinID := 2, Frames := 0, Slices := 3,
    Height := 1, Width := 2, ImageSize := 2, FrameDim := -1, SliceDim := 0, HeightDim := 1,
    WidthDim := 2 }

/-- Constants used in the examples: arrays of four dimensions. -/
def exampleDefs : WriteDefs :=
  { MAX_NC_DIMS := 4, DBL_MAX := 1000000, MI_TRUE := "true_" }

/-- The MINC file right after `CreateImageVars` created its three variables. -/
def createdFile : World :=
  (CreateImageVars exampleNames exampleAtts goodLibrary 4 4 [0, 1, 2, 3] nc_type.NC_SHORT
    true (0, 255) (freshWorld [4])).2

/-- A state in which the temporary file holds the given samples and nothing
was done yet on the file just created. -/
def startState (samples : List Rat) : WriteState :=
  { file := createdFile, TempFile := samples, calls := [], nPut := 0, ErrMsg := none }

/-- The value `Max` has after the loop of `PutMaxMin` ran over the samples `l`
starting from `M`. -/
def maxFrom (M : Rat) (l : List Rat) : Rat :=
  l.foldl (fun Max v => if v > Max then v else Max) M

/-- The value `Min` has after the loop of `PutMaxMin` ran over the samples `l`
starting from `m`. -/
def minFrom (m : Rat) (l : List Rat) : Rat :=
  l.foldl (fun Min v => if v < Min then v else Min) m

/-- The array `Coord` of `PutMaxMin` after its two assignments, when both
indices are in the array. -/
def statCoord (ImInfo : ImageInfoRec) (SliceNum FrameNum : Int) (DoFrames : Bool) :
    List (Option Int) :=
  (if DoFrames = true then [none, none].set ImInfo.FrameDim.toNat (some FrameNum)
   else [none, none]).set ImInfo.SliceDim.toNat (some SliceNum)

/-! ## The sequence of calls of a run of WriteImages -/

/-- The number of passes of the frame loop of `WriteImages`: `NumFrames` when it
is positive, 1 otherwise. -/
def framePasses (NumFrames : Int) : Nat :=
  if NumFrames > 0 then NumFrames.toNat else 1

/-- The image number `k` (from 0) of a temporary file whose images have `n`
samples. -/
def segment (n : Nat) (samples : List Rat) (k : Nat) : List Rat :=
  (samples.drop (n * k)).take n

/-- The array `Start` of `WriteImages` when the loops are entered. -/
def setupStart (D : WriteDefs) (Image : ImageInfoRec) : List (Option Int) :=
  ((List.replicate D.MAX_NC_DIMS none).set Image.HeightDim.toNat (some 0)).set
    Image.WidthDim.toNat (some 0)

/-- The array `Count` of `WriteImages` when the loops are entered. -/
def setupCount (D : WriteDefs) (Image : ImageInfoRec) (DoFrames : Bool) : List (Option Int) :=
  if DoFrames = true then
    ((((List.replicate D.MAX_NC_DIMS none).set Image.HeightDim.toNat (some Image.Height)).set
      Image.WidthDim.toNat (some Image.Width)).set Image.SliceDim.toNat (some 1)).set
      Image.FrameDim.toNat (some 1)
  else
    (((List.replicate D.MAX_NC_DIMS none).set Image.HeightDim.toNat (some Image.Height)).set
      Image.WidthDim.toNat (some Image.Width)).set Image.SliceDim.toNat (some 1)

/-- The array `Start` with the frame `f` stored when `DoFrames` is true. -/
def frameStart (Image : ImageInfoRec) (DoFrames : Bool) (Start : List (Option Int))
    (f : Int) : List (Option Int) :=
  if DoFrames = true then Start.set Image.FrameDim.toNat (some f) else Start

/-- The array `Start` for the image of slice `s` and frame `f`: the array of the
setup with the slice stored and, when `DoFrames` is true, the frame stored. -/
def planeStart (D : WriteDefs) (Image : ImageInfoRec) (DoFrames : Bool) (s f : Int) :
    List (Option Int) :=
  frameStart Image DoFrames ((setupStart D Image).set Image.SliceDim.toNat (some s)) f

/-- The four calls for one image `buffer` placed at slice `s` and frame `f`: the
read, the two statistics writes and the image write. -/
def planeCalls (D : WriteDefs) (Image : ImageInfoRec) (DoFrames : Bool) (s f : Int)
    (buffer : List Rat) : List WriteCall :=
  [WriteCall.fread Image.ImageSize buffer,
   WriteCall.mivarput1 Image.CDF Image.MaxID (statCoord Image s f DoFrames)
     (maxFrom (-D.DBL_MAX) buffer),
   WriteCall.mivarput1 Image.CDF Image.MinID (statCoord Image s f DoFrames)
     (minFrom D.DBL_MAX buffer),
   WriteCall.miicv_put Image.ICV (planeStart D Image DoFrames s f)
     (setupCount D Image DoFrames) buffer]

/-- The four calls for the image number `k` (from 0) in slice-major order: slice
`Slices[k div passes]`, frame `Frames[k mod passes]`, image `k` of the
samples. -/
def planeOf (D : WriteDefs) (Image : ImageInfoRec) (DoFrames : Bool)
    (Slices Frames : List Int) (passes : Nat) (samples : List Rat) (k : Nat) :
    List WriteCall :=
  planeCalls D Image DoFrames (Slices.getD (k / passes) 0) (Frames.getD (k % passes) 0)
    (segment Image.ImageSize samples k)

/-- The state after `m` more images of `n` samples were read and written with
the calls `cs`. -/
def afterPlanes (n : Nat) (st : WriteState) (m : Nat) (cs : List WriteCall) : WriteState :=
  { st with TempFile := st.TempFile.drop (n * m), calls := st.calls ++ cs,
            nPut := st.nPut + m }

/-- The positions of the image dimensions are usable by `WriteImages` and
`PutMaxMin`: height, width and slice are components of `Start` and `Count`, the
slice is a component of `Coord`, and when `DoFrames` is true so is the frame,
at a position other than that of the slice. -/
def WellPlaced (D : WriteDefs) (Image : ImageInfoRec) (DoFrames : Bool) : Prop :=
  (0 ≤ Image.HeightDim ∧ Image.HeightDim < D.MAX_NC_DIMS) ∧
  (0 ≤ Image.WidthDim ∧ Image.WidthDim < D.MAX_NC_DIMS) ∧
  (0 ≤ Image.SliceDim ∧ Image.SliceDim < 2 ∧ Image.SliceDim < D.MAX_NC_DIMS) ∧
  (DoFrames = true →
    0 ≤ Image.FrameDim ∧ Image.FrameDim < 2 ∧ Image.FrameDim < D.MAX_NC_DIMS ∧
    Image.FrameDim ≠ Image.SliceDim)

instance (D : WriteDefs) (Image : ImageInfoRec) (DoFrames : Bool) :
    Decidable (WellPlaced D Image DoFrames) := by
  unfold WellPlaced
  infer_instance

/-- The array `Start` is ready for the images of slice `s`: storing any frame
gives the array `planeStart` of that slice and frame. -/
def ReadyFor (D : WriteDefs) (Image : ImageInfoRec) (DoFrames : Bool)
    (Start : List (Option Int)) (s : Int) : Prop :=
  Start.length = D.MAX_NC_DIMS ∧
  ∀ f, frameStart Image DoFrames Start f = planeStart D Image DoFrames s f

/-- The array `Start` is one the slice loop can go on from: storing any slice
makes it ready for that slice. -/
def Resumable (D : WriteDefs) (Image : ImageInfoRec) (DoFrames : Bool)
    (Start : List (Option Int)) : Prop :=
  Start.length = D.MAX_NC_DIMS ∧
  ∀ s, ReadyFor D Image DoFrames (Start.set Image.SliceDim.toNat (some s)) s

/-! ## Attributes, outcomes and placement -/

/-- The value of attribute `name` of the variable `varid` of the file, when the
variable exists and has the attribute. -/
def World.attOf (w : World) (varid : Int) (name : String) : Option AttValue :=
  if 0 ≤ varid then
    match w.vars[varid.toNat]? with
    | some v => (v.atts.find? (fun a => a.1 = name)).map Prod.snd
    | none => none
  else none

/-- The calls issued between the state `st` and the later state `st1`. -/
def WriteState.newCalls (st1 st : WriteState) : List WriteCall :=
  st1.calls.drop st.calls.length

/-- Of a run of `WriteImages` that is to move `N` images of `n` samples: the
temporary file holds the `N` images and the `N` calls of `miicv_put`
succeed. -/
def AllPlanesDone (n : Nat) (putOk : Nat → Bool) (st : WriteState) (N : Nat) : Prop :=
  n * N ≤ st.TempFile.length ∧ ∀ k, k < N → putOk (st.nPut + k) = true

/-- The images before image number `K` are in the temporary file in full and
their `miicv_put` calls succeed, and the file holds fewer than `n` samples for
image `K`. -/
def ShortReadAt (n : Nat) (putOk : Nat → Bool) (st : WriteState) (K : Nat) : Prop :=
  n * K ≤ st.TempFile.length ∧ (∀ k, k < K → putOk (st.nPut + k) = true) ∧
    st.TempFile.length < n * (K + 1)

/-- The images up to image number `K` are in the temporary file in full, the
`miicv_put` calls of the images before it succeed and that of image `K`
fails. -/
def PutFailsAt (n : Nat) (putOk : Nat → Bool) (st : WriteState) (K : Nat) : Prop :=
  n * (K + 1) ≤ st.TempFile.length ∧ (∀ k, k < K → putOk (st.nPut + k) = true) ∧
    putOk (st.nPut + K) = false

/-- The image dimensions sit at different positions: height, width and slice
pairwise, and the frame (when `DoFrames` is true) apart from all three. -/
def DistinctDims (Image : ImageInfoRec) (DoFrames : Bool) : Prop :=
  Image.HeightDim ≠ Image.WidthDim ∧ Image.HeightDim ≠ Image.SliceDim ∧
  Image.WidthDim ≠ Image.SliceDim ∧
  (DoFrames = true →
    Image.FrameDim ≠ Image.HeightDim ∧ Image.FrameDim ≠ Image.WidthDim ∧
    Image.FrameDim ≠ Image.SliceDim)

instance (Image : ImageInfoRec) (DoFrames : Bool) : Decidable (DistinctDims Image DoFrames) := by
  unfold DistinctDims
  infer_instance

/-- The number of images a run of `WriteImages` is to move: one for each of the
`NumSlices` slices and each pass of the frame loop. -/
def planned (NumSlices NumFrames : Int) : Nat :=
  NumSlices.toNat * framePasses NumFrames

/-- The calls of the first `K` images of a run of `WriteImages` on the given
samples, image after image in slice-major order. -/
def planesTrace (D : WriteDefs) (Image : ImageInfoRec) (Slices Frames : List Int)
    (NumFrames : Int) (samples : List Rat) (K : Nat) : List WriteCall :=
  (List.range K).flatMap (fun k =>
    planeOf D Image (decide (NumFrames > 0)) Slices Frames (framePasses NumFrames) samples k)

/-- The state after `WriteImages` moved the two images `[1, 2]` and `[3, 4]` to
slice 2, frames 1 and 0 of the file of `startState`. -/
def exampleDoneState : WriteState :=
  { file := miattputstr 4 0 "complete" "true_" createdFile,
    TempFile := [],
    calls :=
      [WriteCall.fread 2 [1, 2],
       WriteCall.mivarput1 4 1 [some 1, some 2] 2,
       WriteCall.mivarput1 4 2 [some 1, some 2] 1,
       WriteCall.miicv_put 7 [some 1, some 2, some 0, some 0]
         [some 1, some 1, some 1, some 2] [1, 2],
       WriteCall.fread 2 [3, 4],
       WriteCall.mivarput1 4 1 [some 0, some 2] 4,
       WriteCall.mivarput1 4 2 [some 0, some 2] 3,
       WriteCall.miicv_put 7 [some 0, some 2, some 0, some 0]
         [some 1, some 1, some 1, some 2] [3, 4]],
    nPut := 2,
    ErrMsg := none }

/-! ## Properties of the exclusion lists -/

theorem strcmpChars_eq_zero : ∀ (a b : List Char), strcmpChars a b = 0 ↔ a = b
  | [], [] => by simp [strcmpChars]
  | [], _ :: _ => by simp [strcmpChars]
  | _ :: _, [] => by simp [strcmpChars]
  | a :: as, b :: bs => by
    simp only [strcmpChars]
    by_cases h : a = b
    · simp [h, strcmpChars_eq_zero as bs]
    · simp only [h, if_false]
      constructor
      · intro h0
        split at h0 <;> simp at h0
      · intro h0
        exact absurd (List.cons.inj h0).1 h

theorem strcmp_eq_zero (a b : String) : strcmp a b = 0 ↔ a = b := by
  unfold strcmp
  rw [strcmpChars_eq_zero]
  constructor
  · intro h
    exact String.ext h
  · intro h
    rw [h]

/-- The child-dimension loop yields a result whenever the names it reads are in
the array, and that result is zero exactly when one of the names it may read
equals the parent dimension name. -/
theorem childDimLoop_some (D : String) (names : List String) (N : Nat) :
    ∀ (fuel cur : Nat), cur < names.length → N ≤ names.length → N ≤ cur + fuel → 0 < fuel →
      ∃ m, childDimLoop D names N fuel cur = some m ∧
        (m = 0 ↔ ∃ i, cur ≤ i ∧ (i < N ∨ i = cur) ∧ names[i]? = some D) := by
  intro fuel
  induction fuel with
  | zero => intro cur _ _ _ h; exact absurd h (Nat.lt_irrefl 0)
  | succ fuel ih =>
    intro cur hcur hN hfuel _
    have hget : names[cur]? = some names[cur] := List.getElem?_eq_getElem hcur
    simp only [childDimLoop, hget]
    by_cases hc : strcmp D names[cur] ≠ 0 ∧ cur + 1 < N
    · rw [if_pos hc]
      obtain ⟨m, hm, hiff⟩ := ih (cur + 1) (by omega) hN (by omega) (by omega)
      refine ⟨m, hm, hiff.trans ?_⟩
      constructor
      · rintro ⟨i, hi, hlt, hD⟩
        exact ⟨i, by omega, Or.inl (by omega), hD⟩
      · rintro ⟨i, hi, hlt, hD⟩
        have hne : i ≠ cur := by
          intro hic
          subst hic
          rw [hget] at hD
          exact hc.1 ((strcmp_eq_zero _ _).2 (Option.some.inj hD).symm)
        exact ⟨i, by omega, Or.inl (by omega), hD⟩
    · rw [if_neg hc]
      refine ⟨_, rfl, ?_⟩
      constructor
      · intro h0
        exact ⟨cur, Nat.le_refl _, Or.inr rfl, by rw [hget, (strcmp_eq_zero _ _).1 h0]⟩
      · rintro ⟨i, hi, hlt, hD⟩
        by_cases h0 : strcmp D names[cur] = 0
        · exact h0
        · have hic : i = cur := by
            rcases hlt with hlt | hlt
            · have : ¬ cur + 1 < N := fun h => hc ⟨h0, h⟩
              omega
            · exact hlt
          subst hic
          rw [hget] at hD
          exact (strcmp_eq_zero _ _).2 (Option.some.inj hD).symm

/-- With at least one child dimension, the loop result is zero exactly when
one of `ChildDimNames[0 .. NumChildDims-1]` equals the parent dimension name. -/
theorem childDimLoop_zero_iff (D : String) (names : List String) (N : Nat)
    (h1 : 1 ≤ N) (hN : N ≤ names.length) :
    ∃ m, childDimLoop D names N (N + 1) 0 = some m ∧ (m = 0 ↔ D ∈ names.take N) := by
  obtain ⟨m, hm, hiff⟩ := childDimLoop_some D names N (N + 1) 0 (by omega) hN (by omega) (by omega)
  refine ⟨m, hm, hiff.trans ?_⟩
  rw [List.mem_iff_getElem?]
  constructor
  · rintro ⟨i, _, hlt, hD⟩
    have hi : i < N := by omega
    exact ⟨i, by rw [List.getElem?_take, if_pos hi]; exact hD⟩
  · rintro ⟨i, hD⟩
    rw [List.getElem?_take] at hD
    by_cases hi : i < N
    · rw [if_pos hi] at hD
      exact ⟨i, Nat.zero_le _, Or.inl hi, hD⟩
    · rw [if_neg hi] at hD
      exact absurd hD (by simp)

theorem Extends.refl (st : ExcludeList) : Extends st st [] := by
  refine ⟨rfl, rfl, fun _ _ => rfl, ?_⟩
  simp

theorem Extends.trans {st st1 st2 : ExcludeList} {a b : List Int}
    (h1 : Extends st st1 a) (h2 : Extends st1 st2 b) : Extends st st2 (a ++ b) := by
  obtain ⟨l1, n1, p1, e1⟩ := h1
  obtain ⟨l2, n2, p2, e2⟩ := h2
  refine ⟨l2.trans l1, ?_, ?_, ?_⟩
  · rw [n2, n1, List.length_append]; omega
  · intro i hi
    rw [p2 i (by omega), p1 i hi]
  · rw [e2, e1, List.append_assoc]

theorem take_succ_set (l : List Int) (n : Nat) (v : Int) (h : n < l.length) :
    (l.set n v).take (n + 1) = l.take n ++ [v] := by
  have hl : (List.take n l).length = n := by rw [List.length_take]; omega
  rw [List.set_eq_take_append_cons_drop, if_pos h, List.take_append_eq_append_take, hl]
  have h2 : List.take (n + 1) (List.take n l) = List.take n l := by
    apply List.take_of_length_le
    omega
  rw [h2]
  simp

theorem put_extends {st st1 : ExcludeList} {v : Int} (h : st.put v = some st1) :
    Extends st st1 [v] := by
  unfold ExcludeList.put at h
  split at h
  · rename_i hlt
    cases h
    refine ⟨by simp, rfl, ?_, ?_⟩
    · intro i hi
      simp only
      rw [List.getElem?_set]
      have : st.NumExclude ≠ i := by omega
      simp [this]
    · simp only [ExcludeList.entries]
      exact take_succ_set _ _ _ hlt
  · cases h

theorem put_isSome (st : ExcludeList) (v : Int) (h : st.NumExclude < st.Exclude.length) :
    ∃ st1, st.put v = some st1 := by
  unfold ExcludeList.put
  rw [if_pos h]
  exact ⟨_, rfl⟩

theorem condPut_extends {st st1 : ExcludeList} {v : Int}
    (h : (if v ≠ -1 then st.put v else some st) = some st1) :
    Extends st st1 ([v].filter (fun v => v ≠ -1)) := by
  by_cases hv : v ≠ -1
  · rw [if_pos hv] at h
    have := put_extends h
    simpa [List.filter, hv] using this
  · rw [if_neg hv] at h
    cases h
    have := Extends.refl st
    simpa [List.filter, hv] using this

theorem condPut_isSome (st : ExcludeList) (v : Int) (h : st.NumExclude < st.Exclude.length) :
    ∃ st1, (if v ≠ -1 then st.put v else some st) = some st1 := by
  by_cases hv : v ≠ -1
  · rw [if_pos hv]; exact put_isSome st v h
  · rw [if_neg hv]; exact ⟨st, rfl⟩

theorem addedForDim_length_le (P : ParentFile) (N : Nat) (names : List String)
    (D : String) : (addedForDim P N names D).length ≤ 2 := by
  unfold addedForDim
  split
  · simp
  · split
    · simp
    · split
      · exact (List.length_filter_le _ _).trans (by simp)
      · simp

theorem specStandardExclusions_length_le (M : MincNames) (P : ParentFile) :
    (specStandardExclusions M P).length ≤ 4 := by
  unfold specStandardExclusions
  exact (List.length_filter_le _ _).trans (by simp)

/-- With at least one child dimension, all of them readable, the loop body
stores what the specification lists for the dimension. -/
theorem addedForDim_eq_spec (P : ParentFile) (N : Nat) (names : List String)
    (h1 : 1 ≤ N) (hN : N ≤ names.length) (D : String) :
    addedForDim P N names D = specDimExclusions P N names D := by
  unfold addedForDim specDimExclusions
  obtain ⟨m, hm, hiff⟩ := childDimLoop_zero_iff D names N h1 hN
  rw [hm]
  simp only
  by_cases hnone : ncvarid P D = -1 ∧ ncvarid P (D ++ "-width") = -1
  · rw [if_pos hnone, if_pos hnone]
  · rw [if_neg hnone, if_neg hnone]
    by_cases hm0 : m ≠ 0
    · rw [if_pos hm0, if_neg (fun hmem => hm0 (hiff.2 hmem))]
    · rw [if_neg hm0, if_pos (hiff.1 (not_not.1 hm0))]

/-- The rest of the loop body, when defined, stores `addedForDim` after the
entries in use and changes nothing else. -/
theorem excludeUnmatched_extends (P : ParentFile) (N : Nat) (names : List String)
    {st st1 : ExcludeList} {D : String}
    (h : excludeUnmatched N names st D (ncvarid P D) (ncvarid P (D ++ "-width")) = some st1) :
    Extends st st1 (addedForDim P N names D) := by
  unfold excludeUnmatched at h
  unfold addedForDim
  by_cases hnone : ncvarid P D = -1 ∧ ncvarid P (D ++ "-width") = -1
  · rw [if_pos hnone] at h
    rw [if_pos hnone]
    cases h
    exact Extends.refl st
  · rw [if_neg hnone] at h
    rw [if_neg hnone]
    cases hm : childDimLoop D names N (N + 1) 0 with
    | none => rw [hm] at h; cases h
    | some m =>
      rw [hm] at h
      simp only at h ⊢
      by_cases hm0 : m ≠ 0
      · rw [if_pos hm0] at h
        rw [if_pos hm0]
        cases hp : (if ncvarid P D ≠ -1 then st.put (ncvarid P D) else some st) with
        | none => rw [hp] at h; cases h
        | some st2 =>
          rw [hp] at h
          simp only at h
          have e1 := condPut_extends hp
          have e2 := condPut_extends h
          have := e1.trans e2
          rw [← List.filter_append] at this
          exact this
      · rw [if_neg hm0] at h
        rw [if_neg hm0]
        cases h
        exact Extends.refl st

theorem excludeUnmatched_isSome (P : ParentFile) (N : Nat) (names : List String)
    (hpos : 0 < names.length) (hN : N ≤ names.length) (st : ExcludeList) (D : String)
    (hcap : st.NumExclude + 2 ≤ st.Exclude.length) :
    ∃ st1, excludeUnmatched N names st D (ncvarid P D) (ncvarid P (D ++ "-width")) =
      some st1 := by
  unfold excludeUnmatched
  split
  · exact ⟨st, rfl⟩
  · obtain ⟨m, hm, _⟩ := childDimLoop_some D names N (N + 1) 0 hpos hN (by omega) (by omega)
    rw [hm]
    simp only
    split
    · obtain ⟨st2, hp⟩ := condPut_isSome st (ncvarid P D) (by omega)
      rw [hp]
      simp only
      have e1 := condPut_extends hp
      have hlen : ([ncvarid P D].filter (fun v => v ≠ -1)).length ≤ 1 :=
        (List.length_filter_le _ _).trans (by simp)
      exact condPut_isSome st2 _ (by rw [e1.1, e1.2.1]; omega)
    · exact ⟨st, rfl⟩

/-- The loop body is defined only when the dimension name followed by
`"-width"` and a terminator fits the buffer `ParentVarName`, and is then the
rest of the body run on the two variable ids. -/
theorem excludeParentDim_eq (M : MincNames) (P : ParentFile) (N : Nat) (names : List String)
    (st : ExcludeList) (D : String) :
    excludeParentDim M P N names st D =
      if D.length + "-width".length + 1 ≤ M.MAX_NC_NAME then
        excludeUnmatched N names st D (ncvarid P D) (ncvarid P (D ++ "-width"))
      else none := by
  unfold excludeParentDim ncdiminq strcpy strcat
  by_cases h : D.length + "-width".length + 1 ≤ M.MAX_NC_NAME
  · have h1 : D.length + 1 ≤ M.MAX_NC_NAME := by omega
    simp only [h, h1, if_true]
  · by_cases h1 : D.length + 1 ≤ M.MAX_NC_NAME
    · simp only [h, h1, if_true, if_false]
    · simp only [h, h1, if_false]

/-- A dimension name too long for `ParentVarName` once `"-width"` is appended
leaves the loop body undefined. -/
theorem excludeParentDim_overflow (M : MincNames) (P : ParentFile) (N : Nat)
    (names : List String) (st : ExcludeList) (D : String)
    (hlong : M.MAX_NC_NAME < D.length + "-width".length + 1) :
    excludeParentDim M P N names st D = none := by
  rw [excludeParentDim_eq, if_neg (by omega)]

/-- A name of 125 characters in buffers of 128: the run is undefined. -/
theorem FinishExclusionLists_long_name_undefined :
    FinishExclusionLists exampleNames longNameParent 1 ["xspace"] (emptyExclude 16) = none := by
  have hlen : (String.mk (List.replicate 125 'x')).length = 125 := by
    simp [String.length]
  have hd : excludeParentDim exampleNames longNameParent 1 ["xspace"] (emptyExclude 16)
      (String.mk (List.replicate 125 'x')) = none := by
    apply excludeParentDim_overflow
    rw [hlen]
    decide
  have hdims : longNameParent.dims = [String.mk (List.replicate 125 'x')] := rfl
  unfold FinishExclusionLists
  rw [hdims]
  simp only [scanParentDims]
  rw [hd]

/-- One pass of the loop body, when defined, stores `addedForDim` after the
entries in use and changes nothing else. -/
theorem excludeParentDim_extends (M : MincNames) (P : ParentFile) (N : Nat)
    (names : List String) {st st1 : ExcludeList} {D : String}
    (h : excludeParentDim M P N names st D = some st1) :
    Extends st st1 (addedForDim P N names D) := by
  rw [excludeParentDim_eq] at h
  split at h
  · exact excludeUnmatched_extends P N names h
  · cases h

theorem excludeParentDim_isSome (M : MincNames) (P : ParentFile) (N : Nat)
    (names : List String)
    (hpos : 0 < names.length) (hN : N ≤ names.length) (st : ExcludeList) (D : String)
    (hfit : D.length + "-width".length + 1 ≤ M.MAX_NC_NAME)
    (hcap : st.NumExclude + 2 ≤ st.Exclude.length) :
    ∃ st1, excludeParentDim M P N names st D = some st1 := by
  rw [excludeParentDim_eq, if_pos hfit]
  exact excludeUnmatched_isSome P N names hpos hN st D hcap

theorem scanParentDims_extends (M : MincNames) (P : ParentFile) (N : Nat)
    (names : List String) :
    ∀ (dims : List String) (st st1 : ExcludeList),
      scanParentDims M P N names st dims = some st1 →
      Extends st st1 (dims.flatMap (addedForDim P N names)) := by
  intro dims
  induction dims with
  | nil =>
    intro st st1 h
    simp only [scanParentDims] at h
    cases h
    exact Extends.refl st
  | cons D rest ih =>
    intro st st1 h
    simp only [scanParentDims] at h
    cases hd : excludeParentDim M P N names st D with
    | none => rw [hd] at h; cases h
    | some st2 =>
      rw [hd] at h
      simp only at h
      have e1 := excludeParentDim_extends M P N names hd
      have e2 := ih st2 st1 h
      simpa [List.flatMap_cons] using e1.trans e2

theorem flatMap_addedForDim_length_le (P : ParentFile) (N : Nat) (names : List String)
    (dims : List String) :
    (dims.flatMap (addedForDim P N names)).length ≤ 2 * dims.length := by
  induction dims with
  | nil => simp
  | cons D rest ih =>
    have := addedForDim_length_le P N names D
    simp only [List.flatMap_cons, List.length_append, List.length_cons]
    omega

theorem scanParentDims_isSome (M : MincNames) (P : ParentFile) (N : Nat)
    (names : List String)
    (hpos : 0 < names.length) (hN : N ≤ names.length) :
    ∀ (dims : List String) (st : ExcludeList), NamesFit M dims →
      st.NumExclude + 2 * dims.length ≤ st.Exclude.length →
      ∃ st1, scanParentDims M P N names st dims = some st1 := by
  intro dims
  induction dims with
  | nil => intro st _ _; exact ⟨st, rfl⟩
  | cons D rest ih =>
    intro st hfit hcap
    simp only [List.length_cons] at hcap
    obtain ⟨st2, hd⟩ := excludeParentDim_isSome M P N names hpos hN st D
      (hfit D (List.mem_cons_self D rest)) (by omega)
    simp only [scanParentDims, hd]
    have e1 := excludeParentDim_extends M P N names hd
    have hlen := addedForDim_length_le P N names D
    exact ih st2 (fun E hE => hfit E (List.mem_cons_of_mem D hE))
      (by rw [e1.1, e1.2.1]; omega)

/-- When the scan of the parent dimensions is defined, every name scanned fits
the buffers. -/
theorem scanParentDims_namesFit (M : MincNames) (P : ParentFile) (N : Nat)
    (names : List String) :
    ∀ (dims : List String) (st st1 : ExcludeList),
      scanParentDims M P N names st dims = some st1 → NamesFit M dims := by
  intro dims
  induction dims with
  | nil =>
    intro st st1 _ D hD
    cases hD
  | cons D rest ih =>
    intro st st1 h
    simp only [scanParentDims] at h
    cases hd : excludeParentDim M P N names st D with
    | none => rw [hd] at h; cases h
    | some st2 =>
      rw [hd] at h
      simp only at h
      have hrest := ih st2 st1 h
      intro E hE
      rcases List.mem_cons.1 hE with hE | hE
      · subst hE
        by_contra hlong
        rw [excludeParentDim_eq, if_neg hlong] at hd
        cases hd
      · exact hrest E hE

theorem excludeStandardVars_extends (M : MincNames) (P : ParentFile) {st st1 : ExcludeList}
    (h : excludeStandardVars M P st = some st1) :
    Extends st st1 (specStandardExclusions M P) := by
  unfold excludeStandardVars excludeIfPresent at h
  simp only at h
  cases ha : (if ncvarid P M.MIrootvariable ≠ -1 then st.put (ncvarid P M.MIrootvariable)
      else some st) with
  | none => rw [ha] at h; cases h
  | some sa =>
    rw [ha] at h
    simp only at h
    cases hb : (if ncvarid P M.MIimage ≠ -1 then sa.put (ncvarid P M.MIimage)
        else some sa) with
    | none => rw [hb] at h; cases h
    | some sb =>
      rw [hb] at h
      simp only at h
      cases hc : (if ncvarid P M.MIimagemax ≠ -1 then sb.put (ncvarid P M.MIimagemax)
          else some sb) with
      | none => rw [hc] at h; cases h
      | some sc =>
        rw [hc] at h
        simp only at h
        have e := ((condPut_extends ha).trans (condPut_extends hb)).trans
          ((condPut_extends hc).trans (condPut_extends h))
        unfold specStandardExclusions
        simpa [← List.filter_append] using e

theorem excludeStandardVars_isSome (M : MincNames) (P : ParentFile) (st : ExcludeList)
    (hcap : st.NumExclude + 4 ≤ st.Exclude.length) :
    ∃ st1, excludeStandardVars M P st = some st1 := by
  have hle : ∀ v : Int, ([v].filter (fun v => v ≠ -1)).length ≤ 1 := fun v =>
    (List.length_filter_le _ _).trans (by simp)
  unfold excludeStandardVars excludeIfPresent
  simp only
  obtain ⟨sa, ha⟩ := condPut_isSome st (ncvarid P M.MIrootvariable) (by omega)
  have ea := condPut_extends ha
  have la := hle (ncvarid P M.MIrootvariable)
  obtain ⟨sb, hb⟩ := condPut_isSome sa (ncvarid P M.MIimage) (by rw [ea.1, ea.2.1]; omega)
  have eb := condPut_extends hb
  have lb := hle (ncvarid P M.MIimage)
  obtain ⟨sc, hc⟩ := condPut_isSome sb (ncvarid P M.MIimagemax)
    (by rw [eb.1, eb.2.1, ea.1, ea.2.1]; omega)
  have ec := condPut_extends hc
  have lc := hle (ncvarid P M.MIimagemax)
  rw [ha]
  simp only
  rw [hb]
  simp only
  rw [hc]
  simp only
  exact condPut_isSome sc _ (by rw [ec.1, ec.2.1, eb.1, eb.2.1, ea.1, ea.2.1]; omega)

/-- Whatever `FinishExclusionLists` returns is the list it was given followed
by the entries stored for each parent dimension, in scan order, and then by
the standard variables present. -/
theorem FinishExclusionLists_extends (M : MincNames) (P : ParentFile) (N : Nat)
    (names : List String) {st st1 : ExcludeList}
    (h : FinishExclusionLists M P N names st = some st1) :
    Extends st st1
      (P.dims.flatMap (addedForDim P N names) ++ specStandardExclusions M P) := by
  unfold FinishExclusionLists at h
  cases hs : scanParentDims M P N names st P.dims with
  | none => rw [hs] at h; cases h
  | some st2 =>
    rw [hs] at h
    simp only at h
    exact (scanParentDims_extends M P N names _ _ _ hs).trans
      (excludeStandardVars_extends M P h)

/-- The function `FinishExclusionLists` returns when the child names it reads are in their
array, every parent dimension name followed by `"-width"` fits the name
buffer, and the exclusion array has room for two entries per parent dimension
and four more. -/
theorem FinishExclusionLists_isSome (M : MincNames) (P : ParentFile) (N : Nat)
    (names : List String) (hpos : 0 < names.length) (hN : N ≤ names.length)
    (st : ExcludeList) (hfit : NamesFit M P.dims)
    (hcap : st.NumExclude + 2 * P.dims.length + 4 ≤ st.Exclude.length) :
    ∃ st1, FinishExclusionLists M P N names st = some st1 := by
  unfold FinishExclusionLists
  obtain ⟨st2, hs⟩ := scanParentDims_isSome M P N names hpos hN P.dims st hfit (by omega)
  rw [hs]
  simp only
  have e := scanParentDims_extends M P N names _ _ _ hs
  have hl := flatMap_addedForDim_length_le P N names P.dims
  exact excludeStandardVars_isSome M P st2 (by rw [e.1, e.2.1]; omega)

theorem flatMap_addedForDim_eq_spec (P : ParentFile) (N : Nat) (names : List String)
    (h1 : 1 ≤ N) (hN : N ≤ names.length) (dims : List String) :
    dims.flatMap (addedForDim P N names) = dims.flatMap (specDimExclusions P N names) := by
  have : addedForDim P N names = specDimExclusions P N names :=
    funext (addedForDim_eq_spec P N names h1 hN)
  rw [this]

/-! ### The claims on `FinishExclusionLists` -/

/-- C1: for a child dimension-name list with `NumChildDims >= 1` (its
`NumChildDims` names in the array, `Exclude` large enough for the stores, and
every parent dimension name short enough for `"-width"` and a terminator to be
appended in the buffer of `MAX_NC_NAME` characters),
`FinishExclusionLists` returns the list it was given followed, for every parent
dimension `D` in scan order, by `specDimExclusions D` (nothing when the parent
has neither a variable `D` nor `D-width`; otherwise the ids of whichever of
the two exist, exactly when no entry of `ChildDimNames[0..NumChildDims-1]` is
equal to `D`), and then by the standard variables present. -/
theorem FinishExclusionLists_dimension_exclusions (M : MincNames) (P : ParentFile)
    (N : Nat) (names : List String) (st : ExcludeList)
    (h1 : 1 ≤ N) (hN : N ≤ names.length) (hfit : NamesFit M P.dims)
    (hcap : st.NumExclude + 2 * P.dims.length + 4 ≤ st.Exclude.length) :
    ∃ st1, FinishExclusionLists M P N names st = some st1 ∧
      st1.entries = st.entries ++ P.dims.flatMap (specDimExclusions P N names)
        ++ specStandardExclusions M P := by
  obtain ⟨st1, h⟩ := FinishExclusionLists_isSome M P N names (by omega) hN st hfit hcap
  refine ⟨st1, h, ?_⟩
  have e := FinishExclusionLists_extends M P N names h
  rw [e.2.2.2, flatMap_addedForDim_eq_spec P N names h1 hN, List.append_assoc]

/-- Witness of C1 on a four-dimensional parent and a two-dimensional child. -/
theorem FinishExclusionLists_dimension_exclusions_witness :
    ∃ st1, FinishExclusionLists exampleNames exampleParent 2 ["yspace", "xspace"]
        (emptyExclude 16) = some st1 ∧
      st1.entries = (emptyExclude 16).entries
        ++ exampleParent.dims.flatMap (specDimExclusions exampleParent 2 ["yspace", "xspace"])
        ++ specStandardExclusions exampleNames exampleParent :=
  FinishExclusionLists_dimension_exclusions exampleNames exampleParent 2
    ["yspace", "xspace"] (emptyExclude 16) (by decide) (by decide) (by decide) (by decide)

/-- C2: `FinishExclusionLists` returns (the child names it reads being in
their array, `Exclude` large enough and every parent dimension name short
enough for `"-width"` and a terminator to be appended in the buffer of
`MAX_NC_NAME` characters), and the entries it stored after the
scan of the parent dimensions are exactly the ids of those of the four
standard variables that exist in the parent: each existing one is in
`Exclude` and a missing one contributes no entry, whatever the dimension scan
stored. -/
theorem FinishExclusionLists_standard_vars (M : MincNames) (P : ParentFile)
    (N : Nat) (names : List String) (st : ExcludeList)
    (hpos : 0 < names.length) (hN : N ≤ names.length) (hfit : NamesFit M P.dims)
    (hcap : st.NumExclude + 2 * P.dims.length + 4 ≤ st.Exclude.length) :
    ∃ st0 st1, scanParentDims M P N names st P.dims = some st0 ∧
      FinishExclusionLists M P N names st = some st1 ∧
      st1.entries = st0.entries ++ specStandardExclusions M P ∧
      ∀ name ∈ [M.MIrootvariable, M.MIimage, M.MIimagemax, M.MIimagemin],
        ncvarid P name ≠ -1 → ncvarid P name ∈ st1.entries := by
  obtain ⟨st1, h⟩ := FinishExclusionLists_isSome M P N names hpos hN st hfit hcap
  have h0 := h
  unfold FinishExclusionLists at h0
  cases hs : scanParentDims M P N names st P.dims with
  | none => rw [hs] at h0; cases h0
  | some st0 =>
    rw [hs] at h0
    simp only at h0
    have e := excludeStandardVars_extends M P h0
    refine ⟨st0, st1, rfl, h, e.2.2.2, ?_⟩
    intro name hname hne
    rw [e.2.2.2]
    apply List.mem_append_right
    unfold specStandardExclusions
    rw [List.mem_filter]
    refine ⟨?_, by simpa using hne⟩
    simp only [List.mem_cons, List.mem_singleton, List.not_mem_nil, or_false] at hname ⊢
    rcases hname with h | h | h | h <;> simp [h]

/-- Witness of C2 on a four-dimensional parent and a two-dimensional child. -/
theorem FinishExclusionLists_standard_vars_witness :
    ∃ st0 st1, scanParentDims exampleNames exampleParent 2 ["yspace", "xspace"]
        (emptyExclude 16) exampleParent.dims = some st0 ∧
      FinishExclusionLists exampleNames exampleParent 2 ["yspace", "xspace"]
        (emptyExclude 16) = some st1 ∧
      st1.entries = st0.entries ++ specStandardExclusions exampleNames exampleParent ∧
      ∀ name ∈ [exampleNames.MIrootvariable, exampleNames.MIimage, exampleNames.MIimagemax,
          exampleNames.MIimagemin],
        ncvarid exampleParent name ≠ -1 → ncvarid exampleParent name ∈ st1.entries :=
  FinishExclusionLists_standard_vars exampleNames exampleParent 2
    ["yspace", "xspace"] (emptyExclude 16) (by decide) (by decide) (by decide) (by decide)

/-- C3: scanning the parent dimensions in any other order (a permutation
`dims` of the parent dimension list, same variables, same initial list, same
child dimension names) makes `FinishExclusionLists` return a list holding the
same set of variable ids; both runs return when the child names read are in
their array, `Exclude` is large enough and every parent dimension name is
short enough for `"-width"` and a terminator to be appended in the buffer of
`MAX_NC_NAME` characters. -/
theorem FinishExclusionLists_order_independent (M : MincNames) (P : ParentFile)
    (dims : List String) (N : Nat) (names : List String) (st : ExcludeList)
    (hperm : dims.Perm P.dims)
    (hpos : 0 < names.length) (hN : N ≤ names.length) (hfit : NamesFit M P.dims)
    (hcap : st.NumExclude + 2 * P.dims.length + 4 ≤ st.Exclude.length) :
    ∃ st1 st2, FinishExclusionLists M P N names st = some st1 ∧
      FinishExclusionLists M { dims := dims, vars := P.vars } N names st = some st2 ∧
      ∀ v, v ∈ st1.entries ↔ v ∈ st2.entries := by
  obtain ⟨st1, h1⟩ := FinishExclusionLists_isSome M P N names hpos hN st hfit hcap
  obtain ⟨st2, h2⟩ := FinishExclusionLists_isSome M { dims := dims, vars := P.vars } N names
    hpos hN st (fun D hD => hfit D (hperm.mem_iff.1 hD))
    (by simpa [hperm.length_eq] using hcap)
  refine ⟨st1, st2, h1, h2, ?_⟩
  have e1 := (FinishExclusionLists_extends M P N names h1).2.2.2
  have e2 := (FinishExclusionLists_extends M { dims := dims, vars := P.vars } N names h2).2.2.2
  have hadd : addedForDim { dims := dims, vars := P.vars } N names = addedForDim P N names := rfl
  have hstd : specStandardExclusions M { dims := dims, vars := P.vars }
      = specStandardExclusions M P := rfl
  simp only [hadd, hstd] at e2
  intro v
  rw [e1, e2]
  simp only [List.mem_append, List.mem_flatMap]
  constructor
  · rintro (h | ⟨D, hD, hv⟩ | h)
    · exact Or.inl h
    · exact Or.inr (Or.inl ⟨D, hperm.mem_iff.2 hD, hv⟩)
    · exact Or.inr (Or.inr h)
  · rintro (h | ⟨D, hD, hv⟩ | h)
    · exact Or.inl h
    · exact Or.inr (Or.inl ⟨D, hperm.mem_iff.1 hD, hv⟩)
    · exact Or.inr (Or.inr h)

/-- Witness of C3: the four parent dimensions scanned in reverse order. -/
theorem FinishExclusionLists_order_independent_witness :
    ∃ st1 st2, FinishExclusionLists exampleNames exampleParent 2 ["yspace", "xspace"]
        (emptyExclude 16) = some st1 ∧
      FinishExclusionLists exampleNames
        { dims := ["xspace", "yspace", "zspace", "time"], vars := exampleParent.vars } 2
        ["yspace", "xspace"] (emptyExclude 16) = some st2 ∧
      ∀ v, v ∈ st1.entries ↔ v ∈ st2.entries :=
  FinishExclusionLists_order_independent exampleNames exampleParent
    ["xspace", "yspace", "zspace", "time"] 2 ["yspace", "xspace"] (emptyExclude 16)
    (List.reverse_perm ["time", "zspace", "yspace", "xspace"]) (by decide) (by decide)
    (by decide) (by decide)

/-- C4: running `FinishExclusionLists` a second time on its own output (same
parent file, same child dimension names) returns a list holding exactly the
same set of variable ids as the first run; both runs return when the child
names read are in their array, `Exclude` has room for the stores of both and
every parent dimension name is short enough for `"-width"` and a terminator to
be appended in the buffer of `MAX_NC_NAME` characters. -/
theorem FinishExclusionLists_idempotent (M : MincNames) (P : ParentFile)
    (N : Nat) (names : List String) (st : ExcludeList)
    (hpos : 0 < names.length) (hN : N ≤ names.length) (hfit : NamesFit M P.dims)
    (hcap : st.NumExclude + 2 * (2 * P.dims.length + 4) ≤ st.Exclude.length) :
    ∃ st1 st2, FinishExclusionLists M P N names st = some st1 ∧
      FinishExclusionLists M P N names st1 = some st2 ∧
      ∀ v, v ∈ st2.entries ↔ v ∈ st1.entries := by
  obtain ⟨st1, h1⟩ := FinishExclusionLists_isSome M P N names hpos hN st hfit (by omega)
  have e1 := FinishExclusionLists_extends M P N names h1
  have hl := flatMap_addedForDim_length_le P N names P.dims
  have hs := specStandardExclusions_length_le M P
  obtain ⟨st2, h2⟩ := FinishExclusionLists_isSome M P N names hpos hN st1 hfit (by
    rw [e1.1, e1.2.1, List.length_append]; omega)
  have e2 := FinishExclusionLists_extends M P N names h2
  refine ⟨st1, st2, h1, h2, ?_⟩
  intro v
  rw [e2.2.2.2, e1.2.2.2]
  simp only [List.mem_append]
  tauto

/-- Witness of C4 on a four-dimensional parent and a two-dimensional child. -/
theorem FinishExclusionLists_idempotent_witness :
    ∃ st1 st2, FinishExclusionLists exampleNames exampleParent 2 ["yspace", "xspace"]
        (emptyExclude 32) = some st1 ∧
      FinishExclusionLists exampleNames exampleParent 2 ["yspace", "xspace"] st1 = some st2 ∧
      ∀ v, v ∈ st2.entries ↔ v ∈ st1.entries :=
  FinishExclusionLists_idempotent exampleNames exampleParent 2 ["yspace", "xspace"]
    (emptyExclude 32) (by decide) (by decide) (by decide) (by decide)

/-- C5: `FinishExclusionLists` only grows the exclusion list. It returns when
the array has room, the child names read are in their array and every parent
dimension name is short enough for `"-width"` and a terminator to be appended
in the buffer of `MAX_NC_NAME` characters (a longer name makes `strcat` write
past the buffer, and the run is then undefined); whenever it returns, the
names were that short, the first `*NumExclude` entries of
`Exclude` at entry are unchanged and in the same positions, `*NumExclude` at
exit is at least its value at entry, and at most
`2 * (number of parent dimensions) + 4` entries were appended. -/
theorem FinishExclusionLists_only_grows (M : MincNames) (P : ParentFile)
    (N : Nat) (names : List String) (st : ExcludeList) :
    (0 < names.length → N ≤ names.length → NamesFit M P.dims →
      st.NumExclude + 2 * P.dims.length + 4 ≤ st.Exclude.length →
      ∃ st1, FinishExclusionLists M P N names st = some st1) ∧
    ∀ st1, FinishExclusionLists M P N names st = some st1 →
      NamesFit M P.dims ∧
      (∀ i, i < st.NumExclude → st1.Exclude[i]? = st.Exclude[i]?) ∧
      st.NumExclude ≤ st1.NumExclude ∧
      st1.NumExclude - st.NumExclude ≤ 2 * P.dims.length + 4 := by
  refine ⟨fun hpos hN => FinishExclusionLists_isSome M P N names hpos hN st, ?_⟩
  intro st1 h
  have e := FinishExclusionLists_extends M P N names h
  have hl := flatMap_addedForDim_length_le P N names P.dims
  have hs := specStandardExclusions_length_le M P
  have hfit : NamesFit M P.dims := by
    unfold FinishExclusionLists at h
    cases hsc : scanParentDims M P N names st P.dims with
    | none => rw [hsc] at h; cases h
    | some st0 => exact scanParentDims_namesFit M P N names _ _ _ hsc
  refine ⟨hfit, e.2.2.1, ?_, ?_⟩
  · rw [e.2.1]; omega
  · rw [e.2.1, List.length_append]; omega

/-- Witness of C5: a list that already holds two entries grows to nine, its
first two entries kept. -/
theorem FinishExclusionLists_only_grows_witness :
    FinishExclusionLists exampleNames exampleParent 2 ["yspace", "xspace"]
        { NumExclude := 2, Exclude := 9 :: 4 :: List.replicate 14 0 }
      = some { NumExclude := 9, Exclude := [9, 4, 1, 2, 3, 0, 6, 7, 8, 0, 0, 0, 0, 0, 0, 0] } ∧
    NamesFit exampleNames exampleParent.dims ∧
    (∀ i, i < 2 → [9, 4, 1, 2, 3, 0, 6, 7, 8, 0, 0, 0, 0, 0, 0, (0 : Int)][i]?
        = (9 :: 4 :: List.replicate 14 (0 : Int))[i]?) ∧
    2 ≤ 9 ∧ 9 - 2 ≤ 2 * exampleParent.dims.length + 4 :=
  ⟨by decide,
   (FinishExclusionLists_only_grows exampleNames exampleParent 2 ["yspace", "xspace"]
      { NumExclude := 2, Exclude := 9 :: 4 :: List.replicate 14 0 }).2
      { NumExclude := 9, Exclude := [9, 4, 1, 2, 3, 0, 6, 7, 8, 0, 0, 0, 0, 0, 0, 0] }
      (by decide)⟩



/-! ## Properties of the container model -/

@[simp] theorem issue_opened (w : World) (c : Call) : (w.issue c).opened = w.opened := rfl

@[simp] theorem issue_vars (w : World) (c : Call) : (w.issue c).vars = w.vars := rfl

@[simp] theorem issue_history (w : World) (c : Call) : (w.issue c).history = w.history := rfl

@[simp] theorem issue_calls (w : World) (c : Call) : (w.issue c).calls = w.calls ++ [c] := rfl

@[simp] theorem putAtt_opened (w : World) (varid : Int) (name : String) (value : AttValue) :
    (w.putAtt varid name value).opened = w.opened := by
  unfold World.putAtt
  split <;> rfl

@[simp] theorem putAtt_history (w : World) (varid : Int) (name : String) (value : AttValue) :
    (w.putAtt varid name value).history = w.history := by
  unfold World.putAtt
  split <;> rfl

@[simp] theorem putAtt_calls (w : World) (varid : Int) (name : String) (value : AttValue) :
    (w.putAtt varid name value).calls = w.calls := by
  unfold World.putAtt
  split <;> rfl

/-- Storing an attribute changes no variable's name, type or dimensions. -/
@[simp] theorem putAtt_shape (w : World) (varid : Int) (name : String) (value : AttValue) :
    (w.putAtt varid name value).vars.map Variable.shape = w.vars.map Variable.shape := by
  unfold World.putAtt
  split
  · apply List.ext_getElem?
    intro i
    simp only [List.getElem?_map, List.getElem?_modify]
    by_cases h : varid.toNat = i
    · simp only [h, if_true]
      cases w.vars[i]? <;> rfl
    · simp only [h, if_false]
      cases w.vars[i]? <;> rfl
  · rfl

theorem micreate_std_variable_fst (L : Library) (cdf : Int) (name : String) (type : nc_type)
    (ndims : Int) (dimids : List Int) (w : World) :
    (micreate_std_variable L cdf name type ndims dimids w).1 =
      if L.createsVar name = true ∧ 0 ≤ ndims ∧ ndims ≤ dimids.length then (w.vars.length : Int)
      else MI_ERROR := by
  unfold micreate_std_variable
  simp only [issue_vars]
  split <;> rfl

theorem micreate_std_variable_shape (L : Library) (cdf : Int) (name : String) (type : nc_type)
    (ndims : Int) (dimids : List Int) (w : World) :
    (micreate_std_variable L cdf name type ndims dimids w).2.vars.map Variable.shape =
      w.vars.map Variable.shape ++
        if L.createsVar name = true ∧ 0 ≤ ndims ∧ ndims ≤ dimids.length then
          [(name, type, dimids.take ndims.toNat)]
        else [] := by
  unfold micreate_std_variable
  simp only [issue_vars]
  split <;> simp [Variable.shape]

@[simp] theorem micreate_std_variable_opened (L : Library) (cdf : Int) (name : String)
    (type : nc_type) (ndims : Int) (dimids : List Int) (w : World) :
    (micreate_std_variable L cdf name type ndims dimids w).2.opened = w.opened := by
  unfold micreate_std_variable
  simp only
  split <;> rfl

@[simp] theorem micreate_std_variable_calls (L : Library) (cdf : Int) (name : String)
    (type : nc_type) (ndims : Int) (dimids : List Int) (w : World) :
    (micreate_std_variable L cdf name type ndims dimids w).2.calls =
      w.calls ++ [Call.micreate_std_variable cdf name type ndims dimids] := by
  unfold micreate_std_variable
  simp only
  split <;> rfl

/-- The function `CreateImageVars` in terms of the state reached before the image-max
variable is created. -/
theorem CreateImageVars_eq (M : MincNames) (A : MincAtts) (L : Library) (CDF : Int)
    (NumDim : Int) (DimIDs : List Int) (NCType : nc_type) (Signed : Bool)
    (ValidRange : Rat × Rat) (w : World) :
    CreateImageVars M A L CDF NumDim DimIDs NCType Signed ValidRange w =
      (if (micreate_std_variable L CDF M.MIimagemax nc_type.NC_DOUBLE (NumDim - 2) DimIDs
            (afterImageVar M A L CDF NumDim DimIDs NCType Signed ValidRange w)).1 = MI_ERROR ∨
          (micreate_std_variable L CDF M.MIimagemin nc_type.NC_DOUBLE (NumDim - 2) DimIDs
            (micreate_std_variable L CDF M.MIimagemax nc_type.NC_DOUBLE (NumDim - 2) DimIDs
              (afterImageVar M A L CDF NumDim DimIDs NCType Signed ValidRange w)).2).1
            = MI_ERROR
        then false else true,
       (micreate_std_variable L CDF M.MIimagemin nc_type.NC_DOUBLE (NumDim - 2) DimIDs
          (micreate_std_variable L CDF M.MIimagemax nc_type.NC_DOUBLE (NumDim - 2) DimIDs
            (afterImageVar M A L CDF NumDim DimIDs NCType Signed ValidRange w)).2).2) := by
  unfold CreateImageVars afterImageVar
  simp only
  split <;> rfl

theorem afterImageVar_shape (M : MincNames) (A : MincAtts) (L : Library) (CDF : Int)
    (NumDim : Int) (DimIDs : List Int) (NCType : nc_type) (Signed : Bool)
    (ValidRange : Rat × Rat) (w : World) :
    (afterImageVar M A L CDF NumDim DimIDs NCType Signed ValidRange w).vars.map Variable.shape
      = (micreate_std_variable L CDF M.MIimage NCType NumDim DimIDs w).2.vars.map
          Variable.shape := by
  simp [afterImageVar, ncattput_doubles, miattputstr]

theorem afterImageVar_opened (M : MincNames) (A : MincAtts) (L : Library) (CDF : Int)
    (NumDim : Int) (DimIDs : List Int) (NCType : nc_type) (Signed : Bool)
    (ValidRange : Rat × Rat) (w : World) :
    (afterImageVar M A L CDF NumDim DimIDs NCType Signed ValidRange w).opened = w.opened := by
  simp [afterImageVar, ncattput_doubles, miattputstr]

theorem afterImageVar_calls (M : MincNames) (A : MincAtts) (L : Library) (CDF : Int)
    (NumDim : Int) (DimIDs : List Int) (NCType : nc_type) (Signed : Bool)
    (ValidRange : Rat × Rat) (w : World) :
    (afterImageVar M A L CDF NumDim DimIDs NCType Signed ValidRange w).calls = w.calls ++
      [Call.micreate_std_variable CDF M.MIimage NCType NumDim DimIDs,
       Call.miattputstr CDF (micreate_std_variable L CDF M.MIimage NCType NumDim DimIDs w).1
         A.MIsigntype (A.MI_SIGN_STR Signed),
       Call.miattputstr CDF (micreate_std_variable L CDF M.MIimage NCType NumDim DimIDs w).1
         A.MIcomplete A.MI_FALSE,
       Call.ncattput_doubles CDF
         (micreate_std_variable L CDF M.MIimage NCType NumDim DimIDs w).1
         A.MIvalid_range [ValidRange.1, ValidRange.2]] := by
  simp [afterImageVar, ncattput_doubles, miattputstr]

theorem vars_length_eq_of_shape {w1 w2 : World}
    (h : w1.vars.map Variable.shape = w2.vars.map Variable.shape) :
    w1.vars.length = w2.vars.length := by
  have := congrArg List.length h
  simpa using this

/-- C6: for `NumDim` 2, 3 or 4 and an array `DimIDs` holding the `NumDim`
dimension ids, when the library creates the three variables,
`CreateImageVars` adds to the child exactly the image variable, depending on
all `NumDim` entries of `DimIDs`, and the image-max and image-min variables,
of type double, both depending on exactly the first `NumDim - 2` entries of
`DimIDs` in the same order (rank `NumDim - 2`, the trailing pair left out). -/
theorem CreateImageVars_dimensions (M : MincNames) (A : MincAtts) (L : Library) (CDF : Int)
    (NumDim : Int) (DimIDs : List Int) (NCType : nc_type) (Signed : Bool)
    (ValidRange : Rat × Rat) (w : World)
    (hNumDim : NumDim = 2 ∨ NumDim = 3 ∨ NumDim = 4) (hlen : NumDim ≤ DimIDs.length)
    (himage : L.createsVar M.MIimage = true) (hmax : L.createsVar M.MIimagemax = true)
    (hmin : L.createsVar M.MIimagemin = true) :
    (CreateImageVars M A L CDF NumDim DimIDs NCType Signed ValidRange w).1 = true ∧
    (CreateImageVars M A L CDF NumDim DimIDs NCType Signed ValidRange w).2.vars.map
        Variable.shape =
      w.vars.map Variable.shape ++
        [(M.MIimage, NCType, DimIDs.take NumDim.toNat),
         (M.MIimagemax, nc_type.NC_DOUBLE, DimIDs.take (NumDim - 2).toNat),
         (M.MIimagemin, nc_type.NC_DOUBLE, DimIDs.take (NumDim - 2).toNat)] ∧
    ((DimIDs.take NumDim.toNat).length : Int) = NumDim ∧
    ((DimIDs.take (NumDim - 2).toNat).length : Int) = NumDim - 2 ∧
    DimIDs.take (NumDim - 2).toNat = (DimIDs.take NumDim.toNat).take (NumDim.toNat - 2) := by
  have h0 : 0 ≤ NumDim := by omega
  have h2 : 0 ≤ NumDim - 2 := by omega
  have hl2 : NumDim - 2 ≤ DimIDs.length := by omega
  have htake : (DimIDs.take NumDim.toNat).take (NumDim.toNat - 2)
      = DimIDs.take (NumDim - 2).toNat := by
    rw [List.take_take]
    congr 1
    omega
  have hlenA := vars_length_eq_of_shape
    (afterImageVar_shape M A L CDF NumDim DimIDs NCType Signed ValidRange w)
  rw [CreateImageVars_eq]
  refine ⟨?_, ?_, ?_, ?_, htake.symm⟩
  · simp only [micreate_std_variable_fst, hmax, hmin, h2, hl2, and_self, if_true, MI_ERROR]
    rw [if_neg]
    omega
  · simp only [micreate_std_variable_shape, afterImageVar_shape, himage, hmax, hmin, h0, h2,
      hlen, hl2, and_self, if_true, List.append_assoc, List.singleton_append,
      List.cons_append, List.nil_append]
  · rw [List.length_take]
    omega
  · rw [List.length_take]
    omega

/-- Witness of C6: four dimensions, every creation succeeding. -/
theorem CreateImageVars_dimensions_witness :
    (CreateImageVars exampleNames exampleAtts goodLibrary 4 4 [0, 1, 2, 3] nc_type.NC_SHORT
        true (0, 255) (freshWorld [4])).1 = true ∧
    (CreateImageVars exampleNames exampleAtts goodLibrary 4 4 [0, 1, 2, 3] nc_type.NC_SHORT
        true (0, 255) (freshWorld [4])).2.vars.map Variable.shape =
      (freshWorld [4]).vars.map Variable.shape ++
        [(exampleNames.MIimage, nc_type.NC_SHORT, [0, 1, 2, 3].take (4 : Int).toNat),
         (exampleNames.MIimagemax, nc_type.NC_DOUBLE, [0, 1, 2, 3].take ((4 : Int) - 2).toNat),
         (exampleNames.MIimagemin, nc_type.NC_DOUBLE,
           [0, 1, 2, 3].take ((4 : Int) - 2).toNat)] ∧
    ((([0, 1, 2, 3] : List Int).take (4 : Int).toNat).length : Int) = 4 ∧
    ((([0, 1, 2, 3] : List Int).take ((4 : Int) - 2).toNat).length : Int) = 4 - 2 ∧
    ([0, 1, 2, 3] : List Int).take ((4 : Int) - 2).toNat
      = (([0, 1, 2, 3] : List Int).take (4 : Int).toNat).take ((4 : Int).toNat - 2) :=
  CreateImageVars_dimensions exampleNames exampleAtts goodLibrary 4 4 [0, 1, 2, 3]
    nc_type.NC_SHORT true (0, 255) (freshWorld [4]) (by decide) (by decide) (by decide)
    (by decide) (by decide)

/-- The function `CreateImageVars` returns TRUE exactly when the image-max and image-min
variables were created: the outcome of creating the image variable is not
looked at. -/
theorem CreateImageVars_true_iff (M : MincNames) (A : MincAtts) (L : Library) (CDF : Int)
    (NumDim : Int) (DimIDs : List Int) (NCType : nc_type) (Signed : Bool)
    (ValidRange : Rat × Rat) (w : World)
    (h2 : 0 ≤ NumDim - 2) (hl2 : NumDim - 2 ≤ DimIDs.length) :
    (CreateImageVars M A L CDF NumDim DimIDs NCType Signed ValidRange w).1 = true ↔
      L.createsVar M.MIimagemax = true ∧ L.createsVar M.MIimagemin = true := by
  rw [CreateImageVars_eq]
  simp only [micreate_std_variable_fst, h2, hl2, and_self, and_true, MI_ERROR]
  by_cases hmax : L.createsVar M.MIimagemax = true
  · by_cases hmin : L.createsVar M.MIimagemin = true
    · simp only [hmax, hmin, if_true, and_self, iff_true]
      rw [if_neg]
      omega
    · simp [hmax, hmin]
  · simp [hmax]

/-- C7 (evaluation at the failing input): the library cannot create the image
variable and creates image-max and image-min; `CreateImageVars` returns TRUE
although the child has no image variable. -/
theorem CreateImageVars_image_failure_unreported :
    (micreate_std_variable imageFailsLibrary 4 exampleNames.MIimage nc_type.NC_SHORT 3
        [0, 1, 2] (freshWorld [4])).1 = MI_ERROR ∧
    (CreateImageVars exampleNames exampleAtts imageFailsLibrary 4 3 [0, 1, 2] nc_type.NC_SHORT
        true (0, 255) (freshWorld [4])).1 = true ∧
    (CreateImageVars exampleNames exampleAtts imageFailsLibrary 4 3 [0, 1, 2] nc_type.NC_SHORT
        true (0, 255) (freshWorld [4])).2.vars.map Variable.name = ["image-max", "image-min"] := by
  decide

/-! ### `UpdateHistory` -/

/-- Without a history attribute, `UpdateHistory` stores exactly the entry. -/
theorem UpdateHistory_absent (A : MincAtts) (ChildCDF : Int) (TimeStamp : String) (w : World)
    (h : w.history = none) :
    ∃ w1, UpdateHistory A ChildCDF TimeStamp w = some w1 ∧
      w1.history = some (strChars TimeStamp) := by
  unfold UpdateHistory
  simp only [issue_history, h]
  exact ⟨_, rfl, rfl⟩

/-- With a history attribute whose stored characters hold a NUL,
`UpdateHistory` stores the entry followed by the characters before that NUL. -/
theorem UpdateHistory_terminated (A : MincAtts) (ChildCDF : Int) (TimeStamp : String)
    (w : World) (OldHist OldString : List Char)
    (h : w.history = some OldHist) (hs : cString OldHist = some OldString) :
    ∃ w1, UpdateHistory A ChildCDF TimeStamp w = some w1 ∧
      w1.history = some (strChars TimeStamp ++ OldString) := by
  unfold UpdateHistory
  simp only [issue_history, h, hs]
  exact ⟨_, rfl, rfl⟩

/-- With a history attribute whose stored characters hold no NUL, the result
of `UpdateHistory` is undefined: `strcat` reads past the end of `OldHist`. -/
theorem UpdateHistory_unterminated (A : MincAtts) (ChildCDF : Int) (TimeStamp : String)
    (w : World) (OldHist : List Char)
    (h : w.history = some OldHist) (hs : '\x00' ∉ OldHist) :
    UpdateHistory A ChildCDF TimeStamp w = none := by
  unfold UpdateHistory
  simp only [issue_history, h, cString, if_neg hs]

/-- What `UpdateHistory` stores never holds a NUL. -/
theorem strChars_no_nul (s : String) : '\x00' ∉ strChars s := by
  unfold strChars
  intro h
  have := List.mem_takeWhile_imp h
  simp at this

/-- C8 (evaluation at the failing input): on a file without history the first
update stores `E1` as two characters, without terminator; the second update
then reads that value into a buffer of two characters and `strcat` runs past
its end, so no stored value is defined. The same happens for entry `B` on a
history stored as the single character `A`. -/
theorem UpdateHistory_successive_updates_undefined :
    (UpdateHistory exampleAtts 4 "E1" (freshWorld [4])).map World.history
      = some (some ['E', '1']) ∧
    (UpdateHistory exampleAtts 4 "E1" (freshWorld [4])).bind
      (UpdateHistory exampleAtts 4 "E2") = none ∧
    UpdateHistory exampleAtts 4 "B" { freshWorld [4] with history := some ['A'] } = none := by
  decide

/-- The calls of a defined run of `UpdateHistory`: attribute calls on the
history only, the last of them the store of the new value; no handle and no
variable changes. -/
theorem UpdateHistory_calls (A : MincAtts) (ChildCDF : Int) (TimeStamp : String)
    {w w1 : World} (h : UpdateHistory A ChildCDF TimeStamp w = some w1) :
    ∃ hist value, w1.calls = w.calls ++ hist ++
        [Call.ncattput_chars ChildCDF A.NC_GLOBAL A.MIhistory value] ∧
      w1.history = some value ∧
      (∀ c ∈ hist, c.isHistoryCall = true) ∧ w1.opened = w.opened ∧ w1.vars = w.vars := by
  unfold UpdateHistory at h
  simp only [issue_history] at h
  cases hh : w.history with
  | none =>
    rw [hh] at h
    simp only [Option.some.injEq] at h
    subst h
    refine ⟨[Call.ncattinq ChildCDF A.NC_GLOBAL A.MIhistory], strChars TimeStamp, ?_, rfl, ?_,
      rfl, rfl⟩
    · simp [World.issue]
    · intro c hc
      simp only [List.mem_singleton] at hc
      subst hc
      rfl
  | some OldHist =>
    rw [hh] at h
    simp only at h
    cases hc : cString OldHist with
    | none => rw [hc] at h; cases h
    | some OldString =>
      rw [hc] at h
      simp only [Option.some.injEq] at h
      subst h
      refine ⟨[Call.ncattinq ChildCDF A.NC_GLOBAL A.MIhistory,
        Call.ncattget ChildCDF A.NC_GLOBAL A.MIhistory], strChars TimeStamp ++ OldString, ?_,
        rfl, ?_, rfl, rfl⟩
      · simp [World.issue]
      · intro c hc
        simp only [List.mem_cons, List.mem_singleton, List.not_mem_nil, or_false] at hc
        rcases hc with hc | hc <;> subst hc <;> rfl

/-- The function `UpdateHistory` is defined when the file has no history attribute or the
stored characters of the attribute hold a NUL. -/
theorem UpdateHistory_isSome (A : MincAtts) (ChildCDF : Int) (TimeStamp : String) (w : World)
    (h : ∀ OldHist, w.history = some OldHist → '\x00' ∈ OldHist) :
    ∃ w1, UpdateHistory A ChildCDF TimeStamp w = some w1 := by
  cases hh : w.history with
  | none =>
    obtain ⟨w1, h1, _⟩ := UpdateHistory_absent A ChildCDF TimeStamp w hh
    exact ⟨w1, h1⟩
  | some OldHist =>
    have hs : cString OldHist = some (OldHist.takeWhile (fun c => c ≠ '\x00')) := by
      unfold cString
      rw [if_pos (h OldHist hh)]
    obtain ⟨w1, h1, _⟩ := UpdateHistory_terminated A ChildCDF TimeStamp w OldHist _ hh hs
    exact ⟨w1, h1⟩

/-- Every defined run of `CopyOthers`, by cases on the outcome of the
definition copy and of the value copy. -/
theorem CopyOthers_some (A : MincAtts) (L : Library) (ParentCDF ChildCDF : Int)
    (NumExclude : Nat) (Exclude : List Int) (TimeStamp : String) {w w1 : World} {b : Bool}
    (h : CopyOthers A L ParentCDF ChildCDF NumExclude Exclude TimeStamp w = some (b, w1)) :
    ((L.copyDefs (Exclude.take NumExclude)).1 = false ∧ b = false ∧
      w1.calls = w.calls ++
        [Call.micopy_all_var_defs ParentCDF ChildCDF (Exclude.take NumExclude),
         Call.ncclose ChildCDF] ∧
      w1.opened = w.opened.erase ChildCDF) ∨
    ((L.copyDefs (Exclude.take NumExclude)).1 = true ∧
      b = L.copyValues (Exclude.take NumExclude) ∧
      ∃ hist value, (∀ c ∈ hist, c.isHistoryCall = true) ∧
        w1.calls = w.calls ++
          ((Call.micopy_all_var_defs ParentCDF ChildCDF (Exclude.take NumExclude) :: hist ++
            [Call.ncattput_chars ChildCDF A.NC_GLOBAL A.MIhistory value]) ++
          Call.ncendef ChildCDF ::
          Call.micopy_all_var_values ParentCDF ChildCDF (Exclude.take NumExclude) ::
          (if b = true then [] else [Call.ncclose ChildCDF])) ∧
        w1.opened = if b = true then w.opened else w.opened.erase ChildCDF) := by
  unfold CopyOthers micopy_all_var_defs at h
  simp only at h
  by_cases hd : (L.copyDefs (Exclude.take NumExclude)).1 = false
  · rw [if_pos hd] at h
    simp only [Option.some.injEq, Prod.mk.injEq] at h
    obtain ⟨hb, hw⟩ := h
    subst hw
    exact Or.inl ⟨hd, hb.symm, by simp [ncclose, World.issue], by simp [ncclose, World.issue]⟩
  · rw [if_neg hd] at h
    have hd1 : (L.copyDefs (Exclude.take NumExclude)).1 = true := by simpa using hd
    right
    cases hu : UpdateHistory A ChildCDF TimeStamp
        { w.issue (Call.micopy_all_var_defs ParentCDF ChildCDF (Exclude.take NumExclude)) with
          vars := (w.issue (Call.micopy_all_var_defs ParentCDF ChildCDF
            (Exclude.take NumExclude))).vars ++ (L.copyDefs (Exclude.take NumExclude)).2 } with
    | none => rw [hu] at h; cases h
    | some w2 =>
      rw [hu] at h
      obtain ⟨hist, value, hcalls, _, hhist, hopen, _⟩ := UpdateHistory_calls A ChildCDF TimeStamp hu
      simp only [micopy_all_var_values, ncendef] at h
      refine ⟨hd1, ?_, hist, value, hhist, ?_, ?_⟩
      · by_cases hv : L.copyValues (Exclude.take NumExclude) = false
        · rw [if_pos hv] at h
          simp only [Option.some.injEq, Prod.mk.injEq] at h
          rw [← h.1, hv]
        · rw [if_neg hv] at h
          simp only [Option.some.injEq, Prod.mk.injEq] at h
          rw [← h.1]
          simpa using hv
      · by_cases hv : L.copyValues (Exclude.take NumExclude) = false
        · rw [if_pos hv] at h
          simp only [Option.some.injEq, Prod.mk.injEq] at h
          obtain ⟨hb, hw⟩ := h
          subst hw
          subst hb
          simp [ncclose, World.issue, hcalls]
        · rw [if_neg hv] at h
          simp only [Option.some.injEq, Prod.mk.injEq] at h
          obtain ⟨hb, hw⟩ := h
          subst hw
          subst hb
          simp [World.issue, hcalls]
      · by_cases hv : L.copyValues (Exclude.take NumExclude) = false
        · rw [if_pos hv] at h
          simp only [Option.some.injEq, Prod.mk.injEq] at h
          obtain ⟨hb, hw⟩ := h
          subst hw
          subst hb
          simp [ncclose, World.issue, hopen]
        · rw [if_neg hv] at h
          simp only [Option.some.injEq, Prod.mk.injEq] at h
          obtain ⟨hb, hw⟩ := h
          subst hw
          subst hb
          simp [World.issue, hopen]

/-- The function `CopyOthers` is defined when the definition copy fails, and also when the
child has no history attribute or one whose stored characters hold a NUL. -/
theorem CopyOthers_isSome (A : MincAtts) (L : Library) (ParentCDF ChildCDF : Int)
    (NumExclude : Nat) (Exclude : List Int) (TimeStamp : String) (w : World)
    (h : (L.copyDefs (Exclude.take NumExclude)).1 = false ∨
      ∀ OldHist, w.history = some OldHist → '\x00' ∈ OldHist) :
    ∃ r, CopyOthers A L ParentCDF ChildCDF NumExclude Exclude TimeStamp w = some r := by
  unfold CopyOthers micopy_all_var_defs
  simp only
  by_cases hd : (L.copyDefs (Exclude.take NumExclude)).1 = false
  · rw [if_pos hd]
    exact ⟨_, rfl⟩
  · rw [if_neg hd]
    have hnul : ∀ OldHist, w.history = some OldHist → '\x00' ∈ OldHist := by
      rcases h with h | h
      · exact absurd h hd
      · exact h
    obtain ⟨w2, hu⟩ := UpdateHistory_isSome A ChildCDF TimeStamp
      { w.issue (Call.micopy_all_var_defs ParentCDF ChildCDF (Exclude.take NumExclude)) with
        vars := (w.issue (Call.micopy_all_var_defs ParentCDF ChildCDF
          (Exclude.take NumExclude))).vars ++ (L.copyDefs (Exclude.take NumExclude)).2 }
      hnul
    rw [hu]
    simp only [micopy_all_var_values, ncendef]
    split <;> exact ⟨_, rfl⟩

theorem callsSince_of_calls_eq {w w1 : World} {added : List Call}
    (h : w1.calls = w.calls ++ added) : w1.callsSince w = added := by
  unfold World.callsSince
  rw [h, List.drop_left]

/-- C9: the order of the container calls of `CopyOthers`. When the definition
copy fails, the run issues the definition copy and `ncclose` and nothing else
(no history update, no `ncendef`, no value copy). The run is defined whenever
the history attribute can be read as a string. In every defined run in which
the definition copy succeeds, the calls are: the definition copy first, then
the calls of `UpdateHistory` ending with the store of the new history, then
`ncendef`, and only after it the value copy (followed at most by `ncclose`). -/
theorem CopyOthers_call_order (A : MincAtts) (L : Library) (ParentCDF ChildCDF : Int)
    (NumExclude : Nat) (Exclude : List Int) (TimeStamp : String) (w : World) :
    ((L.copyDefs (Exclude.take NumExclude)).1 = false →
      ∃ w1, CopyOthers A L ParentCDF ChildCDF NumExclude Exclude TimeStamp w = some (false, w1) ∧
        w1.callsSince w =
          [Call.micopy_all_var_defs ParentCDF ChildCDF (Exclude.take NumExclude),
           Call.ncclose ChildCDF]) ∧
    ((∀ OldHist, w.history = some OldHist → '\x00' ∈ OldHist) →
      ∃ r, CopyOthers A L ParentCDF ChildCDF NumExclude Exclude TimeStamp w = some r) ∧
    (∀ b w1, CopyOthers A L ParentCDF ChildCDF NumExclude Exclude TimeStamp w = some (b, w1) →
      (L.copyDefs (Exclude.take NumExclude)).1 = true →
      ∃ before value after,
        w1.callsSince w =
          (Call.micopy_all_var_defs ParentCDF ChildCDF (Exclude.take NumExclude) :: before ++
            [Call.ncattput_chars ChildCDF A.NC_GLOBAL A.MIhistory value]) ++
          Call.ncendef ChildCDF ::
          Call.micopy_all_var_values ParentCDF ChildCDF (Exclude.take NumExclude) :: after ∧
        (∀ c ∈ before, c.isHistoryCall = true) ∧
        (∀ c ∈ after, c = Call.ncclose ChildCDF)) := by
  refine ⟨?_, ?_, ?_⟩
  · intro hd
    obtain ⟨⟨b, w1⟩, hr⟩ := CopyOthers_isSome A L ParentCDF ChildCDF NumExclude Exclude
      TimeStamp w (Or.inl hd)
    rcases CopyOthers_some A L ParentCDF ChildCDF NumExclude Exclude TimeStamp hr with
      ⟨_, hb, hcalls, _⟩ | ⟨hd1, _⟩
    · subst hb
      exact ⟨w1, hr, callsSince_of_calls_eq hcalls⟩
    · rw [hd] at hd1
      cases hd1
  · intro hnul
    exact CopyOthers_isSome A L ParentCDF ChildCDF NumExclude Exclude TimeStamp w (Or.inr hnul)
  · intro b w1 hr hd
    rcases CopyOthers_some A L ParentCDF ChildCDF NumExclude Exclude TimeStamp hr with
      ⟨hd0, _⟩ | ⟨_, _, hist, value, hhist, hcalls, _⟩
    · rw [hd] at hd0
      cases hd0
    · refine ⟨hist, value, _, callsSince_of_calls_eq hcalls, hhist, ?_⟩
      intro c hc
      split at hc
      · cases hc
      · exact List.mem_singleton.1 hc

/-- Witness of C9: a run on a child without history in which every call
succeeds, and one in which the definition copy fails. -/
theorem CopyOthers_call_order_witness :
    (∃ w1, CopyOthers exampleAtts defsFailLibrary 3 4 2 [1, 2, 0] "E1" (freshWorld [4, 3])
        = some (false, w1) ∧
      w1.callsSince (freshWorld [4, 3]) =
        [Call.micopy_all_var_defs 3 4 ([1, 2, 0].take 2), Call.ncclose 4]) ∧
    (∃ before value after,
      (CopyOthers exampleAtts goodLibrary 3 4 2 [1, 2, 0] "E1" (freshWorld [4, 3])).map
          (fun r => r.2.callsSince (freshWorld [4, 3])) =
        some ((Call.micopy_all_var_defs 3 4 ([1, 2, 0].take 2) :: before ++
            [Call.ncattput_chars 4 exampleAtts.NC_GLOBAL exampleAtts.MIhistory value]) ++
          Call.ncendef 4 :: Call.micopy_all_var_values 3 4 ([1, 2, 0].take 2) :: after) ∧
      (∀ c ∈ before, c.isHistoryCall = true) ∧ (∀ c ∈ after, c = Call.ncclose 4)) := by
  refine ⟨(CopyOthers_call_order exampleAtts defsFailLibrary 3 4 2 [1, 2, 0] "E1"
    (freshWorld [4, 3])).1 (by decide), ?_⟩
  obtain ⟨⟨b, w1⟩, hr⟩ := (CopyOthers_call_order exampleAtts goodLibrary 3 4 2 [1, 2, 0] "E1"
    (freshWorld [4, 3])).2.1 (by decide)
  obtain ⟨before, value, after, h1, h2, h3⟩ :=
    (CopyOthers_call_order exampleAtts goodLibrary 3 4 2 [1, 2, 0] "E1"
      (freshWorld [4, 3])).2.2 b w1 hr (by decide)
  exact ⟨before, value, after, by rw [hr]; exact congrArg some h1, h2, h3⟩

/-! ### Handles on the failure paths -/

theorem OpenFiles_failure_opened (L : Library) (parent_file : Option String)
    (child_file : String) (child_CDF : Int) (w : World)
    (hfail : (OpenFiles L parent_file child_file child_CDF w).1 = false) :
    ∀ h ∈ (OpenFiles L parent_file child_file child_CDF w).2.2.2.opened, h ∈ w.opened := by
  intro h
  unfold OpenFiles at hfail ⊢
  cases parent_file with
  | none =>
    simp only [Option.isSome_none, Bool.false_eq_true, false_and, if_false, nccreate] at hfail ⊢
    by_cases hc : L.nccreate child_file = MI_ERROR
    · simp only [hc, if_true, ncclose, issue_opened]
      exact List.mem_of_mem_erase
    · simp [hc] at hfail
  | some path =>
    simp only [Option.isSome_some, true_and, ncopen, nccreate] at hfail ⊢
    by_cases hp : L.ncopen path = MI_ERROR
    · simp only [hp, if_true, issue_opened]
      exact id
    · by_cases hc : L.nccreate child_file = MI_ERROR
      · simp only [hp, hc, if_true, if_false, ncclose, issue_opened, List.erase_cons_head]
        exact id
      · simp [hp, hc] at hfail

theorem CreateImageVars_opened (M : MincNames) (A : MincAtts) (L : Library) (CDF : Int)
    (NumDim : Int) (DimIDs : List Int) (NCType : nc_type) (Signed : Bool)
    (ValidRange : Rat × Rat) (w : World) :
    (CreateImageVars M A L CDF NumDim DimIDs NCType Signed ValidRange w).2.opened = w.opened := by
  rw [CreateImageVars_eq]
  simp [afterImageVar_opened]

theorem CreateImageVars_no_close (M : MincNames) (A : MincAtts) (L : Library) (CDF : Int)
    (NumDim : Int) (DimIDs : List Int) (NCType : nc_type) (Signed : Bool)
    (ValidRange : Rat × Rat) (w : World) :
    ((CreateImageVars M A L CDF NumDim DimIDs NCType Signed ValidRange w).2.callsSince w).filter
      Call.isClose = [] := by
  rw [CreateImageVars_eq]
  have hc : (micreate_std_variable L CDF M.MIimagemin nc_type.NC_DOUBLE (NumDim - 2) DimIDs
      (micreate_std_variable L CDF M.MIimagemax nc_type.NC_DOUBLE (NumDim - 2) DimIDs
        (afterImageVar M A L CDF NumDim DimIDs NCType Signed ValidRange w)).2).2.calls =
      w.calls ++ ([Call.micreate_std_variable CDF M.MIimage NCType NumDim DimIDs,
       Call.miattputstr CDF (micreate_std_variable L CDF M.MIimage NCType NumDim DimIDs w).1
         A.MIsigntype (A.MI_SIGN_STR Signed),
       Call.miattputstr CDF (micreate_std_variable L CDF M.MIimage NCType NumDim DimIDs w).1
         A.MIcomplete A.MI_FALSE,
       Call.ncattput_doubles CDF
         (micreate_std_variable L CDF M.MIimage NCType NumDim DimIDs w).1
         A.MIvalid_range [ValidRange.1, ValidRange.2]] ++
       [Call.micreate_std_variable CDF M.MIimagemax nc_type.NC_DOUBLE (NumDim - 2) DimIDs,
        Call.micreate_std_variable CDF M.MIimagemin nc_type.NC_DOUBLE (NumDim - 2) DimIDs]) := by
    simp only [micreate_std_variable_calls, afterImageVar_calls, List.append_assoc,
      List.cons_append, List.nil_append]
  rw [callsSince_of_calls_eq hc]
  simp [Call.isClose]

theorem filter_isClose_of_history (hist : List Call)
    (h : ∀ c ∈ hist, c.isHistoryCall = true) : hist.filter Call.isClose = [] := by
  rw [List.filter_eq_nil_iff]
  intro c hc
  have := h c hc
  cases c <;> simp_all [Call.isHistoryCall, Call.isClose]

/-- C10 (counterexample): failing runs that leave a handle open, and a close of
a handle that was never opened. With child 4 and parent 3 open,
`CreateImageVars` returns FALSE (image-max cannot be created) with both still
open, and `CopyOthers` returns FALSE (the value copy fails) with the parent
still open; `OpenFiles` without a parent file, when the child cannot be
created, issues `ncclose (-1)`. -/
theorem failure_leaves_handles_open :
    ((CreateImageVars exampleNames exampleAtts imageMaxFailsLibrary 4 3 [0, 1, 2]
        nc_type.NC_SHORT true (0, 255) (freshWorld [4, 3])).1 = false ∧
      (CreateImageVars exampleNames exampleAtts imageMaxFailsLibrary 4 3 [0, 1, 2]
        nc_type.NC_SHORT true (0, 255) (freshWorld [4, 3])).2.opened = [4, 3]) ∧
    (CopyOthers exampleAtts valuesFailLibrary 3 4 2 [1, 2, 0] "E1" (freshWorld [4, 3])).map
        (fun r => (r.1, r.2.opened)) = some (false, [3]) ∧
    ((OpenFiles createFailsLibrary none "child.mnc" 0 (freshWorld [])).1 = false ∧
      (OpenFiles createFailsLibrary none "child.mnc" 0 (freshWorld [])).2.2.2.calls
        = [Call.nccreate "child.mnc", Call.ncclose (-1)]) := by
  decide

/-- C10 (amended): what the three functions do with the handles when they
fail. `OpenFiles` returning FALSE leaves open no handle that was not open
before the call (a parent it opened is closed again when the child cannot be
created). `CopyOthers` returning FALSE has closed the child handle, and that is
the only close it issued (the parent handle stays open). `CreateImageVars`
returning FALSE has issued no close: the open handles are those open before. -/
theorem failure_handles_as_coded (M : MincNames) (A : MincAtts) (L : Library) :
    (∀ (parent_file : Option String) (child_file : String) (child_CDF : Int) (w : World),
      (OpenFiles L parent_file child_file child_CDF w).1 = false →
      ∀ h ∈ (OpenFiles L parent_file child_file child_CDF w).2.2.2.opened, h ∈ w.opened) ∧
    (∀ (ParentCDF ChildCDF : Int) (NumExclude : Nat) (Exclude : List Int)
        (TimeStamp : String) (w w1 : World),
      CopyOthers A L ParentCDF ChildCDF NumExclude Exclude TimeStamp w = some (false, w1) →
      w1.opened = w.opened.erase ChildCDF ∧
      (w1.callsSince w).filter Call.isClose = [Call.ncclose ChildCDF]) ∧
    (∀ (CDF NumDim : Int) (DimIDs : List Int) (NCType : nc_type) (Signed : Bool)
        (ValidRange : Rat × Rat) (w : World),
      (CreateImageVars M A L CDF NumDim DimIDs NCType Signed ValidRange w).1 = false →
      (CreateImageVars M A L CDF NumDim DimIDs NCType Signed ValidRange w).2.opened = w.opened ∧
      ((CreateImageVars M A L CDF NumDim DimIDs NCType Signed ValidRange w).2.callsSince
        w).filter Call.isClose = []) := by
  refine ⟨?_, ?_, ?_⟩
  · intro parent_file child_file child_CDF w hfail
    exact OpenFiles_failure_opened L parent_file child_file child_CDF w hfail
  · intro ParentCDF ChildCDF NumExclude Exclude TimeStamp w w1 hr
    rcases CopyOthers_some A L ParentCDF ChildCDF NumExclude Exclude TimeStamp hr with
      ⟨_, _, hcalls, hopen⟩ | ⟨_, _, hist, value, hhist, hcalls, hopen⟩
    · refine ⟨hopen, ?_⟩
      rw [callsSince_of_calls_eq hcalls]
      simp [Call.isClose]
    · simp only [Bool.false_eq_true, if_false] at hcalls hopen
      refine ⟨hopen, ?_⟩
      rw [callsSince_of_calls_eq hcalls]
      simp [Call.isClose, List.filter_append, filter_isClose_of_history hist hhist]
  · intro CDF NumDim DimIDs NCType Signed ValidRange w _
    exact ⟨CreateImageVars_opened M A L CDF NumDim DimIDs NCType Signed ValidRange w,
      CreateImageVars_no_close M A L CDF NumDim DimIDs NCType Signed ValidRange w⟩

/-- Witness of C10 (amended): the child cannot be created after the parent was
opened as handle 3; the parent is closed again. -/
theorem failure_handles_as_coded_witness :
    ∀ h ∈ (OpenFiles createFailsLibrary (some "parent.mnc") "child.mnc" 0
        (freshWorld [])).2.2.2.opened, h ∈ (freshWorld []).opened :=
  (failure_handles_as_coded exampleNames exampleAtts createFailsLibrary).1
    (some "parent.mnc") "child.mnc" 0 (freshWorld []) (by decide)

/-! ## Properties of `VerifyVectors` and `GetVector` -/

theorem drop_take_succ (l : List Int) (i r : Nat) (h : i < l.length) :
    (l.drop i).take (r + 1) = l[i] :: (l.drop (i + 1)).take r := by
  rw [List.drop_eq_getElem_cons h, List.take_succ_cons]

/-- The slice loop of `VerifyVectors` ends without message exactly when every
slice it reads is in range. -/
theorem verifySlices_spec (Slices : List Int) (Image : ImageInfoRec) :
    ∀ (remaining i : Nat), i + remaining ≤ Slices.length →
      ∃ r, verifySlices Slices Image remaining i = some r ∧
        (r = none ↔ ∀ s ∈ (Slices.drop i).take remaining, 0 ≤ s ∧ s < Image.Slices) := by
  intro remaining
  induction remaining with
  | zero =>
    intro i _
    exact ⟨none, rfl, by simp⟩
  | succ remaining ih =>
    intro i hi
    have hlt : i < Slices.length := by omega
    simp only [verifySlices, List.getElem?_eq_getElem hlt]
    rw [drop_take_succ Slices i remaining hlt]
    by_cases hbad : Slices[i] ≥ Image.Slices ∨ Slices[i] < 0
    · rw [if_pos hbad]
      refine ⟨_, rfl, ?_⟩
      constructor
      · intro h; cases h
      · intro h
        have := h Slices[i] (List.mem_cons_self _ _)
        omega
    · rw [if_neg hbad]
      obtain ⟨r, hr, hiff⟩ := ih (i + 1) (by omega)
      refine ⟨r, hr, hiff.trans ?_⟩
      constructor
      · intro h s hs
        rcases List.mem_cons.1 hs with hs | hs
        · subst hs; omega
        · exact h s hs
      · intro h s hs
        exact h s (List.mem_cons_of_mem _ hs)

/-- The frame loop of `VerifyVectors` ends without message exactly when every
frame it reads is in range. -/
theorem verifyFrames_spec (Frames : List Int) (Image : ImageInfoRec) :
    ∀ (remaining i : Nat), i + remaining ≤ Frames.length →
      ∃ r, verifyFrames Frames Image remaining i = some r ∧
        (r = none ↔ ∀ f ∈ (Frames.drop i).take remaining, 0 ≤ f ∧ f < Image.Frames) := by
  intro remaining
  induction remaining with
  | zero =>
    intro i _
    exact ⟨none, rfl, by simp⟩
  | succ remaining ih =>
    intro i hi
    have hlt : i < Frames.length := by omega
    simp only [verifyFrames, List.getElem?_eq_getElem hlt]
    rw [drop_take_succ Frames i remaining hlt]
    by_cases hbad : Frames[i] ≥ Image.Frames ∨ Frames[i] < 0
    · rw [if_pos hbad]
      refine ⟨_, rfl, ?_⟩
      constructor
      · intro h; cases h
      · intro h
        have := h Frames[i] (List.mem_cons_self _ _)
        omega
    · rw [if_neg hbad]
      obtain ⟨r, hr, hiff⟩ := ih (i + 1) (by omega)
      refine ⟨r, hr, hiff.trans ?_⟩
      constructor
      · intro h s hs
        rcases List.mem_cons.1 hs with hs | hs
        · subst hs; omega
        · exact h s hs
      · intro h s hs
        exact h s (List.mem_cons_of_mem _ hs)

/-- C17: for lists `Slices[0..NumSlices-1]` and `Frames[0..NumFrames-1]` held in
their arrays, `VerifyVectors` returns TRUE if and only if every slice `s` has
`0 <= s < Image->Slices` and every frame `f` has `0 <= f < Image->Frames`; so
empty lists are accepted, and when the image has no frames every non-empty
frame list is refused. -/
theorem VerifyVectors_accepts_iff (Slices Frames : List Int) (NumSlices NumFrames : Int)
    (Image : ImageInfoRec)
    (hS : NumSlices.toNat ≤ Slices.length) (hF : NumFrames.toNat ≤ Frames.length) :
    ∃ b msg, VerifyVectors Slices Frames NumSlices NumFrames Image = some (b, msg) ∧
      (b = true ↔
        (∀ s ∈ Slices.take NumSlices.toNat, 0 ≤ s ∧ s < Image.Slices) ∧
        (∀ f ∈ Frames.take NumFrames.toNat, 0 ≤ f ∧ f < Image.Frames)) ∧
      (NumSlices ≤ 0 → NumFrames ≤ 0 → b = true) ∧
      (Image.Frames = 0 → 0 < NumFrames → b = false) := by
  obtain ⟨rs, hrs, hsiff⟩ := verifySlices_spec Slices Image NumSlices.toNat 0 (by omega)
  obtain ⟨rf, hrf, hfiff⟩ := verifyFrames_spec Frames Image NumFrames.toNat 0 (by omega)
  simp only [List.drop_zero] at hsiff hfiff
  have key : ∃ b msg, VerifyVectors Slices Frames NumSlices NumFrames Image = some (b, msg) ∧
      (b = true ↔
        (∀ s ∈ Slices.take NumSlices.toNat, 0 ≤ s ∧ s < Image.Slices) ∧
        (∀ f ∈ Frames.take NumFrames.toNat, 0 ≤ f ∧ f < Image.Frames)) := by
    unfold VerifyVectors
    rw [hrs]
    cases rs with
    | some msg =>
      refine ⟨false, some msg, rfl, ?_⟩
      constructor
      · intro h; cases h
      · intro h
        have := hsiff.2 h.1
        cases this
    | none =>
      simp only
      rw [hrf]
      cases rf with
      | some msg =>
        refine ⟨false, some msg, rfl, ?_⟩
        constructor
        · intro h; cases h
        · intro h
          have := hfiff.2 h.2
          cases this
      | none =>
        exact ⟨true, none, rfl, fun _ => ⟨hsiff.1 rfl, hfiff.1 rfl⟩, fun _ => rfl⟩
  obtain ⟨b, msg, hv, hiff⟩ := key
  refine ⟨b, msg, hv, hiff, ?_, ?_⟩
  · intro h1 h2
    apply hiff.2
    have e1 : NumSlices.toNat = 0 := by omega
    have e2 : NumFrames.toNat = 0 := by omega
    rw [e1, e2]
    simp
  · intro h0 hpos
    cases b with
    | false => rfl
    | true =>
      exfalso
      have h := (hiff.1 rfl).2
      have hlen : 0 < (Frames.take NumFrames.toNat).length := by
        rw [List.length_take]
        omega
      obtain ⟨f, hf⟩ := List.exists_mem_of_length_pos hlen
      have := h f hf
      omega

/-- Witness of C17: slices 0 and 2 of three and frame 1 of two are accepted. -/
theorem VerifyVectors_accepts_iff_witness :
    ∃ b msg, VerifyVectors [0, 2, 9, 9] [1, 9, 9, 9] 2 1 exampleImage = some (b, msg) ∧
      (b = true ↔
        (∀ s ∈ [0, 2, 9, 9].take (2 : Int).toNat, 0 ≤ s ∧ s < exampleImage.Slices) ∧
        (∀ f ∈ [1, 9, 9, 9].take (1 : Int).toNat, 0 ≤ f ∧ f < exampleImage.Frames)) ∧
      ((2 : Int) ≤ 0 → (1 : Int) ≤ 0 → b = true) ∧
      (exampleImage.Frames = 0 → 0 < (1 : Int) → b = false) :=
  VerifyVectors_accepts_iff [0, 2, 9, 9] [1, 9, 9, 9] 2 1 exampleImage (by decide) (by decide)

/-- The token loop of `GetVector` never stores outside `vector` when it holds
`max_elements` components, stores at the indices `0, 1, 2, ...` in turn, and
returns a count only below `max_elements`. -/
theorem getVectorLoop_spec (max_elements : Int) :
    ∀ (tokens : List (List Char)) (member : Nat) (vector : List Int) (stores : List Nat),
      (member : Int) < max_elements → max_elements ≤ vector.length →
      stores = List.range member →
      ∃ ret vector1 stores1,
        getVectorLoop max_elements tokens member vector stores = some (ret, vector1, stores1) ∧
        (∀ i ∈ stores1, (i : Int) < max_elements) ∧
        (0 ≤ ret → ret < max_elements ∧ stores1 = List.range ret.toNat) ∧
        (∀ i ∈ stores, i ∈ stores1) ∧
        vector1.length = vector.length ∧
        (∀ i, i ∉ stores1 → vector1[i]? = vector[i]?) := by
  intro tokens
  induction tokens with
  | nil =>
    intro member vector stores hm _ hs
    refine ⟨member, vector, stores, rfl, ?_, ?_, fun i hi => hi, rfl, fun _ _ => rfl⟩
    · intro i hi
      rw [hs, List.mem_range] at hi
      omega
    · intro _
      exact ⟨hm, by simpa using hs⟩
  | cons token rest ih =>
    intro member vector stores hm hcap hs
    simp only [getVectorLoop]
    by_cases hd : isdigit (token.headD '\x00') = true
    · rw [if_pos hd]
      have hlt : member < vector.length := by omega
      rw [if_pos hlt]
      have hs1 : stores ++ [member] = List.range (member + 1) := by
        rw [hs, List.range_succ]
      by_cases hfull : ((member + 1 : Nat) : Int) = max_elements
      · rw [if_pos hfull]
        refine ⟨-2, _, _, rfl, ?_, ?_, ?_, by simp, ?_⟩
        · intro i hi
          rw [hs1, List.mem_range] at hi
          omega
        · intro h; omega
        · intro i hi
          exact List.mem_append_left _ hi
        · intro i hi
          have hne : member ≠ i := by
            intro h
            apply hi
            rw [h]
            simp
          rw [List.getElem?_set]
          simp [hne]
      · rw [if_neg hfull]
        obtain ⟨ret, v1, s1, hr, hidx, hret, hmono, hlen, hout⟩ :=
          ih (member + 1) (vector.set member (atoi token)) (stores ++ [member])
            (by push_cast at hfull ⊢; omega) (by simpa using hcap) hs1
        refine ⟨ret, v1, s1, hr, hidx, hret, ?_, by simpa using hlen, ?_⟩
        · intro i hi
          exact hmono i (List.mem_append_left _ hi)
        · intro i hi
          rw [hout i hi, List.getElem?_set]
          have hne : member ≠ i := by
            intro h
            apply hi
            apply hmono
            rw [h]
            simp
          simp [hne]
    · rw [if_neg hd]
      refine ⟨-1, vector, stores, rfl, ?_, ?_, fun i hi => hi, rfl, fun _ _ => rfl⟩
      · intro i hi
        rw [hs, List.mem_range] at hi
        omega
      · intro h; omega

/-- C19: for every input string and every `max_elements >= 1`, with `vector` an
array of at least `max_elements` components, `GetVector` returns (no store
falls outside the array), every index it stores to is in `0 .. max_elements-1`,
and when the value returned is a non-negative count `m`, then
`m <= max_elements` and the indices stored to are exactly `0 .. m-1`; all
other components of `vector` are left as they were. -/
theorem GetVector_stores_in_bounds (vector_string : String) (vector : List Int)
    (max_elements : Int) (hmax : 1 ≤ max_elements) (hcap : max_elements ≤ vector.length) :
    ∃ ret vector1 stores,
      GetVector vector_string vector max_elements = some (ret, vector1, stores) ∧
      (∀ i ∈ stores, (i : Int) < max_elements) ∧
      (0 ≤ ret → ret ≤ max_elements ∧ stores = List.range ret.toNat) ∧
      vector1.length = vector.length ∧
      (∀ i, i ∉ stores → vector1[i]? = vector[i]?) := by
  unfold GetVector
  simp only
  split
  · exact ⟨0, vector, [], rfl, by simp, fun _ => ⟨by omega, by simp⟩, rfl, fun _ _ => rfl⟩
  · split
    · exact ⟨-3, vector, [], rfl, by simp, fun h => by omega, rfl, fun _ _ => rfl⟩
    · rename_i token rest _
      obtain ⟨ret, v1, s1, hr, hidx, hret, _, hlen, hout⟩ :=
        getVectorLoop_spec max_elements (token :: rest) 0 vector [] (by omega) hcap (by simp)
      exact ⟨ret, v1, s1, hr, hidx, fun h => ⟨by have := (hret h).1; omega, (hret h).2⟩,
        hlen, hout⟩

/-- Witness of C19: three members read into an array of four. -/
theorem GetVector_stores_in_bounds_witness :
    ∃ ret vector1 stores,
      GetVector "10,2,33" [0, 0, 0, 0] 4 = some (ret, vector1, stores) ∧
      (∀ i ∈ stores, (i : Int) < 4) ∧
      (0 ≤ ret → ret ≤ 4 ∧ stores = List.range ret.toNat) ∧
      vector1.length = [0, 0, 0, (0 : Int)].length ∧
      (∀ i, i ∉ stores → vector1[i]? = [0, 0, 0, (0 : Int)][i]?) :=
  GetVector_stores_in_bounds "10,2,33" [0, 0, 0, 0] 4 (by decide) (by decide)

/-- An empty string, and a string that starts with `-`, give the count 0 and
store nothing. -/
theorem GetVector_empty_or_dash (vector_string : String) (vector : List Int)
    (max_elements : Int)
    (h : strChars vector_string = [] ∨ (strChars vector_string).head? = some '-') :
    GetVector vector_string vector max_elements = some (0, vector, []) := by
  unfold GetVector
  simp only
  rw [if_pos]
  rcases h with h | h
  · left; rw [h]; rfl
  · right; exact h

/-- C18 (evaluation at the failing input): a string of two members read with
`max_elements = 2` gives `-2` (too many members) although both fit the array
and were stored; with `max_elements = 3` the same string gives the count 2.
The empty string and a string starting with `-` give 0. -/
theorem GetVector_full_array_refused :
    GetVector "1,2" [0, 0] 2 = some (-2, [1, 2], [0, 1]) ∧
    GetVector "1,2" [0, 0, 0] 3 = some (2, [1, 2, 0], [0, 1]) ∧
    GetVector "" [0, 0] 2 = some (0, [0, 0], []) ∧
    GetVector "-1,2" [0, 0] 2 = some (0, [0, 0], []) := by
  decide

/-! ## Properties of `PutMaxMin` -/

theorem maxFrom_cons (M v : Rat) (l : List Rat) :
    maxFrom M (v :: l) = maxFrom (if v > M then v else M) l := rfl

theorem minFrom_cons (m v : Rat) (l : List Rat) :
    minFrom m (v :: l) = minFrom (if v < m then v else m) l := rfl

theorem le_maxFrom (l : List Rat) : ∀ M : Rat, M ≤ maxFrom M l := by
  induction l with
  | nil => intro M; exact le_refl M
  | cons v l ih =>
    intro M
    rw [maxFrom_cons]
    by_cases h : v > M
    · rw [if_pos h]
      exact le_trans (le_of_lt h) (ih v)
    · rw [if_neg h]
      exact ih M

theorem minFrom_le (l : List Rat) : ∀ m : Rat, minFrom m l ≤ m := by
  induction l with
  | nil => intro m; exact le_refl m
  | cons v l ih =>
    intro m
    rw [minFrom_cons]
    by_cases h : v < m
    · rw [if_pos h]
      exact le_trans (ih v) (le_of_lt h)
    · rw [if_neg h]
      exact ih m

theorem mem_le_maxFrom (l : List Rat) : ∀ (M : Rat), ∀ v ∈ l, v ≤ maxFrom M l := by
  induction l with
  | nil => intro M v hv; cases hv
  | cons w l ih =>
    intro M v hv
    rw [maxFrom_cons]
    rcases List.mem_cons.1 hv with hv | hv
    · subst hv
      by_cases h : v > M
      · rw [if_pos h]
        exact le_maxFrom l v
      · rw [if_neg h]
        exact le_trans (not_lt.1 h) (le_maxFrom l M)
    · exact ih _ v hv

theorem minFrom_le_mem (l : List Rat) : ∀ (m : Rat), ∀ v ∈ l, minFrom m l ≤ v := by
  induction l with
  | nil => intro m v hv; cases hv
  | cons w l ih =>
    intro m v hv
    rw [minFrom_cons]
    rcases List.mem_cons.1 hv with hv | hv
    · subst hv
      by_cases h : v < m
      · rw [if_pos h]
        exact minFrom_le l v
      · rw [if_neg h]
        exact le_trans (minFrom_le l m) (not_lt.1 h)
    · exact ih _ v hv

theorem maxFrom_eq_or_mem (l : List Rat) : ∀ M : Rat, maxFrom M l = M ∨ maxFrom M l ∈ l := by
  induction l with
  | nil => intro M; exact Or.inl rfl
  | cons w l ih =>
    intro M
    rw [maxFrom_cons]
    by_cases h : w > M
    · rw [if_pos h]
      rcases ih w with h1 | h1
      · rw [h1]; exact Or.inr (List.mem_cons_self _ _)
      · exact Or.inr (List.mem_cons_of_mem _ h1)
    · rw [if_neg h]
      rcases ih M with h1 | h1
      · exact Or.inl h1
      · exact Or.inr (List.mem_cons_of_mem _ h1)

theorem minFrom_eq_or_mem (l : List Rat) : ∀ m : Rat, minFrom m l = m ∨ minFrom m l ∈ l := by
  induction l with
  | nil => intro m; exact Or.inl rfl
  | cons w l ih =>
    intro m
    rw [minFrom_cons]
    by_cases h : w < m
    · rw [if_pos h]
      rcases ih w with h1 | h1
      · rw [h1]; exact Or.inr (List.mem_cons_self _ _)
      · exact Or.inr (List.mem_cons_of_mem _ h1)
    · rw [if_neg h]
      rcases ih m with h1 | h1
      · exact Or.inl h1
      · exact Or.inr (List.mem_cons_of_mem _ h1)

/-- Over a non-empty buffer whose samples are all at least `-DBL_MAX`, the
maximum found is a sample of the buffer and no sample exceeds it. -/
theorem maxFrom_is_maximum (B : Rat) (l : List Rat) (hne : l ≠ [])
    (hge : ∀ v ∈ l, -B ≤ v) :
    maxFrom (-B) l ∈ l ∧ ∀ v ∈ l, v ≤ maxFrom (-B) l := by
  refine ⟨?_, mem_le_maxFrom l (-B)⟩
  rcases maxFrom_eq_or_mem l (-B) with h | h
  · obtain ⟨v, hv⟩ := List.exists_mem_of_ne_nil l hne
    have h1 := mem_le_maxFrom l (-B) v hv
    have h2 := hge v hv
    have : v = maxFrom (-B) l := le_antisymm h1 (by rw [h]; exact h2)
    rw [← this]
    exact hv
  · exact h

/-- Over a non-empty buffer whose samples are all at most `DBL_MAX`, the
minimum found is a sample of the buffer and no sample is below it. -/
theorem minFrom_is_minimum (B : Rat) (l : List Rat) (hne : l ≠ [])
    (hle : ∀ v ∈ l, v ≤ B) :
    minFrom B l ∈ l ∧ ∀ v ∈ l, minFrom B l ≤ v := by
  refine ⟨?_, minFrom_le_mem l B⟩
  rcases minFrom_eq_or_mem l B with h | h
  · obtain ⟨v, hv⟩ := List.exists_mem_of_ne_nil l hne
    have h1 := minFrom_le_mem l B v hv
    have h2 := hle v hv
    have : v = minFrom B l := le_antisymm (by rw [h]; exact h2) h1
    rw [← this]
    exact hv
  · exact h

theorem drop_take_succ_rat (l : List Rat) (i r : Nat) (h : i < l.length) :
    (l.drop i).take (r + 1) = l[i] :: (l.drop (i + 1)).take r := by
  rw [List.drop_eq_getElem_cons h, List.take_succ_cons]

/-- The loop of `PutMaxMin` over samples that are all in the buffer. -/
theorem scanMaxMin_eq (ImVals : List Rat) :
    ∀ (remaining i : Nat) (M m : Rat), i + remaining ≤ ImVals.length →
      scanMaxMin ImVals remaining i (M, m) =
        some (maxFrom M ((ImVals.drop i).take remaining),
              minFrom m ((ImVals.drop i).take remaining)) := by
  intro remaining
  induction remaining with
  | zero => intro i M m _; simp [scanMaxMin, maxFrom, minFrom]
  | succ remaining ih =>
    intro i M m hi
    have hlt : i < ImVals.length := by omega
    simp only [scanMaxMin, List.getElem?_eq_getElem hlt]
    rw [ih (i + 1) _ _ (by omega), drop_take_succ_rat ImVals i remaining hlt, maxFrom_cons,
      minFrom_cons]

theorem storeAt_eq (a : List (Option Int)) (i v : Int) (h0 : 0 ≤ i) (h1 : i < a.length) :
    storeAt a i v = some (a.set i.toNat (some v)) := by
  unfold storeAt
  rw [if_pos ⟨h0, h1⟩]

/-- What `PutMaxMin` does when the buffer holds at least `ImageSize` samples and
the indices it uses are in `Coord`. -/
theorem PutMaxMin_eq (D : WriteDefs) (ImInfo : ImageInfoRec) (ImVals : List Rat)
    (SliceNum FrameNum : Int) (DoFrames : Bool) (st : WriteState)
    (hsize : ImInfo.ImageSize ≤ ImVals.length)
    (hslice : 0 ≤ ImInfo.SliceDim ∧ ImInfo.SliceDim < 2)
    (hframe : DoFrames = true → 0 ≤ ImInfo.FrameDim ∧ ImInfo.FrameDim < 2) :
    PutMaxMin D ImInfo ImVals SliceNum FrameNum DoFrames st =
      some { st with calls := st.calls ++
        [WriteCall.mivarput1 ImInfo.CDF ImInfo.MaxID
           (statCoord ImInfo SliceNum FrameNum DoFrames)
           (maxFrom (-D.DBL_MAX) (ImVals.take ImInfo.ImageSize)),
         WriteCall.mivarput1 ImInfo.CDF ImInfo.MinID
           (statCoord ImInfo SliceNum FrameNum DoFrames)
           (minFrom D.DBL_MAX (ImVals.take ImInfo.ImageSize))] } := by
  unfold PutMaxMin
  rw [scanMaxMin_eq ImVals ImInfo.ImageSize 0 _ _ (by omega)]
  simp only [List.drop_zero]
  cases DoFrames with
  | true =>
    have hf := hframe rfl
    rw [if_pos rfl, storeAt_eq _ _ _ hf.1 (by simpa using hf.2)]
    simp only
    rw [storeAt_eq _ _ _ hslice.1 (by simpa using hslice.2)]
    simp [mivarput1, statCoord]
  | false =>
    simp only [Bool.false_eq_true, if_false]
    rw [storeAt_eq _ _ _ hslice.1 (by simpa using hslice.2)]
    simp [mivarput1, statCoord]

theorem statCoord_slice (ImInfo : ImageInfoRec) (SliceNum FrameNum : Int) (DoFrames : Bool)
    (hslice : 0 ≤ ImInfo.SliceDim ∧ ImInfo.SliceDim < 2) :
    (statCoord ImInfo SliceNum FrameNum DoFrames)[ImInfo.SliceDim.toNat]? =
      some (some SliceNum) := by
  unfold statCoord
  have hlt : ImInfo.SliceDim.toNat < 2 := by omega
  cases DoFrames <;> simp [List.getElem?_set, hlt]

theorem statCoord_frame (ImInfo : ImageInfoRec) (SliceNum FrameNum : Int)
    (hframe : 0 ≤ ImInfo.FrameDim ∧ ImInfo.FrameDim < 2)
    (hne : ImInfo.FrameDim ≠ ImInfo.SliceDim) (hslice : 0 ≤ ImInfo.SliceDim) :
    (statCoord ImInfo SliceNum FrameNum true)[ImInfo.FrameDim.toNat]? =
      some (some FrameNum) := by
  unfold statCoord
  have hlt : ImInfo.FrameDim.toNat < 2 := by omega
  have hne2 : ImInfo.SliceDim.toNat ≠ ImInfo.FrameDim.toNat := by omega
  rw [List.getElem?_set, if_neg hne2, if_pos rfl, List.getElem?_set]
  simp [hlt]

/-- C14: for every non-empty buffer of `ImageSize` samples, all of them within
`[-DBL_MAX, DBL_MAX]`, and every `(SliceNum, FrameNum)`, `PutMaxMin` writes to
the image-max variable a sample that no sample exceeds and to the image-min
variable a sample that no sample is below, both at the same coordinate, whose
Slice component is `SliceNum` and, when `DoFrames` is true, whose Frame
component is `FrameNum` (the indices being those of two distinct components
of `Coord`); also when `DoFrames` is false. -/
theorem PutMaxMin_statistics (D : WriteDefs) (ImInfo : ImageInfoRec) (ImVals : List Rat)
    (SliceNum FrameNum : Int) (DoFrames : Bool) (st : WriteState)
    (hsize : ImVals.length = ImInfo.ImageSize) (hne : ImVals ≠ [])
    (hfinite : ∀ v ∈ ImVals, -D.DBL_MAX ≤ v ∧ v ≤ D.DBL_MAX)
    (hslice : 0 ≤ ImInfo.SliceDim ∧ ImInfo.SliceDim < 2)
    (hframe : DoFrames = true →
      (0 ≤ ImInfo.FrameDim ∧ ImInfo.FrameDim < 2) ∧ ImInfo.FrameDim ≠ ImInfo.SliceDim) :
    ∃ Max Min Coord,
      PutMaxMin D ImInfo ImVals SliceNum FrameNum DoFrames st =
        some { st with calls := st.calls ++
          [WriteCall.mivarput1 ImInfo.CDF ImInfo.MaxID Coord Max,
           WriteCall.mivarput1 ImInfo.CDF ImInfo.MinID Coord Min] } ∧
      Max ∈ ImVals ∧ (∀ v ∈ ImVals, v ≤ Max) ∧
      Min ∈ ImVals ∧ (∀ v ∈ ImVals, Min ≤ v) ∧
      Coord[ImInfo.SliceDim.toNat]? = some (some SliceNum) ∧
      (DoFrames = true → Coord[ImInfo.FrameDim.toNat]? = some (some FrameNum)) := by
  have htake : ImVals.take ImInfo.ImageSize = ImVals := by
    rw [← hsize]
    exact List.take_length _
  have hmax := maxFrom_is_maximum D.DBL_MAX ImVals hne (fun v hv => (hfinite v hv).1)
  have hmin := minFrom_is_minimum D.DBL_MAX ImVals hne (fun v hv => (hfinite v hv).2)
  refine ⟨maxFrom (-D.DBL_MAX) ImVals, minFrom D.DBL_MAX ImVals,
    statCoord ImInfo SliceNum FrameNum DoFrames, ?_, hmax.1, hmax.2, hmin.1, hmin.2,
    statCoord_slice ImInfo SliceNum FrameNum DoFrames hslice, ?_⟩
  · have h := PutMaxMin_eq D ImInfo ImVals SliceNum FrameNum DoFrames st (by omega) hslice
      (fun hd => (hframe hd).1)
    rw [htake] at h
    exact h
  · intro hd
    subst hd
    exact statCoord_frame ImInfo SliceNum FrameNum (hframe rfl).1 (hframe rfl).2 hslice.1

/-- Witness of C14: the buffer `-5, 0, 3` written at slice 2 of frame 1. -/
theorem PutMaxMin_statistics_witness :
    ∃ Max Min Coord,
      PutMaxMin exampleDefs { exampleImage with ImageSize := 3 } [-5, 0, 3] 2 1 true
          (startState []) =
        some { startState [] with calls := (startState []).calls ++
          [WriteCall.mivarput1 exampleImage.CDF exampleImage.MaxID Coord Max,
           WriteCall.mivarput1 exampleImage.CDF exampleImage.MinID Coord Min] } ∧
      Max ∈ [-5, 0, (3 : Rat)] ∧ (∀ v ∈ [-5, 0, (3 : Rat)], v ≤ Max) ∧
      Min ∈ [-5, 0, (3 : Rat)] ∧ (∀ v ∈ [-5, 0, (3 : Rat)], Min ≤ v) ∧
      Coord[exampleImage.SliceDim.toNat]? = some (some 2) ∧
      (true = true → Coord[exampleImage.FrameDim.toNat]? = some (some 1)) :=
  PutMaxMin_statistics exampleDefs { exampleImage with ImageSize := 3 } [-5, 0, 3] 2 1
    true (startState []) (by decide) (by decide) (by decide) (by decide) (by decide)

/-- C20: when the dimensions of the file are ordered `[Frame?, Slice, Height,
Width]` (with a Frame dimension `FrameDim = 0` and `SliceDim = 1`, without one
`SliceDim = 0`) and `DoFrames` is true exactly when the file has a Frame
dimension, `PutMaxMin` on a buffer of at least `ImageSize` samples returns, so
every index it used into its two-component `Coord` was 0 or 1, and in both
statistics writes the leading components of `Coord` that the write reads (two
with a Frame dimension, one without) have been assigned. -/
theorem PutMaxMin_coord_in_bounds (D : WriteDefs) (ImInfo : ImageInfoRec)
    (ImVals : List Rat) (SliceNum FrameNum : Int) (DoFrames hasFrameDim : Bool)
    (st : WriteState)
    (hsize : ImInfo.ImageSize ≤ ImVals.length)
    (hordered : if hasFrameDim = true then ImInfo.FrameDim = 0 ∧ ImInfo.SliceDim = 1
      else ImInfo.SliceDim = 0)
    (hdo : DoFrames = hasFrameDim) :
    ((DoFrames = true → ImInfo.FrameDim = 0 ∨ ImInfo.FrameDim = 1) ∧
      (ImInfo.SliceDim = 0 ∨ ImInfo.SliceDim = 1)) ∧
    ∃ Max Min Coord,
      PutMaxMin D ImInfo ImVals SliceNum FrameNum DoFrames st =
        some { st with calls := st.calls ++
          [WriteCall.mivarput1 ImInfo.CDF ImInfo.MaxID Coord Max,
           WriteCall.mivarput1 ImInfo.CDF ImInfo.MinID Coord Min] } ∧
      Coord.length = 2 ∧
      ∀ k, k < (if hasFrameDim = true then 2 else 1) → ∃ v, Coord[k]? = some (some v) := by
  subst hdo
  cases DoFrames with
  | true =>
    simp only [if_true] at hordered
    refine ⟨⟨fun _ => Or.inl hordered.1, Or.inr hordered.2⟩, ?_⟩
    refine ⟨_, _, _, PutMaxMin_eq D ImInfo ImVals SliceNum FrameNum true st hsize
      (by omega) (fun _ => by omega), ?_, ?_⟩
    · simp [statCoord]
    · intro k hk
      simp only [if_true] at hk
      simp only [statCoord, if_true, hordered.1, hordered.2]
      have : k = 0 ∨ k = 1 := by omega
      rcases this with h | h <;> subst h
      · exact ⟨FrameNum, rfl⟩
      · exact ⟨SliceNum, rfl⟩
  | false =>
    simp only [Bool.false_eq_true, if_false] at hordered
    refine ⟨⟨(fun h => by cases h), Or.inl hordered⟩, ?_⟩
    refine ⟨_, _, _, PutMaxMin_eq D ImInfo ImVals SliceNum FrameNum false st hsize
      (by omega) (fun h => by cases h), ?_, ?_⟩
    · simp [statCoord]
    · intro k hk
      simp only [Bool.false_eq_true, if_false] at hk
      simp only [statCoord, Bool.false_eq_true, if_false, hordered]
      have : k = 0 := by omega
      subst this
      exact ⟨SliceNum, rfl⟩

/-- Witness of C20: a file without Frame dimension, `DoFrames` false. -/
theorem PutMaxMin_coord_in_bounds_witness :
    ((false = true → exampleImageNoFrames.FrameDim = 0 ∨ exampleImageNoFrames.FrameDim = 1) ∧
      (exampleImageNoFrames.SliceDim = 0 ∨ exampleImageNoFrames.SliceDim = 1)) ∧
    ∃ Max Min Coord,
      PutMaxMin exampleDefs exampleImageNoFrames [3, 4] 2 9 false (startState []) =
        some { startState [] with calls := (startState []).calls ++
          [WriteCall.mivarput1 exampleImageNoFrames.CDF exampleImageNoFrames.MaxID Coord Max,
           WriteCall.mivarput1 exampleImageNoFrames.CDF exampleImageNoFrames.MinID Coord
             Min] } ∧
      Coord.length = 2 ∧
      ∀ k, k < (if false = true then 2 else 1) → ∃ v, Coord[k]? = some (some v) :=
  PutMaxMin_coord_in_bounds exampleDefs exampleImageNoFrames [3, 4] 2 9 false false
    (startState []) (by decide) (by decide) rfl

/-! ## Properties of `WriteImages` -/

theorem setupStart_length (D : WriteDefs) (Image : ImageInfoRec) :
    (setupStart D Image).length = D.MAX_NC_DIMS := by
  simp [setupStart]

/-- The statements before the loops, when the positions are usable. -/
theorem writeSetup_eq (D : WriteDefs) (Image : ImageInfoRec) (NumFrames : Int)
    (hw : WellPlaced D Image (decide (NumFrames > 0))) :
    writeSetup D Image NumFrames =
      some (setupStart D Image, setupCount D Image (decide (NumFrames > 0)),
        decide (NumFrames > 0), framePasses NumFrames) := by
  obtain ⟨hH, hW, hS, hF⟩ := hw
  unfold writeSetup
  simp only
  rw [storeAt_eq _ _ _ hH.1 (by simpa using hH.2), storeAt_eq _ _ _ hH.1 (by simpa using hH.2)]
  simp only
  rw [storeAt_eq _ _ _ hW.1 (by simpa using hW.2), storeAt_eq _ _ _ hW.1 (by simpa using hW.2)]
  simp only
  rw [storeAt_eq _ _ _ hS.1 (by simpa using hS.2.2)]
  simp only
  by_cases hn : NumFrames > 0
  · have hf := hF (by simpa using hn)
    rw [if_pos hn, storeAt_eq _ _ _ hf.1 (by simpa using hf.2.2.1)]
    simp [setupStart, setupCount, hn, framePasses]
  · rw [if_neg hn]
    simp [setupStart, setupCount, hn, framePasses]

theorem planeStart_length (D : WriteDefs) (Image : ImageInfoRec) (DoFrames : Bool)
    (s f : Int) : (planeStart D Image DoFrames s f).length = D.MAX_NC_DIMS := by
  unfold planeStart frameStart
  split <;> simp [setupStart]

/-- The array of the setup can be resumed from. -/
theorem setupStart_resumable (D : WriteDefs) (Image : ImageInfoRec) (DoFrames : Bool) :
    Resumable D Image DoFrames (setupStart D Image) := by
  refine ⟨setupStart_length D Image, fun s => ⟨by simp [setupStart], fun f => rfl⟩⟩

/-- After the frame of an image is stored, the array is still ready for the
slice. -/
theorem readyFor_frameStart (D : WriteDefs) (Image : ImageInfoRec) (DoFrames : Bool)
    (Start : List (Option Int)) (s f : Int) (h : ReadyFor D Image DoFrames Start s) :
    ReadyFor D Image DoFrames (frameStart Image DoFrames Start f) s := by
  obtain ⟨hlen, hall⟩ := h
  refine ⟨?_, ?_⟩
  · unfold frameStart
    split <;> simp [hlen]
  · intro f1
    rw [← hall f1]
    unfold frameStart
    split
    · rw [List.set_set]
    · rfl

/-- After the images of a slice, the array can be resumed from, provided the
slice and the frame are stored at different positions. -/
theorem readyFor_resumable (D : WriteDefs) (Image : ImageInfoRec) (DoFrames : Bool)
    (Start : List (Option Int)) (s : Int)
    (hne : DoFrames = true → Image.FrameDim.toNat ≠ Image.SliceDim.toNat)
    (h : ReadyFor D Image DoFrames Start s) :
    Resumable D Image DoFrames Start := by
  obtain ⟨hlen, hall⟩ := h
  refine ⟨hlen, fun s1 => ⟨by simp [hlen], fun f => ?_⟩⟩
  have h1 := hall f
  unfold planeStart frameStart at h1 ⊢
  cases DoFrames with
  | true =>
    simp only [if_true] at h1 ⊢
    have hne1 := hne rfl
    rw [List.set_comm _ _ _ (Ne.symm hne1), h1, List.set_comm _ _ _ hne1, List.set_set,
      List.set_comm _ _ _ (Ne.symm hne1)]
  | false =>
    simp only [Bool.false_eq_true, if_false] at h1 ⊢
    rw [h1, List.set_set]

theorem ReadNextImage_full (Buffer : List Rat) (n : Nat) (st : WriteState)
    (hB : Buffer.length = n) (hfull : n ≤ st.TempFile.length) :
    ReadNextImage Buffer n st =
      (true, st.TempFile.take n,
        { st with TempFile := st.TempFile.drop n,
                  calls := st.calls ++ [WriteCall.fread n (st.TempFile.take n)] }) := by
  unfold ReadNextImage
  have hlen : (st.TempFile.take n).length = n := by
    rw [List.length_take]; omega
  simp only [hlen, ne_eq, not_true_eq_false, if_false]
  rw [List.drop_of_length_le (by omega), List.append_nil]

theorem ReadNextImage_short (Buffer : List Rat) (n : Nat) (st : WriteState)
    (hshort : st.TempFile.length < n) :
    (ReadNextImage Buffer n st).1 = false ∧
    (ReadNextImage Buffer n st).2.2 =
      { st with TempFile := st.TempFile.drop n,
                calls := st.calls ++ [WriteCall.fread n (st.TempFile.take n)] } := by
  unfold ReadNextImage
  have hlen : (st.TempFile.take n).length ≠ n := by
    rw [List.length_take]; omega
  simp only [ne_eq, hlen, not_false_eq_true, if_true, and_self]

/-- One pass of the frame loop on a short read. -/
theorem writePlane_short (D : WriteDefs) (putOk : Nat → Bool) (Image : ImageInfoRec)
    (Slices Frames : List Int) (Count : List (Option Int)) (DoFrames : Bool)
    (slice frame : Nat) (Start : List (Option Int)) (Buffer : List Rat) (st : WriteState)
    (hshort : st.TempFile.length < Image.ImageSize) :
    writePlane D putOk Image Slices Frames Count DoFrames slice frame Start Buffer st =
      some (Flow.ret ErrCode.ERR_IN_TEMP
        { st with TempFile := st.TempFile.drop Image.ImageSize,
                  calls := st.calls ++
                    [WriteCall.fread Image.ImageSize (st.TempFile.take Image.ImageSize)],
                  ErrMsg := some (Message.tempReadError slice frame) }) := by
  obtain ⟨h1, h2⟩ := ReadNextImage_short Buffer Image.ImageSize st hshort
  unfold writePlane
  generalize ReadNextImage Buffer Image.ImageSize st = r at h1 h2
  obtain ⟨b, buf, st1⟩ := r
  simp only at h1 h2
  subst h1
  subst h2
  simp

/-- One pass of the frame loop when the image is read in full: the four calls
of the image are issued, and the outcome of `miicv_put` decides how it ends. -/
theorem writePlane_full (D : WriteDefs) (putOk : Nat → Bool) (Image : ImageInfoRec)
    (Slices Frames : List Int) (DoFrames : Bool)
    (slice frame : Nat) (Start : List (Option Int)) (Buffer : List Rat) (st : WriteState)
    (s f : Int) (hw : WellPlaced D Image DoFrames)
    (hs : Slices[slice]? = some s) (hf : Frames[frame]? = some f)
    (hB : Buffer.length = Image.ImageSize) (hready : ReadyFor D Image DoFrames Start s)
    (hfull : Image.ImageSize ≤ st.TempFile.length) :
    writePlane D putOk Image Slices Frames (setupCount D Image DoFrames) DoFrames slice frame
        Start Buffer st =
      some (if putOk st.nPut = false then
          Flow.ret ErrCode.ERR_OUT_MINC
            { afterPlanes Image.ImageSize st 1
                (planeCalls D Image DoFrames s f (st.TempFile.take Image.ImageSize)) with
              ErrMsg := some Message.icvPutBug }
        else
          Flow.next (frameStart Image DoFrames Start f) (st.TempFile.take Image.ImageSize)
            (afterPlanes Image.ImageSize st 1
              (planeCalls D Image DoFrames s f (st.TempFile.take Image.ImageSize)))) := by
  obtain ⟨_, _, hS, hF⟩ := hw
  obtain ⟨hlen, hall⟩ := hready
  have htl : (st.TempFile.take Image.ImageSize).length = Image.ImageSize := by
    rw [List.length_take]; omega
  unfold writePlane
  rw [ReadNextImage_full Buffer Image.ImageSize st hB hfull]
  simp only [Bool.true_eq_false, if_false, hs, hf]
  rw [PutMaxMin_eq D Image _ s f DoFrames _ (by omega) ⟨hS.1, hS.2.1⟩
    (fun hd => ⟨(hF hd).1, (hF hd).2.1⟩)]
  simp only
  have hstore : (if DoFrames = true then storeAt Start Image.FrameDim f else some Start) =
      some (frameStart Image DoFrames Start f) := by
    unfold frameStart
    cases DoFrames with
    | true =>
      have hf1 := hF rfl
      rw [if_pos rfl, if_pos rfl, storeAt_eq _ _ _ hf1.1 (by rw [hlen]; exact hf1.2.2.1)]
    | false => simp
  rw [hstore]
  simp only
  have htake : List.take Image.ImageSize (List.take Image.ImageSize st.TempFile) =
      List.take Image.ImageSize st.TempFile := by
    rw [List.take_take, Nat.min_self]
  by_cases hp : putOk st.nPut = false
  · simp [hp, afterPlanes, planeCalls, hall f, htake]
  · simp [hp, afterPlanes, planeCalls, hall f, htake]

theorem flatMap_range_succ_left {β : Type} (G : Nat → List β) (r : Nat) :
    (List.range (r + 1)).flatMap G = G 0 ++ (List.range r).flatMap (fun t => G (t + 1)) := by
  rw [List.range_succ_eq_map, List.flatMap_cons, List.flatMap_map]

theorem flatMap_range_add {β : Type} (G : Nat → List β) (a b : Nat) :
    (List.range (a + b)).flatMap G =
      (List.range a).flatMap G ++ (List.range b).flatMap (fun t => G (a + t)) := by
  rw [List.range_add, List.flatMap_append, List.flatMap_map]

theorem flatMap_range_congr {β : Type} (G H : Nat → List β) (b : Nat)
    (h : ∀ t, t < b → G t = H t) :
    (List.range b).flatMap G = (List.range b).flatMap H := by
  induction b with
  | zero => rfl
  | succ b ih =>
    rw [List.range_succ, List.flatMap_append, List.flatMap_append,
      ih (fun t ht => h t (by omega)), List.flatMap_singleton, List.flatMap_singleton,
      h b (by omega)]

theorem segment_zero (n : Nat) (samples : List Rat) :
    segment n samples 0 = samples.take n := by
  simp [segment]

theorem segment_drop (n : Nat) (samples : List Rat) (a t : Nat) :
    segment n (samples.drop (n * a)) t = segment n samples (a + t) := by
  unfold segment
  rw [List.drop_drop, Nat.mul_add]

theorem segment_length (n : Nat) (samples : List Rat) (k : Nat)
    (h : n * (k + 1) ≤ samples.length) : (segment n samples k).length = n := by
  unfold segment
  rw [List.length_take, List.length_drop]
  rw [Nat.mul_succ] at h
  omega

theorem afterPlanes_zero (n : Nat) (st : WriteState) : afterPlanes n st 0 [] = st := by
  cases st
  simp [afterPlanes]

theorem afterPlanes_afterPlanes (n : Nat) (st : WriteState) (a b : Nat)
    (c1 c2 : List WriteCall) :
    afterPlanes n (afterPlanes n st a c1) b c2 = afterPlanes n st (a + b) (c1 ++ c2) := by
  simp [afterPlanes, List.drop_drop, Nat.mul_add, List.append_assoc, Nat.add_assoc]

theorem getD_of_getElem? (l : List Int) (i : Nat) (v : Int) (h : l[i]? = some v) :
    l.getD i 0 = v := by
  rw [List.getD_eq_getElem?_getD, h]
  rfl

/-- The frame loop when every image it handles is read in full and written:
the calls of these images are issued in order. -/
theorem frameLoop_ok (D : WriteDefs) (putOk : Nat → Bool) (Image : ImageInfoRec)
    (Slices Frames : List Int) (DoFrames : Bool) (slice : Nat) (s : Int)
    (hw : WellPlaced D Image DoFrames) (hs : Slices[slice]? = some s) :
    ∀ (r j : Nat) (Start : List (Option Int)) (Buffer : List Rat) (st : WriteState),
      Buffer.length = Image.ImageSize → ReadyFor D Image DoFrames Start s →
      j + r ≤ Frames.length → Image.ImageSize * r ≤ st.TempFile.length →
      (∀ t, t < r → putOk (st.nPut + t) = true) →
      ∃ Start1 Buffer1,
        frameLoop D putOk Image Slices Frames (setupCount D Image DoFrames) DoFrames slice
            r j Start Buffer st =
          some (Flow.next Start1 Buffer1
            (afterPlanes Image.ImageSize st r
              ((List.range r).flatMap (fun t =>
                planeCalls D Image DoFrames s (Frames.getD (j + t) 0)
                  (segment Image.ImageSize st.TempFile t))))) ∧
        ReadyFor D Image DoFrames Start1 s ∧ Buffer1.length = Image.ImageSize := by
  intro r
  induction r with
  | zero =>
    intro j Start Buffer st hB hready _ _ _
    refine ⟨Start, Buffer, ?_, hready, hB⟩
    simp [frameLoop, afterPlanes_zero]
  | succ r ih =>
    intro j Start Buffer st hB hready hfr hfull hput
    have hjlt : j < Frames.length := by omega
    have hf : Frames[j]? = some Frames[j] := List.getElem?_eq_getElem hjlt
    have hn1 : Image.ImageSize ≤ st.TempFile.length := by
      rw [Nat.mul_succ] at hfull; omega
    have hp0 : putOk st.nPut = true := by simpa using hput 0 (by omega)
    simp only [frameLoop]
    rw [writePlane_full D putOk Image Slices Frames DoFrames slice j Start Buffer st s
      Frames[j] hw hs hf hB hready hn1]
    simp only [hp0, Bool.true_eq_false, if_false]
    obtain ⟨Start1, Buffer1, hloop, hready1, hB1⟩ := ih (j + 1)
      (frameStart Image DoFrames Start Frames[j]) (st.TempFile.take Image.ImageSize)
      (afterPlanes Image.ImageSize st 1
        (planeCalls D Image DoFrames s Frames[j] (st.TempFile.take Image.ImageSize)))
      (by rw [List.length_take]; omega)
      (readyFor_frameStart D Image DoFrames Start s Frames[j] hready)
      (by omega)
      (by
        simp only [afterPlanes, List.length_drop, Nat.mul_one]
        rw [Nat.mul_succ] at hfull
        omega)
      (by
        intro t ht
        have := hput (t + 1) (by omega)
        simpa [afterPlanes, Nat.add_assoc, Nat.add_comm 1 t] using this)
    refine ⟨Start1, Buffer1, ?_, hready1, hB1⟩
    have hA : planeCalls D Image DoFrames s Frames[j] (st.TempFile.take Image.ImageSize) =
        planeCalls D Image DoFrames s (Frames.getD (j + 0) 0)
          (segment Image.ImageSize st.TempFile 0) := by
      rw [Nat.add_zero, getD_of_getElem? Frames j _ hf, segment_zero]
    have hR : ((List.range r).flatMap fun t =>
        planeCalls D Image DoFrames s (Frames.getD (j + 1 + t) 0)
          (segment Image.ImageSize
            (afterPlanes Image.ImageSize st 1
              (planeCalls D Image DoFrames s Frames[j]
                (st.TempFile.take Image.ImageSize))).TempFile t)) =
        ((List.range r).flatMap fun t =>
          planeCalls D Image DoFrames s (Frames.getD (j + (t + 1)) 0)
            (segment Image.ImageSize st.TempFile (t + 1))) := by
      apply flatMap_range_congr
      intro t _
      have hseg : segment Image.ImageSize
          (afterPlanes Image.ImageSize st 1
            (planeCalls D Image DoFrames s Frames[j]
              (st.TempFile.take Image.ImageSize))).TempFile t =
          segment Image.ImageSize st.TempFile (t + 1) := by
        simp only [afterPlanes]
        rw [segment_drop, Nat.add_comm 1 t]
      rw [hseg, Nat.add_assoc, Nat.add_comm 1 t]
    rw [hloop, afterPlanes_afterPlanes, flatMap_range_succ_left, Nat.add_comm 1 r, hR, hA]

/-- A frame loop whose first `a` passes go on runs its remaining passes from
the state they reach. -/
theorem frameLoop_prefix (D : WriteDefs) (putOk : Nat → Bool) (Image : ImageInfoRec)
    (Slices Frames : List Int) (Count : List (Option Int)) (DoFrames : Bool) (slice : Nat)
    (b : Nat) :
    ∀ (a j : Nat) (Start : List (Option Int)) (Buffer : List Rat) (st : WriteState)
      (Start1 : List (Option Int)) (Buffer1 : List Rat) (st1 : WriteState),
      frameLoop D putOk Image Slices Frames Count DoFrames slice a j Start Buffer st =
        some (Flow.next Start1 Buffer1 st1) →
      frameLoop D putOk Image Slices Frames Count DoFrames slice (a + b) j Start Buffer st =
        frameLoop D putOk Image Slices Frames Count DoFrames slice b (j + a) Start1 Buffer1
          st1 := by
  intro a
  induction a with
  | zero =>
    intro j Start Buffer st Start1 Buffer1 st1 h
    simp only [frameLoop, Option.some.injEq, Flow.next.injEq] at h
    obtain ⟨h1, h2, h3⟩ := h
    subst h1 h2 h3
    rw [Nat.zero_add, Nat.add_zero]
  | succ a ih =>
    intro j Start Buffer st Start1 Buffer1 st1 h
    rw [Nat.add_right_comm]
    simp only [frameLoop] at h ⊢
    cases hp : writePlane D putOk Image Slices Frames Count DoFrames slice j Start Buffer st with
    | none => rw [hp] at h; cases h
    | some flow =>
      cases flow with
      | ret code stx => rw [hp] at h; simp at h
      | next S2 B2 st2 =>
        rw [hp] at h
        simp only at h ⊢
        rw [ih (j + 1) S2 B2 st2 Start1 Buffer1 st1 h, Nat.add_assoc, Nat.add_comm 1 a]

/-- A frame loop whose current pass returns a code returns that code. -/
theorem frameLoop_ret (D : WriteDefs) (putOk : Nat → Bool) (Image : ImageInfoRec)
    (Slices Frames : List Int) (Count : List (Option Int)) (DoFrames : Bool) (slice : Nat)
    (b j : Nat) (Start : List (Option Int)) (Buffer : List Rat) (st stx : WriteState)
    (code : ErrCode)
    (h : writePlane D putOk Image Slices Frames Count DoFrames slice j Start Buffer st =
      some (Flow.ret code stx)) :
    frameLoop D putOk Image Slices Frames Count DoFrames slice (b + 1) j Start Buffer st =
      some (Flow.ret code stx) := by
  simp only [frameLoop, h]

theorem wellPlaced_ne (D : WriteDefs) (Image : ImageInfoRec) (DoFrames : Bool)
    (hw : WellPlaced D Image DoFrames) :
    DoFrames = true → Image.FrameDim.toNat ≠ Image.SliceDim.toNat := by
  intro hd
  obtain ⟨_, _, hS, hF⟩ := hw
  have := hF hd
  omega

theorem storeAt_slice (D : WriteDefs) (Image : ImageInfoRec) (DoFrames : Bool)
    (hw : WellPlaced D Image DoFrames) (Start : List (Option Int)) (s : Int)
    (hlen : Start.length = D.MAX_NC_DIMS) :
    storeAt Start Image.SliceDim s = some (Start.set Image.SliceDim.toNat (some s)) := by
  obtain ⟨_, _, hS, _⟩ := hw
  exact storeAt_eq _ _ _ hS.1 (by rw [hlen]; exact hS.2.2)

/-- The slice loop when every image it handles is read in full and written: the
calls of these images are issued in slice-major order. -/
theorem sliceLoop_ok (D : WriteDefs) (putOk : Nat → Bool) (Image : ImageInfoRec)
    (Slices Frames : List Int) (DoFrames : Bool) (NF : Nat)
    (hw : WellPlaced D Image DoFrames) (hNF : 0 < NF) (hfr : NF ≤ Frames.length) :
    ∀ (r i : Nat) (Start : List (Option Int)) (Buffer : List Rat) (st : WriteState),
      Buffer.length = Image.ImageSize → Resumable D Image DoFrames Start →
      i + r ≤ Slices.length → Image.ImageSize * (r * NF) ≤ st.TempFile.length →
      (∀ k, k < r * NF → putOk (st.nPut + k) = true) →
      ∃ Start1 Buffer1,
        sliceLoop D putOk Image Slices Frames (setupCount D Image DoFrames) DoFrames NF
            r i Start Buffer st =
          some (Flow.next Start1 Buffer1
            (afterPlanes Image.ImageSize st (r * NF)
              ((List.range (r * NF)).flatMap (fun k =>
                planeCalls D Image DoFrames (Slices.getD (i + k / NF) 0)
                  (Frames.getD (k % NF) 0) (segment Image.ImageSize st.TempFile k))))) ∧
        Resumable D Image DoFrames Start1 ∧ Buffer1.length = Image.ImageSize := by
  intro r
  induction r with
  | zero =>
    intro i Start Buffer st hB hres _ _ _
    refine ⟨Start, Buffer, ?_, hres, hB⟩
    simp [sliceLoop, afterPlanes_zero]
  | succ r ih =>
    intro i Start Buffer st hB hres hsl hfull hput
    have hilt : i < Slices.length := by omega
    have hs : Slices[i]? = some Slices[i] := List.getElem?_eq_getElem hilt
    have hmul : (r + 1) * NF = NF + r * NF := by rw [Nat.succ_mul, Nat.add_comm]
    rw [hmul] at hfull hput
    rw [Nat.mul_add] at hfull
    simp only [sliceLoop, hs]
    rw [storeAt_slice D Image DoFrames hw Start Slices[i] hres.1]
    simp only
    obtain ⟨Start1, Buffer1, hloop, hready1, hB1⟩ :=
      frameLoop_ok D putOk Image Slices Frames DoFrames i Slices[i] hw hs NF 0
        (Start.set Image.SliceDim.toNat (some Slices[i])) Buffer st hB (hres.2 Slices[i])
        (by omega) (by omega) (fun t ht => hput t (by omega))
    rw [hloop]
    simp only
    obtain ⟨Start2, Buffer2, hloop2, hres2, hB2⟩ := ih (i + 1) Start1 Buffer1
      (afterPlanes Image.ImageSize st NF
        ((List.range NF).flatMap fun t =>
          planeCalls D Image DoFrames Slices[i] (Frames.getD (0 + t) 0)
            (segment Image.ImageSize st.TempFile t))) hB1
      (readyFor_resumable D Image DoFrames Start1 Slices[i] (wellPlaced_ne D Image DoFrames hw)
        hready1)
      (by omega)
      (by
        simp only [afterPlanes, List.length_drop]
        omega)
      (by
        intro k hk
        have := hput (NF + k) (by omega)
        simpa [afterPlanes, Nat.add_assoc] using this)
    refine ⟨Start2, Buffer2, ?_, hres2, hB2⟩
    have hA : ((List.range NF).flatMap fun t =>
        planeCalls D Image DoFrames Slices[i] (Frames.getD (0 + t) 0)
          (segment Image.ImageSize st.TempFile t)) =
        ((List.range NF).flatMap fun k =>
          planeCalls D Image DoFrames (Slices.getD (i + k / NF) 0) (Frames.getD (k % NF) 0)
            (segment Image.ImageSize st.TempFile k)) := by
      apply flatMap_range_congr
      intro t ht
      rw [Nat.div_eq_of_lt ht, Nat.mod_eq_of_lt ht, Nat.add_zero, Nat.zero_add,
        getD_of_getElem? Slices i _ hs]
    have hR : ((List.range (r * NF)).flatMap fun k =>
        planeCalls D Image DoFrames (Slices.getD (i + 1 + k / NF) 0) (Frames.getD (k % NF) 0)
          (segment Image.ImageSize
            (afterPlanes Image.ImageSize st NF
              ((List.range NF).flatMap fun t =>
                planeCalls D Image DoFrames Slices[i] (Frames.getD (0 + t) 0)
                  (segment Image.ImageSize st.TempFile t))).TempFile k)) =
        ((List.range (r * NF)).flatMap fun t =>
          planeCalls D Image DoFrames (Slices.getD (i + (NF + t) / NF) 0)
            (Frames.getD ((NF + t) % NF) 0)
            (segment Image.ImageSize st.TempFile (NF + t))) := by
      apply flatMap_range_congr
      intro t _
      have hseg : segment Image.ImageSize
          (afterPlanes Image.ImageSize st NF
            ((List.range NF).flatMap fun t =>
              planeCalls D Image DoFrames Slices[i] (Frames.getD (0 + t) 0)
                (segment Image.ImageSize st.TempFile t))).TempFile t =
          segment Image.ImageSize st.TempFile (NF + t) := by
        simp only [afterPlanes]
        rw [segment_drop]
      rw [hseg, Nat.add_div_left t hNF, Nat.add_mod_left, Nat.add_assoc, Nat.add_comm 1]
    rw [hloop2, afterPlanes_afterPlanes, hmul, flatMap_range_add, hR, hA]

/-- A slice loop whose first `a` passes go on runs its remaining passes from
the state they reach. -/
theorem sliceLoop_prefix (D : WriteDefs) (putOk : Nat → Bool) (Image : ImageInfoRec)
    (Slices Frames : List Int) (Count : List (Option Int)) (DoFrames : Bool) (NF : Nat)
    (b : Nat) :
    ∀ (a i : Nat) (Start : List (Option Int)) (Buffer : List Rat) (st : WriteState)
      (Start1 : List (Option Int)) (Buffer1 : List Rat) (st1 : WriteState),
      sliceLoop D putOk Image Slices Frames Count DoFrames NF a i Start Buffer st =
        some (Flow.next Start1 Buffer1 st1) →
      sliceLoop D putOk Image Slices Frames Count DoFrames NF (a + b) i Start Buffer st =
        sliceLoop D putOk Image Slices Frames Count DoFrames NF b (i + a) Start1 Buffer1
          st1 := by
  intro a
  induction a with
  | zero =>
    intro i Start Buffer st Start1 Buffer1 st1 h
    simp only [sliceLoop, Option.some.injEq, Flow.next.injEq] at h
    obtain ⟨h1, h2, h3⟩ := h
    subst h1 h2 h3
    rw [Nat.zero_add, Nat.add_zero]
  | succ a ih =>
    intro i Start Buffer st Start1 Buffer1 st1 h
    rw [Nat.add_right_comm]
    simp only [sliceLoop] at h ⊢
    cases hsl : Slices[i]? with
    | none => rw [hsl] at h; cases h
    | some s =>
      rw [hsl] at h
      simp only at h ⊢
      cases hst : storeAt Start Image.SliceDim s with
      | none => rw [hst] at h; cases h
      | some Start0 =>
        rw [hst] at h
        simp only at h ⊢
        cases hp : frameLoop D putOk Image Slices Frames Count DoFrames i NF 0 Start0 Buffer
            st with
        | none => rw [hp] at h; cases h
        | some flow =>
          cases flow with
          | ret code stx => rw [hp] at h; simp at h
          | next S2 B2 st2 =>
            rw [hp] at h
            simp only at h ⊢
            rw [ih (i + 1) S2 B2 st2 Start1 Buffer1 st1 h, Nat.add_assoc, Nat.add_comm 1 a]

/-- The slice loop when the images before image number `q * NF + t` are read in
full and written and the pass for that image returns a code: the loop returns
that code, in the state that pass leaves. -/
theorem sliceLoop_stops (D : WriteDefs) (putOk : Nat → Bool) (Image : ImageInfoRec)
    (Slices Frames : List Int) (DoFrames : Bool) (NF : Nat)
    (hw : WellPlaced D Image DoFrames) (hNF : 0 < NF) (hfr : NF ≤ Frames.length)
    (q t b : Nat) (ht : t < NF)
    (Start : List (Option Int)) (Buffer : List Rat) (st : WriteState)
    (hB : Buffer.length = Image.ImageSize) (hres : Resumable D Image DoFrames Start)
    (hsl : q + (b + 1) ≤ Slices.length)
    (hfull : Image.ImageSize * (q * NF + t) ≤ st.TempFile.length)
    (hput : ∀ k, k < q * NF + t → putOk (st.nPut + k) = true)
    (code : ErrCode) (stx : WriteState)
    (hstop : ∀ (Start1 : List (Option Int)) (Buffer1 : List Rat),
      ReadyFor D Image DoFrames Start1 (Slices.getD q 0) →
      Buffer1.length = Image.ImageSize →
      writePlane D putOk Image Slices Frames (setupCount D Image DoFrames) DoFrames q t
          Start1 Buffer1
          (afterPlanes Image.ImageSize st (q * NF + t)
            ((List.range (q * NF + t)).flatMap (fun k =>
              planeOf D Image DoFrames Slices Frames NF st.TempFile k))) =
        some (Flow.ret code stx)) :
    sliceLoop D putOk Image Slices Frames (setupCount D Image DoFrames) DoFrames NF
        (q + (b + 1)) 0 Start Buffer st = some (Flow.ret code stx) := by
  have hqlt : q < Slices.length := by omega
  have hsq : Slices[q]? = some Slices[q] := List.getElem?_eq_getElem hqlt
  have hfull1 : Image.ImageSize * (q * NF) ≤ st.TempFile.length := by
    rw [Nat.mul_add] at hfull; omega
  obtain ⟨S1, B1, h1, hres1, hB1⟩ :=
    sliceLoop_ok D putOk Image Slices Frames DoFrames NF hw hNF hfr q 0 Start Buffer st hB
      hres (by omega) hfull1 (fun k hk => hput k (by omega))
  have h1p := sliceLoop_prefix D putOk Image Slices Frames _ DoFrames NF (b + 1) q 0 Start
    Buffer st S1 B1 _ h1
  obtain ⟨S2, B2, h2, hready2, hB2⟩ :=
    frameLoop_ok D putOk Image Slices Frames DoFrames q Slices[q] hw hsq t 0
      (S1.set Image.SliceDim.toNat (some Slices[q])) B1
      (afterPlanes Image.ImageSize st (q * NF)
        ((List.range (q * NF)).flatMap (fun k =>
          planeCalls D Image DoFrames (Slices.getD (0 + k / NF) 0) (Frames.getD (k % NF) 0)
            (segment Image.ImageSize st.TempFile k))))
      hB1 (hres1.2 Slices[q]) (by omega)
      (by
        simp only [afterPlanes, List.length_drop]
        rw [Nat.mul_add] at hfull
        omega)
      (by
        intro u hu
        have := hput (q * NF + u) (by omega)
        simpa [afterPlanes, Nat.add_assoc] using this)
  have hsplit := frameLoop_prefix D putOk Image Slices Frames (setupCount D Image DoFrames)
    DoFrames q (NF - t - 1 + 1) t 0 _ _ _ S2 B2 _ h2
  have hNFe : t + (NF - t - 1 + 1) = NF := by omega
  rw [hNFe, afterPlanes_afterPlanes] at hsplit
  have hcalls : ((List.range (q * NF)).flatMap (fun k =>
        planeCalls D Image DoFrames (Slices.getD (0 + k / NF) 0) (Frames.getD (k % NF) 0)
          (segment Image.ImageSize st.TempFile k))) ++
      ((List.range t).flatMap fun u =>
        planeCalls D Image DoFrames Slices[q] (Frames.getD (0 + u) 0)
          (segment Image.ImageSize
            (afterPlanes Image.ImageSize st (q * NF)
              ((List.range (q * NF)).flatMap (fun k =>
                planeCalls D Image DoFrames (Slices.getD (0 + k / NF) 0)
                  (Frames.getD (k % NF) 0)
                  (segment Image.ImageSize st.TempFile k)))).TempFile u)) =
      (List.range (q * NF + t)).flatMap (fun k =>
        planeOf D Image DoFrames Slices Frames NF st.TempFile k) := by
    rw [flatMap_range_add]
    congr 1
    · apply flatMap_range_congr
      intro k _
      rw [Nat.zero_add]
      rfl
    · apply flatMap_range_congr
      intro u hu
      have hult : u < NF := by omega
      have hdiv : (q * NF + u) / NF = q := by
        rw [Nat.mul_comm, Nat.mul_add_div hNF, Nat.div_eq_of_lt hult, Nat.add_zero]
      have hmod : (q * NF + u) % NF = u := by
        rw [Nat.mul_comm, Nat.mul_add_mod, Nat.mod_eq_of_lt hult]
      unfold planeOf
      rw [hdiv, hmod, Nat.zero_add, getD_of_getElem? Slices q _ hsq]
      simp only [afterPlanes]
      rw [segment_drop]
  rw [hcalls] at hsplit
  have hq : Slices.getD q 0 = Slices[q] := getD_of_getElem? Slices q _ hsq
  have hret := frameLoop_ret D putOk Image Slices Frames (setupCount D Image DoFrames) DoFrames
    q (NF - t - 1) (0 + t) S2 B2 _ stx code
    (by rw [Nat.zero_add]; exact hstop S2 B2 (by rw [hq]; exact hready2) hB2)
  rw [hret] at hsplit
  rw [h1p]
  have hsq0 : Slices[0 + q]? = some Slices[q] := by rw [Nat.zero_add]; exact hsq
  simp only [sliceLoop, hsq0]
  rw [storeAt_slice D Image DoFrames hw S1 Slices[q] hres1.1]
  simp only
  have hsplit0 : frameLoop D putOk Image Slices Frames (setupCount D Image DoFrames) DoFrames
      (0 + q) NF 0 (S1.set Image.SliceDim.toNat (some Slices[q])) B1
      (afterPlanes Image.ImageSize st (q * NF)
        ((List.range (q * NF)).flatMap (fun k =>
          planeCalls D Image DoFrames (Slices.getD (0 + k / NF) 0) (Frames.getD (k % NF) 0)
            (segment Image.ImageSize st.TempFile k)))) = some (Flow.ret code stx) := by
    rw [Nat.zero_add]
    exact hsplit
  rw [hsplit0]

theorem setupBuffer_length (n : Nat) : (List.replicate n (0 : Rat)).length = n := by
  simp

/-- The run of `WriteImages` when all the images are read in full and written:
it returns `ERR_NONE`, has issued the calls of the images in slice-major order
and then stored `MI_TRUE` in the attribute `MIcomplete` of the image variable. -/
theorem WriteImages_success (A : MincAtts) (D : WriteDefs) (putOk : Nat → Bool)
    (Image : ImageInfoRec) (Slices Frames : List Int) (NumSlices NumFrames : Int)
    (st : WriteState)
    (hw : WellPlaced D Image (decide (NumFrames > 0)))
    (hsl : NumSlices.toNat ≤ Slices.length) (hfr : framePasses NumFrames ≤ Frames.length)
    (hfull : Image.ImageSize * (NumSlices.toNat * framePasses NumFrames) ≤ st.TempFile.length)
    (hput : ∀ k, k < NumSlices.toNat * framePasses NumFrames → putOk (st.nPut + k) = true) :
    WriteImages A D putOk Image Slices Frames NumSlices NumFrames st =
      some (ErrCode.ERR_NONE,
        { afterPlanes Image.ImageSize st (NumSlices.toNat * framePasses NumFrames)
            ((List.range (NumSlices.toNat * framePasses NumFrames)).flatMap (fun k =>
              planeOf D Image (decide (NumFrames > 0)) Slices Frames (framePasses NumFrames)
                st.TempFile k)) with
          file := miattputstr Image.CDF Image.ID A.MIcomplete D.MI_TRUE st.file }) := by
  have hNF : 0 < framePasses NumFrames := by
    unfold framePasses
    split <;> omega
  obtain ⟨S1, B1, h1, _, _⟩ :=
    sliceLoop_ok D putOk Image Slices Frames (decide (NumFrames > 0)) (framePasses NumFrames)
      hw hNF hfr NumSlices.toNat 0 (setupStart D Image)
      (List.replicate Image.ImageSize 0) st (setupBuffer_length _)
      (setupStart_resumable D Image _) (by omega) hfull hput
  unfold WriteImages
  simp only
  rw [writeSetup_eq D Image NumFrames hw]
  simp only
  rw [h1]
  simp only [Nat.zero_add]
  rfl

/-- The run of `WriteImages` when the images before image number `K` are read
in full and written and the pass for image `K` returns a code: `WriteImages`
returns that code, in the state that pass leaves. -/
theorem WriteImages_stops (A : MincAtts) (D : WriteDefs) (putOk : Nat → Bool)
    (Image : ImageInfoRec) (Slices Frames : List Int) (NumSlices NumFrames : Int)
    (st : WriteState) (K : Nat)
    (hw : WellPlaced D Image (decide (NumFrames > 0)))
    (hsl : NumSlices.toNat ≤ Slices.length) (hfr : framePasses NumFrames ≤ Frames.length)
    (hK : K < NumSlices.toNat * framePasses NumFrames)
    (hfull : Image.ImageSize * K ≤ st.TempFile.length)
    (hput : ∀ k, k < K → putOk (st.nPut + k) = true)
    (code : ErrCode) (stx : WriteState)
    (hstop : ∀ (Start1 : List (Option Int)) (Buffer1 : List Rat),
      ReadyFor D Image (decide (NumFrames > 0)) Start1
        (Slices.getD (K / framePasses NumFrames) 0) →
      Buffer1.length = Image.ImageSize →
      writePlane D putOk Image Slices Frames (setupCount D Image (decide (NumFrames > 0)))
          (decide (NumFrames > 0)) (K / framePasses NumFrames) (K % framePasses NumFrames)
          Start1 Buffer1
          (afterPlanes Image.ImageSize st K
            ((List.range K).flatMap (fun k =>
              planeOf D Image (decide (NumFrames > 0)) Slices Frames (framePasses NumFrames)
                st.TempFile k))) =
        some (Flow.ret code stx)) :
    WriteImages A D putOk Image Slices Frames NumSlices NumFrames st = some (code, stx) := by
  have hNF : 0 < framePasses NumFrames := by
    unfold framePasses
    split <;> omega
  have hq : K / framePasses NumFrames < NumSlices.toNat :=
    Nat.div_lt_of_lt_mul (by rw [Nat.mul_comm]; exact hK)
  have ht : K % framePasses NumFrames < framePasses NumFrames := Nat.mod_lt _ hNF
  have hKe : K / framePasses NumFrames * framePasses NumFrames + K % framePasses NumFrames = K := by
    rw [Nat.mul_comm]
    exact Nat.div_add_mod K (framePasses NumFrames)
  have hNS : K / framePasses NumFrames + (NumSlices.toNat - K / framePasses NumFrames - 1 + 1) =
      NumSlices.toNat := by omega
  have hloop := sliceLoop_stops D putOk Image Slices Frames (decide (NumFrames > 0))
    (framePasses NumFrames) hw hNF hfr (K / framePasses NumFrames) (K % framePasses NumFrames)
    (NumSlices.toNat - K / framePasses NumFrames - 1) ht (setupStart D Image)
    (List.replicate Image.ImageSize 0) st (setupBuffer_length _)
    (setupStart_resumable D Image _) (by omega) (by rw [hKe]; exact hfull)
    (by rw [hKe]; exact hput) code stx (by rw [hKe]; exact hstop)
  rw [hNS] at hloop
  unfold WriteImages
  simp only
  rw [writeSetup_eq D Image NumFrames hw]
  simp only
  rw [hloop]

theorem framePasses_pos (NumFrames : Int) : 0 < framePasses NumFrames := by
  unfold framePasses
  split <;> omega

theorem slice_index_lt (K NS NF : Nat) (hK : K < NS * NF) : K / NF < NS :=
  Nat.div_lt_of_lt_mul (by rw [Nat.mul_comm]; exact hK)

/-- The run of `WriteImages` when the images before image number `K` are read
in full and written and the read of image `K` is short: it returns
`ERR_IN_TEMP` right after that read, with the positions of the image in the
slice list and in the frame list in `ErrMsg`. -/
theorem WriteImages_short_read (A : MincAtts) (D : WriteDefs) (putOk : Nat → Bool)
    (Image : ImageInfoRec) (Slices Frames : List Int) (NumSlices NumFrames : Int)
    (st : WriteState) (K : Nat)
    (hw : WellPlaced D Image (decide (NumFrames > 0)))
    (hsl : NumSlices.toNat ≤ Slices.length) (hfr : framePasses NumFrames ≤ Frames.length)
    (hK : K < NumSlices.toNat * framePasses NumFrames)
    (hfull : Image.ImageSize * K ≤ st.TempFile.length)
    (hput : ∀ k, k < K → putOk (st.nPut + k) = true)
    (hshort : st.TempFile.length < Image.ImageSize * (K + 1)) :
    WriteImages A D putOk Image Slices Frames NumSlices NumFrames st =
      some (ErrCode.ERR_IN_TEMP,
        { st with
          TempFile := (st.TempFile.drop (Image.ImageSize * K)).drop Image.ImageSize,
          calls := st.calls ++
            (List.range K).flatMap (fun k =>
              planeOf D Image (decide (NumFrames > 0)) Slices Frames (framePasses NumFrames)
                st.TempFile k) ++
            [WriteCall.fread Image.ImageSize
              ((st.TempFile.drop (Image.ImageSize * K)).take Image.ImageSize)],
          nPut := st.nPut + K,
          ErrMsg := some (Message.tempReadError
            ((K / framePasses NumFrames : Nat) : Int) ((K % framePasses NumFrames : Nat) : Int)) }) := by
  apply WriteImages_stops A D putOk Image Slices Frames NumSlices NumFrames st K hw hsl hfr hK
    hfull hput
  intro Start1 Buffer1 _ _
  rw [writePlane_short]
  · simp [afterPlanes, List.append_assoc]
  · simp only [afterPlanes, List.length_drop]
    rw [Nat.mul_succ] at hshort
    omega

/-- The run of `WriteImages` when the images before image number `K` are read
in full and written, image `K` is read in full and its `miicv_put` fails: it
returns `ERR_OUT_MINC` right after that call. -/
theorem WriteImages_put_failure (A : MincAtts) (D : WriteDefs) (putOk : Nat → Bool)
    (Image : ImageInfoRec) (Slices Frames : List Int) (NumSlices NumFrames : Int)
    (st : WriteState) (K : Nat)
    (hw : WellPlaced D Image (decide (NumFrames > 0)))
    (hsl : NumSlices.toNat ≤ Slices.length) (hfr : framePasses NumFrames ≤ Frames.length)
    (hK : K < NumSlices.toNat * framePasses NumFrames)
    (hfull : Image.ImageSize * (K + 1) ≤ st.TempFile.length)
    (hput : ∀ k, k < K → putOk (st.nPut + k) = true)
    (hfail : putOk (st.nPut + K) = false) :
    WriteImages A D putOk Image Slices Frames NumSlices NumFrames st =
      some (ErrCode.ERR_OUT_MINC,
        { afterPlanes Image.ImageSize st (K + 1)
            ((List.range (K + 1)).flatMap (fun k =>
              planeOf D Image (decide (NumFrames > 0)) Slices Frames (framePasses NumFrames)
                st.TempFile k)) with
          ErrMsg := some Message.icvPutBug }) := by
  have hNF := framePasses_pos NumFrames
  have hq : K / framePasses NumFrames < Slices.length :=
    Nat.lt_of_lt_of_le (slice_index_lt K _ _ hK) hsl
  have ht : K % framePasses NumFrames < Frames.length :=
    Nat.lt_of_lt_of_le (Nat.mod_lt _ hNF) hfr
  have hfullK : Image.ImageSize * K ≤ st.TempFile.length := by
    rw [Nat.mul_succ] at hfull; omega
  apply WriteImages_stops A D putOk Image Slices Frames NumSlices NumFrames st K hw hsl hfr hK
    hfullK hput
  intro Start1 Buffer1 hready hB
  rw [writePlane_full D putOk Image Slices Frames (decide (NumFrames > 0)) _ _ Start1 Buffer1 _
    (Slices.getD (K / framePasses NumFrames) 0) (Frames.getD (K % framePasses NumFrames) 0) hw
    (by rw [List.getD_eq_getElem _ _ hq]; exact List.getElem?_eq_getElem hq)
    (by rw [List.getD_eq_getElem _ _ ht]; exact List.getElem?_eq_getElem ht)
    hB hready
    (by
      simp only [afterPlanes, List.length_drop]
      rw [Nat.mul_succ] at hfull
      omega)]
  have hp : putOk (afterPlanes Image.ImageSize st K
      ((List.range K).flatMap (fun k =>
        planeOf D Image (decide (NumFrames > 0)) Slices Frames (framePasses NumFrames)
          st.TempFile k))).nPut = false := hfail
  rw [if_pos hp, afterPlanes_afterPlanes, List.range_succ, List.flatMap_append,
    List.flatMap_singleton]
  rfl

/-- Either all `N` images can be read in full and written, or there is a first
image whose read is short, or a first image read in full whose write fails. -/
theorem first_failure (n len : Nat) (ok : Nat → Bool) :
    ∀ N : Nat,
      (n * N ≤ len ∧ ∀ k, k < N → ok k = true) ∨
      (∃ K, K < N ∧ n * K ≤ len ∧ (∀ k, k < K → ok k = true) ∧ len < n * (K + 1)) ∨
      (∃ K, K < N ∧ n * (K + 1) ≤ len ∧ (∀ k, k < K → ok k = true) ∧ ok K = false) := by
  intro N
  induction N with
  | zero => exact Or.inl ⟨by omega, fun k hk => by omega⟩
  | succ N ih =>
    rcases ih with ⟨hlen, hok⟩ | ⟨K, hK, h1, h2, h3⟩ | ⟨K, hK, h1, h2, h3⟩
    · by_cases hfull : n * (N + 1) ≤ len
      · by_cases hN : ok N = true
        · left
          refine ⟨hfull, fun k hk => ?_⟩
          by_cases hkN : k = N
          · rw [hkN]; exact hN
          · exact hok k (by omega)
        · right; right
          exact ⟨N, by omega, hfull, hok, by simpa using hN⟩
      · right; left
        exact ⟨N, by omega, hlen, hok, by omega⟩
    · right; left
      exact ⟨K, by omega, h1, h2, h3⟩
    · right; right
      exact ⟨K, by omega, h1, h2, h3⟩

/-! ## The attribute `complete` -/

theorem find_setAtt_same (atts : List (String × AttValue)) (name : String) (value : AttValue) :
    ((atts.filter (fun a => a.1 ≠ name)) ++ [(name, value)]).find? (fun a => a.1 = name) =
      some (name, value) := by
  induction atts with
  | nil => simp
  | cons a rest ih =>
    by_cases h : a.1 = name
    · rw [List.filter_cons_of_neg (by simpa using h)]
      exact ih
    · rw [List.filter_cons_of_pos (by simpa using h), List.cons_append,
        List.find?_cons_of_neg _ (by simpa using h)]
      exact ih

theorem find_setAtt_other (atts : List (String × AttValue)) (name other : String)
    (value : AttValue) (hne : other ≠ name) :
    ((atts.filter (fun a => a.1 ≠ name)) ++ [(name, value)]).find? (fun a => a.1 = other) =
      atts.find? (fun a => a.1 = other) := by
  induction atts with
  | nil =>
    rw [List.filter_nil, List.nil_append, List.find?_cons_of_neg _ (by simpa using Ne.symm hne)]
  | cons a rest ih =>
    by_cases h : a.1 = name
    · have h2 : ¬ a.1 = other := fun h3 => hne (h3 ▸ h)
      rw [List.filter_cons_of_neg (by simpa using h),
        List.find?_cons_of_neg _ (by simpa using h2)]
      exact ih
    · rw [List.filter_cons_of_pos (by simpa using h), List.cons_append]
      by_cases h2 : a.1 = other
      · rw [List.find?_cons_of_pos _ (by simpa using h2),
          List.find?_cons_of_pos _ (by simpa using h2)]
      · rw [List.find?_cons_of_neg _ (by simpa using h2),
          List.find?_cons_of_neg _ (by simpa using h2)]
        exact ih

@[simp] theorem attOf_issue (w : World) (c : Call) (varid : Int) (name : String) :
    (w.issue c).attOf varid name = w.attOf varid name := rfl

theorem putAtt_vars_length (w : World) (varid : Int) (name : String) (value : AttValue) :
    (w.putAtt varid name value).vars.length = w.vars.length := by
  unfold World.putAtt
  split
  · simp
  · rfl

theorem attOf_putAtt_same (w : World) (varid : Int) (name : String) (value : AttValue)
    (h0 : 0 ≤ varid) (h1 : varid < w.vars.length) :
    (w.putAtt varid name value).attOf varid name = some value := by
  have hlt : varid.toNat < w.vars.length := by omega
  have hv : (w.putAtt varid name value).vars[varid.toNat]? =
      some ((w.vars[varid.toNat]).setAtt name value) := by
    unfold World.putAtt
    rw [if_pos ⟨h0, h1⟩]
    simp only [List.getElem?_modify, if_true, List.getElem?_eq_getElem hlt, Option.map_some,
      Function.comp]
  unfold World.attOf
  rw [if_pos h0, hv]
  simp only [Variable.setAtt, find_setAtt_same, Option.map_some]
  rfl

theorem attOf_putAtt_other (w : World) (varid other_id : Int) (name other : String)
    (value : AttValue) (hne : other ≠ name) :
    (w.putAtt varid name value).attOf other_id other = w.attOf other_id other := by
  by_cases hin : 0 ≤ varid ∧ varid < w.vars.length
  · have hvars : (w.putAtt varid name value).vars =
        w.vars.modify (fun v => v.setAtt name value) varid.toNat := by
      unfold World.putAtt
      rw [if_pos hin]
    unfold World.attOf
    rw [hvars]
    by_cases h0 : 0 ≤ other_id
    · rw [if_pos h0, if_pos h0, List.getElem?_modify]
      by_cases h : varid.toNat = other_id.toNat
      · cases hv : w.vars[other_id.toNat]? with
        | none => rfl
        | some v =>
          simp only [h, if_true, Option.map_eq_map, Option.map_some, Variable.setAtt]
          rw [find_setAtt_other _ _ _ _ hne]
      · cases hv : w.vars[other_id.toNat]? with
        | none => rfl
        | some v => simp only [h, if_false, Option.map_eq_map, Option.map_some]
    · rw [if_neg h0, if_neg h0]
  · unfold World.putAtt
    rw [if_neg hin]

theorem attOf_micreate (L : Library) (cdf : Int) (vname : String) (type : nc_type)
    (ndims : Int) (dimids : List Int) (w : World) (varid : Int) (name : String)
    (h1 : varid < w.vars.length) :
    (micreate_std_variable L cdf vname type ndims dimids w).2.attOf varid name =
      w.attOf varid name := by
  have hlt : 0 ≤ varid → varid.toNat < w.vars.length := fun h0 => by omega
  have hv : 0 ≤ varid →
      (micreate_std_variable L cdf vname type ndims dimids w).2.vars[varid.toNat]? =
        w.vars[varid.toNat]? := by
    intro h0
    unfold micreate_std_variable
    simp only [issue_vars]
    split
    · exact List.getElem?_append_left (hlt h0)
    · rfl
  unfold World.attOf
  by_cases h0 : 0 ≤ varid
  · rw [if_pos h0, if_pos h0, hv h0]
  · rw [if_neg h0, if_neg h0]

theorem micreate_vars_length_le (L : Library) (cdf : Int) (vname : String) (type : nc_type)
    (ndims : Int) (dimids : List Int) (w : World) :
    w.vars.length ≤ (micreate_std_variable L cdf vname type ndims dimids w).2.vars.length := by
  unfold micreate_std_variable
  simp only [issue_vars]
  split
  · simp
  · exact Nat.le_refl _

/-- The image variable created by `CreateImageVars` has `complete` set to
`MI_FALSE` when the function returns. -/
theorem CreateImageVars_complete_false (M : MincNames) (A : MincAtts) (L : Library)
    (CDF NumDim : Int) (DimIDs : List Int) (NCType : nc_type) (Signed : Bool)
    (ValidRange : Rat × Rat) (w : World)
    (hcreate : L.createsVar M.MIimage = true) (h0 : 0 ≤ NumDim)
    (h1 : NumDim ≤ DimIDs.length) (hne : A.MIvalid_range ≠ A.MIcomplete) :
    (CreateImageVars M A L CDF NumDim DimIDs NCType Signed ValidRange w).2.attOf
      w.vars.length A.MIcomplete = some (AttValue.text A.MI_FALSE) := by
  have hid : (micreate_std_variable L CDF M.MIimage NCType NumDim DimIDs w).1 =
      (w.vars.length : Int) := by
    rw [micreate_std_variable_fst, if_pos ⟨hcreate, h0, h1⟩]
  have hlen : (micreate_std_variable L CDF M.MIimage NCType NumDim DimIDs w).2.vars.length =
      w.vars.length + 1 := by
    unfold micreate_std_variable
    simp only [issue_vars]
    rw [if_pos ⟨hcreate, h0, h1⟩]
    simp
  have hafter : (afterImageVar M A L CDF NumDim DimIDs NCType Signed ValidRange w).attOf
      w.vars.length A.MIcomplete = some (AttValue.text A.MI_FALSE) := by
    unfold afterImageVar ncattput_doubles
    simp only [hid]
    rw [attOf_putAtt_other _ _ _ _ _ _ (Ne.symm hne), attOf_issue]
    unfold miattputstr
    apply attOf_putAtt_same
    · omega
    · simp only [issue_vars, putAtt_vars_length, hlen]
      omega
  have hafterlen : w.vars.length <
      (afterImageVar M A L CDF NumDim DimIDs NCType Signed ValidRange w).vars.length := by
    rw [vars_length_eq_of_shape (afterImageVar_shape M A L CDF NumDim DimIDs NCType Signed
      ValidRange w), hlen]
    omega
  rw [CreateImageVars_eq]
  simp only
  rw [attOf_micreate, attOf_micreate, hafter]
  · exact_mod_cast hafterlen
  · have := micreate_vars_length_le L CDF M.MIimagemax nc_type.NC_DOUBLE (NumDim - 2) DimIDs
      (afterImageVar M A L CDF NumDim DimIDs NCType Signed ValidRange w)
    have h2 : (w.vars.length : Int) <
        ((afterImageVar M A L CDF NumDim DimIDs NCType Signed ValidRange w).vars.length : Int) := by
      exact_mod_cast hafterlen
    omega

/-- The attribute `complete` of the image variable after the call of
`miattputstr` that ends a successful run of `WriteImages`. -/
theorem attOf_complete_true (cdf varid : Int) (name value : String) (w : World)
    (h0 : 0 ≤ varid) (h1 : varid < w.vars.length) :
    (miattputstr cdf varid name value w).attOf varid name = some (AttValue.text value) := by
  unfold miattputstr
  exact attOf_putAtt_same _ _ _ _ h0 (by simpa using h1)

/-! ## The outcomes of a run of `WriteImages` -/

theorem run_outcomes (n : Nat) (putOk : Nat → Bool) (st : WriteState) (N : Nat) :
    AllPlanesDone n putOk st N ∨ (∃ K, K < N ∧ ShortReadAt n putOk st K) ∨
      (∃ K, K < N ∧ PutFailsAt n putOk st K) := by
  unfold AllPlanesDone ShortReadAt PutFailsAt
  exact first_failure n st.TempFile.length (fun k => putOk (st.nPut + k)) N

theorem not_done_of_short (n : Nat) (putOk : Nat → Bool) (st : WriteState) (N K : Nat)
    (hK : K < N) (h : ShortReadAt n putOk st K) : ¬ AllPlanesDone n putOk st N := by
  intro hdone
  have h1 : n * (K + 1) ≤ n * N := Nat.mul_le_mul_left n hK
  have h2 := h.2.2
  have h3 := hdone.1
  omega

theorem not_done_of_put_failure (n : Nat) (putOk : Nat → Bool) (st : WriteState) (N K : Nat)
    (hK : K < N) (h : PutFailsAt n putOk st K) : ¬ AllPlanesDone n putOk st N := by
  intro hdone
  have h1 := hdone.2 K hK
  rw [h.2.2] at h1
  cases h1

theorem not_short_and_put_failure (n : Nat) (putOk : Nat → Bool) (st : WriteState) (K J : Nat)
    (hs : ShortReadAt n putOk st K) (hp : PutFailsAt n putOk st J) : False := by
  rcases Nat.lt_or_ge J K with h | h
  · have h1 := hs.2.1 J h
    rw [hp.2.2] at h1
    cases h1
  · have h1 : n * (K + 1) ≤ n * (J + 1) := Nat.mul_le_mul_left n (by omega)
    have h2 := hs.2.2
    have h3 := hp.1
    omega

/-- Every run of `WriteImages` on usable arguments returns, in one of three
ways: all images moved, a first short read, or a first failed `miicv_put`. -/
theorem WriteImages_outcome (A : MincAtts) (D : WriteDefs) (putOk : Nat → Bool)
    (Image : ImageInfoRec) (Slices Frames : List Int) (NumSlices NumFrames : Int)
    (st : WriteState)
    (hw : WellPlaced D Image (decide (NumFrames > 0)))
    (hsl : NumSlices.toNat ≤ Slices.length) (hfr : framePasses NumFrames ≤ Frames.length) :
    (AllPlanesDone Image.ImageSize putOk st (planned NumSlices NumFrames) ∧
      WriteImages A D putOk Image Slices Frames NumSlices NumFrames st =
        some (ErrCode.ERR_NONE,
          { afterPlanes Image.ImageSize st (planned NumSlices NumFrames)
              (planesTrace D Image Slices Frames NumFrames st.TempFile
                (planned NumSlices NumFrames)) with
            file := miattputstr Image.CDF Image.ID A.MIcomplete D.MI_TRUE st.file })) ∨
    (∃ K, K < planned NumSlices NumFrames ∧ ShortReadAt Image.ImageSize putOk st K ∧
      WriteImages A D putOk Image Slices Frames NumSlices NumFrames st =
        some (ErrCode.ERR_IN_TEMP,
          { st with
            TempFile := (st.TempFile.drop (Image.ImageSize * K)).drop Image.ImageSize,
            calls := st.calls ++ planesTrace D Image Slices Frames NumFrames st.TempFile K ++
              [WriteCall.fread Image.ImageSize
                ((st.TempFile.drop (Image.ImageSize * K)).take Image.ImageSize)],
            nPut := st.nPut + K,
            ErrMsg := some (Message.tempReadError
              ((K / framePasses NumFrames : Nat) : Int)
              ((K % framePasses NumFrames : Nat) : Int)) })) ∨
    (∃ K, K < planned NumSlices NumFrames ∧ PutFailsAt Image.ImageSize putOk st K ∧
      WriteImages A D putOk Image Slices Frames NumSlices NumFrames st =
        some (ErrCode.ERR_OUT_MINC,
          { afterPlanes Image.ImageSize st (K + 1)
              (planesTrace D Image Slices Frames NumFrames st.TempFile (K + 1)) with
            ErrMsg := some Message.icvPutBug })) := by
  rcases run_outcomes Image.ImageSize putOk st (planned NumSlices NumFrames) with
    hdone | ⟨K, hK, hs⟩ | ⟨K, hK, hp⟩
  · exact Or.inl ⟨hdone, WriteImages_success A D putOk Image Slices Frames NumSlices NumFrames
      st hw hsl hfr hdone.1 hdone.2⟩
  · exact Or.inr (Or.inl ⟨K, hK, hs, WriteImages_short_read A D putOk Image Slices Frames
      NumSlices NumFrames st K hw hsl hfr hK hs.1 hs.2.1 hs.2.2⟩)
  · exact Or.inr (Or.inr ⟨K, hK, hp, WriteImages_put_failure A D putOk Image Slices Frames
      NumSlices NumFrames st K hw hsl hfr hK hp.1 hp.2.1 hp.2.2⟩)

theorem newCalls_of_calls_eq (st st1 : WriteState) (added : List WriteCall)
    (h : st1.calls = st.calls ++ added) : st1.newCalls st = added := by
  unfold WriteState.newCalls
  rw [h, List.drop_left]

/-- Every read among the calls of the first `K` images asks for `n` samples and
gets `n`, when the file holds the `K` images. -/
theorem fread_mem_planesTrace (D : WriteDefs) (Image : ImageInfoRec) (Slices Frames : List Int)
    (NumFrames : Int) (samples : List Rat) (K wanted : Nat) (got : List Rat)
    (hfull : Image.ImageSize * K ≤ samples.length)
    (hmem : WriteCall.fread wanted got ∈ planesTrace D Image Slices Frames NumFrames samples K) :
    got.length = wanted := by
  unfold planesTrace at hmem
  rw [List.mem_flatMap] at hmem
  obtain ⟨k, hk, hc⟩ := hmem
  rw [List.mem_range] at hk
  have h1 : Image.ImageSize * (k + 1) ≤ Image.ImageSize * K := Nat.mul_le_mul_left _ hk
  simp only [planeOf, planeCalls, List.mem_cons, WriteCall.fread.injEq, List.mem_singleton,
    reduceCtorEq, or_false, List.not_mem_nil] at hc
  rw [hc.1, hc.2]
  exact segment_length _ _ _ (by omega)

/-- C11: the attribute `complete` marks completion. `CreateImageVars` leaves the
image variable it created with `complete` equal to `MI_FALSE` (the attribute
names `valid_range` and `complete` being different). Every run of `WriteImages`
on usable arguments returns a code, and: the code is `ERR_NONE` exactly when the
temporary file holds every planned image in full and every `miicv_put`
succeeds; it is `ERR_IN_TEMP` exactly when some read is the first thing to fail
and `ERR_OUT_MINC` exactly when some `miicv_put` is; with `ERR_NONE` the file is
the one `miattputstr (CDF, ID, MIcomplete, MI_TRUE)` leaves, in which
`complete` is `MI_TRUE`; with any other code the file is unchanged, so
`complete` was not written. -/
theorem WriteImages_complete_marker :
    (∀ (M : MincNames) (A : MincAtts) (L : Library) (CDF NumDim : Int) (DimIDs : List Int)
        (NCType : nc_type) (Signed : Bool) (ValidRange : Rat × Rat) (w : World),
      L.createsVar M.MIimage = true → 0 ≤ NumDim → NumDim ≤ DimIDs.length →
      A.MIvalid_range ≠ A.MIcomplete →
      (CreateImageVars M A L CDF NumDim DimIDs NCType Signed ValidRange w).2.attOf
        w.vars.length A.MIcomplete = some (AttValue.text A.MI_FALSE)) ∧
    (∀ (A : MincAtts) (D : WriteDefs) (putOk : Nat → Bool) (Image : ImageInfoRec)
        (Slices Frames : List Int) (NumSlices NumFrames : Int) (st : WriteState),
      WellPlaced D Image (decide (NumFrames > 0)) → NumSlices.toNat ≤ Slices.length →
      framePasses NumFrames ≤ Frames.length →
      0 ≤ Image.ID → Image.ID < st.file.vars.length →
      ∃ code st1,
        WriteImages A D putOk Image Slices Frames NumSlices NumFrames st = some (code, st1) ∧
        (code = ErrCode.ERR_NONE ↔
          AllPlanesDone Image.ImageSize putOk st (planned NumSlices NumFrames)) ∧
        (code = ErrCode.ERR_IN_TEMP ↔
          ∃ K, K < planned NumSlices NumFrames ∧ ShortReadAt Image.ImageSize putOk st K) ∧
        (code = ErrCode.ERR_OUT_MINC ↔
          ∃ K, K < planned NumSlices NumFrames ∧ PutFailsAt Image.ImageSize putOk st K) ∧
        (code = ErrCode.ERR_NONE →
          st1.file = miattputstr Image.CDF Image.ID A.MIcomplete D.MI_TRUE st.file ∧
          st1.file.attOf Image.ID A.MIcomplete = some (AttValue.text D.MI_TRUE)) ∧
        (code ≠ ErrCode.ERR_NONE → st1.file = st.file)) := by
  refine ⟨?_, ?_⟩
  · intro M A L CDF NumDim DimIDs NCType Signed ValidRange w hcreate h0 h1 hne
    exact CreateImageVars_complete_false M A L CDF NumDim DimIDs NCType Signed ValidRange w
      hcreate h0 h1 hne
  · intro A D putOk Image Slices Frames NumSlices NumFrames st hw hsl hfr hid0 hid1
    rcases WriteImages_outcome A D putOk Image Slices Frames NumSlices NumFrames st hw hsl hfr
      with ⟨hdone, hrun⟩ | ⟨K, hK, hs, hrun⟩ | ⟨K, hK, hp, hrun⟩
    · refine ⟨_, _, hrun, ?_, ?_, ?_, ?_, ?_⟩
      · exact ⟨fun _ => hdone, fun _ => rfl⟩
      · refine ⟨fun h => ?_, ?_⟩
        · cases h
        · rintro ⟨J, hJ, hJs⟩
          exact absurd hdone (not_done_of_short _ _ _ _ _ hJ hJs)
      · refine ⟨fun h => ?_, ?_⟩
        · cases h
        · rintro ⟨J, hJ, hJp⟩
          exact absurd hdone (not_done_of_put_failure _ _ _ _ _ hJ hJp)
      · intro _
        exact ⟨rfl, attOf_complete_true _ _ _ _ _ hid0 hid1⟩
      · intro h
        exact absurd rfl h
    · refine ⟨_, _, hrun, ?_, ?_, ?_, ?_, ?_⟩
      · refine ⟨fun h => ?_, ?_⟩
        · cases h
        · intro hdone
          exact absurd hdone (not_done_of_short _ _ _ _ _ hK hs)
      · exact ⟨fun _ => ⟨K, hK, hs⟩, fun _ => rfl⟩
      · refine ⟨fun h => ?_, ?_⟩
        · cases h
        · rintro ⟨J, _, hJp⟩
          exact (not_short_and_put_failure _ _ _ _ _ hs hJp).elim
      · intro h
        cases h
      · intro _
        rfl
    · refine ⟨_, _, hrun, ?_, ?_, ?_, ?_, ?_⟩
      · refine ⟨fun h => ?_, ?_⟩
        · cases h
        · intro hdone
          exact absurd hdone (not_done_of_put_failure _ _ _ _ _ hK hp)
      · refine ⟨fun h => ?_, ?_⟩
        · cases h
        · rintro ⟨J, _, hJs⟩
          exact (not_short_and_put_failure _ _ _ _ _ hJs hp).elim
      · exact ⟨fun _ => ⟨K, hK, hp⟩, fun _ => rfl⟩
      · intro h
        cases h
      · intro _
        rfl

theorem WriteImages_complete_marker_witness :
    (CreateImageVars exampleNames exampleAtts goodLibrary 4 4 [0, 1, 2, 3] nc_type.NC_SHORT true
        (0, 255) (freshWorld [4])).2.attOf (freshWorld [4]).vars.length exampleAtts.MIcomplete =
      some (AttValue.text exampleAtts.MI_FALSE) ∧
    ∃ code st1,
      WriteImages exampleAtts exampleDefs (fun _ => true) exampleImage [2, 0] [1, 0] 1 2
        (startState [1, 2, 3, 4]) = some (code, st1) ∧
      (code = ErrCode.ERR_NONE ↔
        AllPlanesDone exampleImage.ImageSize (fun _ => true) (startState [1, 2, 3, 4])
          (planned 1 2)) ∧
      (code = ErrCode.ERR_IN_TEMP ↔
        ∃ K, K < planned 1 2 ∧
          ShortReadAt exampleImage.ImageSize (fun _ => true) (startState [1, 2, 3, 4]) K) ∧
      (code = ErrCode.ERR_OUT_MINC ↔
        ∃ K, K < planned 1 2 ∧
          PutFailsAt exampleImage.ImageSize (fun _ => true) (startState [1, 2, 3, 4]) K) ∧
      (code = ErrCode.ERR_NONE →
        st1.file = miattputstr exampleImage.CDF exampleImage.ID exampleAtts.MIcomplete
          exampleDefs.MI_TRUE (startState [1, 2, 3, 4]).file ∧
        st1.file.attOf exampleImage.ID exampleAtts.MIcomplete =
          some (AttValue.text exampleDefs.MI_TRUE)) ∧
      (code ≠ ErrCode.ERR_NONE → st1.file = (startState [1, 2, 3, 4]).file) :=
  ⟨WriteImages_complete_marker.1 exampleNames exampleAtts goodLibrary 4 4 [0, 1, 2, 3]
      nc_type.NC_SHORT true (0, 255) (freshWorld [4]) (by decide) (by decide) (by decide)
      (by decide),
    WriteImages_complete_marker.2 exampleAtts exampleDefs (fun _ => true) exampleImage [2, 0]
      [1, 0] 1 2 (startState [1, 2, 3, 4]) (by decide) (by decide) (by decide) (by decide)
      (by decide)⟩

/-- C12: a short read stops the run with nothing written for the image. Every
run of `WriteImages` on usable arguments returns, and if among the calls of the
run there is a read that got fewer samples than it asked for, then the code is
`ERR_IN_TEMP`, the MINC file is as before the run, and for some `K` the calls
of the run are exactly the calls of the images `0 .. K - 1` (each read in full,
with its two statistics writes and its image write) followed by that read as
the last call: no statistics write, no image write and no further read comes
after it, and `K` calls of `miicv_put` were issued in all. -/
theorem WriteImages_short_read_stops (A : MincAtts) (D : WriteDefs) (putOk : Nat → Bool)
    (Image : ImageInfoRec) (Slices Frames : List Int) (NumSlices NumFrames : Int)
    (st : WriteState)
    (hw : WellPlaced D Image (decide (NumFrames > 0)))
    (hsl : NumSlices.toNat ≤ Slices.length) (hfr : framePasses NumFrames ≤ Frames.length) :
    ∃ code st1,
      WriteImages A D putOk Image Slices Frames NumSlices NumFrames st = some (code, st1) ∧
      ∀ wanted got, WriteCall.fread wanted got ∈ st1.newCalls st → got.length < wanted →
        code = ErrCode.ERR_IN_TEMP ∧ st1.file = st.file ∧
        ∃ K, K < planned NumSlices NumFrames ∧ ShortReadAt Image.ImageSize putOk st K ∧
          st1.newCalls st =
            planesTrace D Image Slices Frames NumFrames st.TempFile K ++
              [WriteCall.fread wanted got] ∧
          st1.nPut = st.nPut + K := by
  rcases WriteImages_outcome A D putOk Image Slices Frames NumSlices NumFrames st hw hsl hfr
    with ⟨hdone, hrun⟩ | ⟨K, hK, hs, hrun⟩ | ⟨K, hK, hp, hrun⟩
  · refine ⟨_, _, hrun, ?_⟩
    intro wanted got hmem hshort
    rw [newCalls_of_calls_eq st _ (planesTrace D Image Slices Frames NumFrames st.TempFile
      (planned NumSlices NumFrames)) rfl] at hmem
    have := fread_mem_planesTrace D Image Slices Frames NumFrames st.TempFile _ wanted got
      hdone.1 hmem
    omega
  · refine ⟨_, _, hrun, ?_⟩
    intro wanted got hmem hshort
    have hcalls := newCalls_of_calls_eq st
      ({ st with
        TempFile := (st.TempFile.drop (Image.ImageSize * K)).drop Image.ImageSize,
        calls := st.calls ++ planesTrace D Image Slices Frames NumFrames st.TempFile K ++
          [WriteCall.fread Image.ImageSize
            ((st.TempFile.drop (Image.ImageSize * K)).take Image.ImageSize)],
        nPut := st.nPut + K,
        ErrMsg := some (Message.tempReadError
          ((K / framePasses NumFrames : Nat) : Int)
          ((K % framePasses NumFrames : Nat) : Int)) })
      (planesTrace D Image Slices Frames NumFrames st.TempFile K ++
        [WriteCall.fread Image.ImageSize
          ((st.TempFile.drop (Image.ImageSize * K)).take Image.ImageSize)])
      (List.append_assoc _ _ _)
    rw [hcalls] at hmem ⊢
    rw [List.mem_append, List.mem_singleton] at hmem
    rcases hmem with hmem | hmem
    · have := fread_mem_planesTrace D Image Slices Frames NumFrames st.TempFile _ wanted got
        hs.1 hmem
      omega
    · exact ⟨rfl, rfl, K, hK, hs, by rw [hmem], rfl⟩
  · refine ⟨_, _, hrun, ?_⟩
    intro wanted got hmem hshort
    rw [newCalls_of_calls_eq st _ (planesTrace D Image Slices Frames NumFrames st.TempFile
      (K + 1)) rfl] at hmem
    have := fread_mem_planesTrace D Image Slices Frames NumFrames st.TempFile _ wanted got
      hp.1 hmem
    omega

theorem WriteImages_short_read_stops_witness :
    (∃ code st1,
      WriteImages exampleAtts exampleDefs (fun _ => true) exampleImage [2, 0] [1, 0] 1 2
        (startState [1, 2, 3]) = some (code, st1) ∧
      ∀ wanted got, WriteCall.fread wanted got ∈ st1.newCalls (startState [1, 2, 3]) →
        got.length < wanted →
        code = ErrCode.ERR_IN_TEMP ∧ st1.file = (startState [1, 2, 3]).file ∧
        ∃ K, K < planned 1 2 ∧
          ShortReadAt exampleImage.ImageSize (fun _ => true) (startState [1, 2, 3]) K ∧
          st1.newCalls (startState [1, 2, 3]) =
            planesTrace exampleDefs exampleImage [2, 0] [1, 0] 2 (startState [1, 2, 3]).TempFile
                K ++
              [WriteCall.fread wanted got] ∧
          st1.nPut = (startState [1, 2, 3]).nPut + K) ∧
    (WriteImages exampleAtts exampleDefs (fun _ => true) exampleImage [2, 0] [1, 0] 1 2
        (startState [1, 2, 3])).map (fun r => (r.1, r.2.calls)) =
      some (ErrCode.ERR_IN_TEMP,
        [WriteCall.fread 2 [1, 2],
         WriteCall.mivarput1 4 1 [some 1, some 2] 2,
         WriteCall.mivarput1 4 2 [some 1, some 2] 1,
         WriteCall.miicv_put 7 [some 1, some 2, some 0, some 0]
           [some 1, some 1, some 1, some 2] [1, 2],
         WriteCall.fread 2 [3]]) :=
  ⟨WriteImages_short_read_stops exampleAtts exampleDefs (fun _ => true) exampleImage [2, 0]
      [1, 0] 1 2 (startState [1, 2, 3]) (by decide) (by decide) (by decide),
    by decide⟩

/-- C13 (as claimed, refuted): one slice, number 2, and the frames 1 and 0 are
asked for on a file of 3 slices and 2 frames, and the temporary file holds a
single sample, so the read of the image bound for slice 2, frame 1 is short.
The diagnostic `WriteImages` sets is the one for "slice 0, frame 0", the
values of its loop counters, not "slice 2, frame 1". -/
theorem short_read_diagnostic_names_loop_counters :
    (WriteImages exampleAtts exampleDefs (fun _ => true) exampleImage [2, 0] [1, 0] 1 2
        (startState [5])).map (fun r => (r.1, r.2.ErrMsg)) =
      some (ErrCode.ERR_IN_TEMP, some (Message.tempReadError 0 0)) ∧
    ([2, 0] : List Int)[0]? = some 2 ∧ ([1, 0] : List Int)[0]? = some 1 := by
  decide

/-- C13 (amended): when the read of the image at position `i` of the slice list
and position `j` of the frame list is short (the images before it having been
read in full and written), `WriteImages` returns `ERR_IN_TEMP` and the
diagnostic it sets names the pair of positions `(i, j)`, the values of the loop
counters `slice` and `frame`; the numbers `Slices[i]` and `Frames[j]` do not
appear in it. -/
theorem WriteImages_short_read_diagnostic (A : MincAtts) (D : WriteDefs) (putOk : Nat → Bool)
    (Image : ImageInfoRec) (Slices Frames : List Int) (NumSlices NumFrames : Int)
    (st : WriteState) (i j : Nat)
    (hw : WellPlaced D Image (decide (NumFrames > 0)))
    (hsl : NumSlices.toNat ≤ Slices.length) (hfr : framePasses NumFrames ≤ Frames.length)
    (hi : i < NumSlices.toNat) (hj : j < framePasses NumFrames)
    (hs : ShortReadAt Image.ImageSize putOk st (i * framePasses NumFrames + j)) :
    ∃ st1,
      WriteImages A D putOk Image Slices Frames NumSlices NumFrames st =
        some (ErrCode.ERR_IN_TEMP, st1) ∧
      st1.ErrMsg = some (Message.tempReadError (i : Int) (j : Int)) := by
  have hK : i * framePasses NumFrames + j < NumSlices.toNat * framePasses NumFrames := by
    have h1 : (i + 1) * framePasses NumFrames ≤ NumSlices.toNat * framePasses NumFrames :=
      Nat.mul_le_mul_right _ hi
    rw [Nat.add_mul, Nat.one_mul] at h1
    omega
  have hdiv : (i * framePasses NumFrames + j) / framePasses NumFrames = i := by
    rw [Nat.add_comm, Nat.add_mul_div_right _ _ (framePasses_pos NumFrames),
      Nat.div_eq_of_lt hj, Nat.zero_add]
  have hmod : (i * framePasses NumFrames + j) % framePasses NumFrames = j := by
    rw [Nat.add_comm, Nat.add_mul_mod_self_right, Nat.mod_eq_of_lt hj]
  refine ⟨_, WriteImages_short_read A D putOk Image Slices Frames NumSlices NumFrames st _ hw
    hsl hfr hK hs.1 hs.2.1 hs.2.2, ?_⟩
  simp only [hdiv, hmod]

theorem WriteImages_short_read_diagnostic_witness :
    ∃ st1,
      WriteImages exampleAtts exampleDefs (fun _ => true) exampleImage [2, 0] [1, 0] 1 2
        (startState [1, 2, 3]) = some (ErrCode.ERR_IN_TEMP, st1) ∧
      st1.ErrMsg = some (Message.tempReadError ((0 : Nat) : Int) ((1 : Nat) : Int)) :=
  WriteImages_short_read_diagnostic exampleAtts exampleDefs (fun _ => true) exampleImage [2, 0]
    [1, 0] 1 2 (startState [1, 2, 3]) 0 1 (by decide) (by decide) (by decide) (by decide)
    (by decide) (by unfold ShortReadAt; decide)

/-! ## Where the images are placed -/

/-- The components of the vectors `WriteImages` and `PutMaxMin` pass for the
image of slice `s` and frame `f`, the image dimensions being at different
positions. -/
theorem plane_components (D : WriteDefs) (Image : ImageInfoRec) (DoFrames : Bool) (s f : Int)
    (hw : WellPlaced D Image DoFrames) (hd : DistinctDims Image DoFrames) :
    (planeStart D Image DoFrames s f)[Image.SliceDim.toNat]? = some (some s) ∧
    (DoFrames = true → (planeStart D Image DoFrames s f)[Image.FrameDim.toNat]? = some (some f)) ∧
    (planeStart D Image DoFrames s f)[Image.HeightDim.toNat]? = some (some 0) ∧
    (planeStart D Image DoFrames s f)[Image.WidthDim.toNat]? = some (some 0) ∧
    (setupCount D Image DoFrames)[Image.HeightDim.toNat]? = some (some Image.Height) ∧
    (setupCount D Image DoFrames)[Image.WidthDim.toNat]? = some (some Image.Width) ∧
    (setupCount D Image DoFrames)[Image.SliceDim.toNat]? = some (some 1) ∧
    (DoFrames = true → (setupCount D Image DoFrames)[Image.FrameDim.toNat]? = some (some 1)) ∧
    (statCoord Image s f DoFrames)[Image.SliceDim.toNat]? = some (some s) ∧
    (DoFrames = true → (statCoord Image s f DoFrames)[Image.FrameDim.toNat]? = some (some f)) := by
  obtain ⟨⟨hH0, hH1⟩, ⟨hW0, hW1⟩, ⟨hS0, hS2, hS1⟩, hF⟩ := hw
  obtain ⟨hHW, hHS, hWS, hdF⟩ := hd
  have hH : Image.HeightDim.toNat < D.MAX_NC_DIMS := by omega
  have hW : Image.WidthDim.toNat < D.MAX_NC_DIMS := by omega
  have hS : Image.SliceDim.toNat < D.MAX_NC_DIMS := by omega
  have hSc : Image.SliceDim.toNat < 2 := by omega
  have nHW : Image.HeightDim.toNat ≠ Image.WidthDim.toNat := by omega
  have nHS : Image.HeightDim.toNat ≠ Image.SliceDim.toNat := by omega
  have nWS : Image.WidthDim.toNat ≠ Image.SliceDim.toNat := by omega
  cases DoFrames with
  | false =>
    simp [planeStart, frameStart, setupStart, setupCount, statCoord, List.getElem?_set,
      hH, hW, hS, hSc, nHW, nHS, nWS, Ne.symm nHW, Ne.symm nHS, Ne.symm nWS]
  | true =>
    obtain ⟨hF0, hF2, hF1, hFS⟩ := hF rfl
    obtain ⟨hFH, hFW, _⟩ := hdF rfl
    have hFl : Image.FrameDim.toNat < D.MAX_NC_DIMS := by omega
    have hFc : Image.FrameDim.toNat < 2 := by omega
    have nFH : Image.FrameDim.toNat ≠ Image.HeightDim.toNat := by omega
    have nFW : Image.FrameDim.toNat ≠ Image.WidthDim.toNat := by omega
    have nFS : Image.FrameDim.toNat ≠ Image.SliceDim.toNat := by omega
    simp [planeStart, frameStart, setupStart, setupCount, statCoord, List.getElem?_set,
      hH, hW, hS, hSc, hFl, hFc, nHW, nHS, nWS, nFH, nFW, nFS, Ne.symm nHW, Ne.symm nHS,
      Ne.symm nWS, Ne.symm nFH, Ne.symm nFW, Ne.symm nFS]

/-- Placement in slice-major order, with the frame components as far as the
code assigns them. For a slice list of `NumSlices`
entries and a frame list of `NumFrames` entries, with `framePasses NumFrames`
passes of the frame loop (`NumFrames` if positive, 1 otherwise), a run of
`WriteImages` that returns `ERR_NONE` consumed exactly `NumSlices` times
`framePasses NumFrames` images of the temporary file, and its calls are, for
`k` from 0 in order, the read of image `k`, the write of its maximum and of its
minimum at the coordinate of slice `Slices[k div passes]` and frame
`Frames[k mod passes]`, and the `miicv_put` of the image with the start vector
of that slice and frame. In these vectors (the image dimensions being at
different positions) `Start` holds the slice at the slice position, the frame
at the frame position when `NumFrames > 0`, and 0 at the height and width
positions; `Count` holds `Height` and `Width` at the height and width
positions, 1 at the slice position and, when `NumFrames > 0`, 1 at the frame
position; the statistics coordinate holds the same slice and, when
`NumFrames > 0`, the same frame. Nothing is said of the frame components when
`NumFrames <= 0`: they are then never assigned, whether or not the file has a
frame dimension. -/
theorem WriteImages_slice_major (A : MincAtts) (D : WriteDefs) (putOk : Nat → Bool)
    (Image : ImageInfoRec) (Slices Frames : List Int) (NumSlices NumFrames : Int)
    (st st1 : WriteState)
    (hw : WellPlaced D Image (decide (NumFrames > 0)))
    (hd : DistinctDims Image (decide (NumFrames > 0)))
    (hsl : NumSlices.toNat ≤ Slices.length) (hfr : framePasses NumFrames ≤ Frames.length)
    (hrun : WriteImages A D putOk Image Slices Frames NumSlices NumFrames st =
      some (ErrCode.ERR_NONE, st1)) :
    st1.TempFile = st.TempFile.drop (Image.ImageSize * (NumSlices.toNat * framePasses NumFrames)) ∧
    st1.newCalls st =
      (List.range (NumSlices.toNat * framePasses NumFrames)).flatMap (fun k =>
        [WriteCall.fread Image.ImageSize (segment Image.ImageSize st.TempFile k),
         WriteCall.mivarput1 Image.CDF Image.MaxID
           (statCoord Image (Slices.getD (k / framePasses NumFrames) 0)
             (Frames.getD (k % framePasses NumFrames) 0) (decide (NumFrames > 0)))
           (maxFrom (-D.DBL_MAX) (segment Image.ImageSize st.TempFile k)),
         WriteCall.mivarput1 Image.CDF Image.MinID
           (statCoord Image (Slices.getD (k / framePasses NumFrames) 0)
             (Frames.getD (k % framePasses NumFrames) 0) (decide (NumFrames > 0)))
           (minFrom D.DBL_MAX (segment Image.ImageSize st.TempFile k)),
         WriteCall.miicv_put Image.ICV
           (planeStart D Image (decide (NumFrames > 0))
             (Slices.getD (k / framePasses NumFrames) 0)
             (Frames.getD (k % framePasses NumFrames) 0))
           (setupCount D Image (decide (NumFrames > 0)))
           (segment Image.ImageSize st.TempFile k)]) ∧
    (∀ k, k < NumSlices.toNat * framePasses NumFrames →
      (segment Image.ImageSize st.TempFile k).length = Image.ImageSize ∧
      Slices[k / framePasses NumFrames]? = some (Slices.getD (k / framePasses NumFrames) 0) ∧
      Frames[k % framePasses NumFrames]? = some (Frames.getD (k % framePasses NumFrames) 0)) ∧
    (∀ s f : Int,
      (planeStart D Image (decide (NumFrames > 0)) s f)[Image.SliceDim.toNat]? = some (some s) ∧
      (NumFrames > 0 →
        (planeStart D Image (decide (NumFrames > 0)) s f)[Image.FrameDim.toNat]? =
          some (some f)) ∧
      (planeStart D Image (decide (NumFrames > 0)) s f)[Image.HeightDim.toNat]? =
        some (some 0) ∧
      (planeStart D Image (decide (NumFrames > 0)) s f)[Image.WidthDim.toNat]? =
        some (some 0) ∧
      (setupCount D Image (decide (NumFrames > 0)))[Image.HeightDim.toNat]? =
        some (some Image.Height) ∧
      (setupCount D Image (decide (NumFrames > 0)))[Image.WidthDim.toNat]? =
        some (some Image.Width) ∧
      (setupCount D Image (decide (NumFrames > 0)))[Image.SliceDim.toNat]? = some (some 1) ∧
      (NumFrames > 0 →
        (setupCount D Image (decide (NumFrames > 0)))[Image.FrameDim.toNat]? = some (some 1)) ∧
      (statCoord Image s f (decide (NumFrames > 0)))[Image.SliceDim.toNat]? = some (some s) ∧
      (NumFrames > 0 →
        (statCoord Image s f (decide (NumFrames > 0)))[Image.FrameDim.toNat]? =
          some (some f))) := by
  have hcomp : ∀ s f : Int, _ := fun s f =>
    plane_components D Image (decide (NumFrames > 0)) s f hw hd
  rcases WriteImages_outcome A D putOk Image Slices Frames NumSlices NumFrames st hw hsl hfr
    with ⟨hdone, hrun1⟩ | ⟨K, _, _, hrun1⟩ | ⟨K, _, _, hrun1⟩
  · rw [hrun1] at hrun
    have hst : st1 = _ := (Prod.mk.inj (Option.some.inj hrun)).2.symm
    refine ⟨?_, ?_, ?_, ?_⟩
    · rw [hst]
      rfl
    · rw [hst]
      exact newCalls_of_calls_eq _ _ _ rfl
    · intro k hk
      have hNF := framePasses_pos NumFrames
      have hq : k / framePasses NumFrames < Slices.length :=
        Nat.lt_of_lt_of_le (slice_index_lt k _ _ hk) hsl
      have ht : k % framePasses NumFrames < Frames.length :=
        Nat.lt_of_lt_of_le (Nat.mod_lt _ hNF) hfr
      refine ⟨segment_length _ _ _ ?_, ?_, ?_⟩
      · have h1 : Image.ImageSize * (k + 1) ≤
            Image.ImageSize * (NumSlices.toNat * framePasses NumFrames) :=
          Nat.mul_le_mul_left _ hk
        have h2 := hdone.1
        unfold planned at h2
        omega
      · rw [List.getD_eq_getElem _ _ hq]
        exact List.getElem?_eq_getElem hq
      · rw [List.getD_eq_getElem _ _ ht]
        exact List.getElem?_eq_getElem ht
    · intro s f
      obtain ⟨c1, c2, c3, c4, c5, c6, c7, c8, c9, c10⟩ := hcomp s f
      exact ⟨c1, fun h => c2 (by simpa using h), c3, c4, c5, c6, c7,
        fun h => c8 (by simpa using h), c9, fun h => c10 (by simpa using h)⟩
  · rw [hrun1] at hrun
    cases hrun
  · rw [hrun1] at hrun
    cases hrun

theorem WriteImages_slice_major_witness :
    WriteImages exampleAtts exampleDefs (fun _ => true) exampleImage [2, 0] [1, 0] 1 2
      (startState [1, 2, 3, 4]) = some (ErrCode.ERR_NONE, exampleDoneState) ∧
    exampleDoneState.newCalls (startState [1, 2, 3, 4]) =
      (List.range ((1 : Int).toNat * framePasses 2)).flatMap (fun k =>
        [WriteCall.fread exampleImage.ImageSize
           (segment exampleImage.ImageSize (startState [1, 2, 3, 4]).TempFile k),
         WriteCall.mivarput1 exampleImage.CDF exampleImage.MaxID
           (statCoord exampleImage (([2, 0] : List Int).getD (k / framePasses 2) 0)
             (([1, 0] : List Int).getD (k % framePasses 2) 0) (decide ((2 : Int) > 0)))
           (maxFrom (-exampleDefs.DBL_MAX)
             (segment exampleImage.ImageSize (startState [1, 2, 3, 4]).TempFile k)),
         WriteCall.mivarput1 exampleImage.CDF exampleImage.MinID
           (statCoord exampleImage (([2, 0] : List Int).getD (k / framePasses 2) 0)
             (([1, 0] : List Int).getD (k % framePasses 2) 0) (decide ((2 : Int) > 0)))
           (minFrom exampleDefs.DBL_MAX
             (segment exampleImage.ImageSize (startState [1, 2, 3, 4]).TempFile k)),
         WriteCall.miicv_put exampleImage.ICV
           (planeStart exampleDefs exampleImage (decide ((2 : Int) > 0))
             (([2, 0] : List Int).getD (k / framePasses 2) 0)
             (([1, 0] : List Int).getD (k % framePasses 2) 0))
           (setupCount exampleDefs exampleImage (decide ((2 : Int) > 0)))
           (segment exampleImage.ImageSize (startState [1, 2, 3, 4]).TempFile k)]) :=
  ⟨by decide,
   (WriteImages_slice_major exampleAtts exampleDefs (fun _ => true) exampleImage [2, 0] [1, 0]
      1 2 (startState [1, 2, 3, 4]) exampleDoneState (by decide) (by decide) (by decide)
      (by decide) (by decide)).2.1⟩

/-- C15 (fails): on a file with a frame dimension (2 frames, 3 slices, the
frame dimension at position 0, the four dimensions at different positions
inside the arrays), the slices 2 and 0 with an empty frame list are accepted by
`VerifyVectors`, and `WriteImages` returns `ERR_NONE` having read 2 * 1 images
and placed them in slice order. But in both `miicv_put` calls `Count` holds no
value at the frame position, where the claim has 1, `Start` holds none either,
and both pairs of statistics are written at a coordinate whose frame
component was never assigned, not "at the same slice and frame". -/
theorem WriteImages_slice_major_frame_count_unassigned :
    WellPlaced exampleDefs exampleImage (decide ((0 : Int) > 0)) ∧
    DistinctDims exampleImage (decide ((0 : Int) > 0)) ∧
    VerifyVectors [2, 0, 0, 0] [0, 0, 0, 0] 2 0 exampleImage = some (true, none) ∧
    (WriteImages exampleAtts exampleDefs (fun _ => true) exampleImage [2, 0, 0, 0] [0, 0, 0, 0]
        2 0 (startState [5, 7, 1, 3])).map (fun r => (r.1, r.2.calls)) =
      some (ErrCode.ERR_NONE,
        [WriteCall.fread 2 [5, 7],
         WriteCall.mivarput1 4 1 [none, some 2] 7,
         WriteCall.mivarput1 4 2 [none, some 2] 5,
         WriteCall.miicv_put 7 [none, some 2, some 0, some 0] [none, some 1, some 1, some 2]
           [5, 7],
         WriteCall.fread 2 [1, 3],
         WriteCall.mivarput1 4 1 [none, some 0] 3,
         WriteCall.mivarput1 4 2 [none, some 0] 1,
         WriteCall.miicv_put 7 [none, some 0, some 0, some 0] [none, some 1, some 1, some 2]
           [1, 3]]) ∧
    (setupCount exampleDefs exampleImage (decide ((0 : Int) > 0)))[exampleImage.FrameDim.toNat]? =
      some none ∧
    (statCoord exampleImage 2 0 (decide ((0 : Int) > 0)))[exampleImage.FrameDim.toNat]? =
      some none := by
  decide

/-- C16 (fails): on a file with a frame dimension (2 frames, 3 slices, the frame
dimension at position 0) the slice list "2" and an empty frame list are parsed
by `GetVector` and accepted by `VerifyVectors`; `WriteImages` then runs with
`DoFrames` false, returns `ERR_NONE`, and both statistics writes and the
`miicv_put` it issued carry a frame component that was never assigned (`none`),
in `Coord`, in `Start` and in `Count`. -/
theorem WriteImages_frame_component_unassigned :
    GetVector "2" [0, 0, 0, 0] 4 = some (1, [2, 0, 0, 0], [0]) ∧
    GetVector "" [0, 0, 0, 0] 4 = some (0, [0, 0, 0, 0], []) ∧
    VerifyVectors [2, 0, 0, 0] [0, 0, 0, 0] 1 0 exampleImage = some (true, none) ∧
    (WriteImages exampleAtts exampleDefs (fun _ => true) exampleImage [2, 0, 0, 0] [0, 0, 0, 0]
        1 0 (startState [5, 7])).map (fun r => (r.1, r.2.calls)) =
      some (ErrCode.ERR_NONE,
        [WriteCall.fread 2 [5, 7],
         WriteCall.mivarput1 4 1 [none, some 2] 7,
         WriteCall.mivarput1 4 2 [none, some 2] 5,
         WriteCall.miicv_put 7 [none, some 2, some 0, some 0] [none, some 1, some 1, some 2]
           [5, 7]]) ∧
    exampleImage.FrameDim = 0 ∧ exampleImage.Frames = 2 := by
  decide

end Emma
